import Mathlib

/-!
# BinXML decoder of `parse_evtx.cpp` (KasperskyLab/ForensicsTools)

Shallow embedding of `SOURCES/forensics/main_parse_evtx.cpp` and
`SOURCES/tools/wintime.h`.

Conventions of the embedding

* The chunk buffer is a `Buffer` (`buf`): the byte at each index of the object and
  `none` outside it.  A C pointer into the buffer is the index of the byte it
  points to; `ParseContext.data` is such an index.
* A dereference outside an object is undefined behaviour in C.  The embedding
  stops there with `Run.fault`, naming the object and the index.
* `size_t` is 64 bits wide and every offset of the decoder is a sum of a start
  offset, 32-bit lengths and 16-bit lengths, far below `2 ^ 64`; offsets are
  natural numbers.  The 32-bit product `numArguments * 2` does wrap and is
  reduced modulo `2 ^ 32`.
* A C string is the list of its bytes without the terminating NUL.
* `malloc` and `strdup` are taken to succeed.
* The token loop of `ParseBinXml` and its nested calls take a fuel argument; a
  run that uses it up ends with `Run.outOfFuel`.
-/

namespace ParseEvtx

/-! ## Results of a run -/

/-- Kinds of access outside an object (undefined behaviour in the C program). -/
inductive Fault where
  /-- a byte of the chunk buffer is read at an index that is not below its length -/
  | chunkRead (index : Nat)
  /-- the table `templates` (and `knownIDs`) is indexed at or above `MAX_IDS` -/
  | templateIndex (idx : Nat)
  /-- the heap block `argumentMap` is read at or above its element count -/
  | argumentMap (idx : Nat)
  /-- the array `nameStack` is written at or above `MAX_NAME_STACK_DEPTH` -/
  | nameStackSlot (idx : Nat)
  deriving DecidableEq, Repr

/-- Outcome of running a piece of the decoder. -/
inductive Run (α : Type) where
  /-- the C function returned -/
  | done (a : α)
  /-- the C function performed an access outside an object -/
  | fault (f : Fault)
  /-- the fuel of the embedding ran out before the C function returned -/
  | outOfFuel
  deriving DecidableEq, Repr

/-! ## C strings and `printf` conversions -/

/-- Bytes of an ASCII string literal. -/
def ascii (s : String) : List Nat := s.data.map Char.toNat

/-- The C string held by a char buffer: the bytes before the first NUL. -/
def cstr (buffer : List Nat) : List Nat := buffer.takeWhile (fun b => b != 0)

/-- Digit character of a value below 16, upper case as in `%X`. -/
def digitChar (d : Nat) : Nat := if d < 10 then 48 + d else 55 + d

/-- Digits of `n` in `base`, most significant first (at least one digit). -/
def digitsAux (base : Nat) : Nat → Nat → List Nat → List Nat
  | 0, _, acc => acc
  | fuel + 1, n, acc =>
    if n < base then digitChar n :: acc
    else digitsAux base fuel (n / base) (digitChar (n % base) :: acc)

/-- Conversion of `printf` with a zero flag and a minimum field width. -/
def fmtNum (base width n : Nat) : List Nat :=
  let ds := digitsAux base (n + 1) n []
  List.replicate (width - ds.length) 48 ++ ds

/-- Conversion `%0<width>u`. -/
def fmtU (width n : Nat) : List Nat := fmtNum 10 width n

/-- Conversion `%0<width>X`. -/
def fmtX (width n : Nat) : List Nat := fmtNum 16 width n

/-! ## Parse context and byte cursor -/

/-- Type `XmlParseState`. -/
inductive XmlParseState where
  | StateNormal
  | StateInAttribute
  deriving DecidableEq, Repr

/-- Type `ParseContext`.  The pointer `chunkContext` is only ever dereferenced
by `ReadName`, which copies the pointed-to context and overwrites its `offset`;
the fields `data` and `dataLen` of a context do not change once the context is
set up, so the pointer is kept as the pair `chunkData`, `chunkDataLen` of the
context it points to. -/
structure ParseContext where
  chunkData : Nat
  chunkDataLen : Nat
  data : Nat
  dataLen : Nat
  offset : Nat
  offsetFromChunkStart : Nat
  state : XmlParseState
  currentTemplateIdx : Nat
  cachedValue : List Nat
  deriving DecidableEq, Repr

/-- The chunk buffer as the C program sees it: the byte stored at each index of
the object, and `none` at the indices outside it. -/
abbrev Buffer : Type := Nat → Option Nat

/-- The buffer that holds exactly the bytes of a list, from index 0. -/
def bufferOf (bytes : List Nat) : Buffer := fun i => bytes.get? i

/-- Function `HaveEnoughData`. -/
def HaveEnoughData (ctx : ParseContext) (numBytes : Nat) : Bool :=
  decide (ctx.offset + numBytes ≤ ctx.dataLen)

/-- Function `SkipBytes`. -/
def SkipBytes (ctx : ParseContext) (numBytes : Nat) : ParseContext :=
  { ctx with offset := ctx.offset + numBytes }

/-- Little-endian load of `size` bytes at index `addr` of the buffer, the
dereference `*(c*)(ctx->data + ctx->offset)`. -/
def loadLE (buf : Buffer) : Nat → Nat → Run Nat
  | _, 0 => .done 0
  | addr, size + 1 =>
    match buf addr with
    | none => .fault (.chunkRead addr)
    | some b =>
      match loadLE buf (addr + 1) size with
      | .done v => .done (b % 256 + 256 * v)
      | .fault e => .fault e
      | .outOfFuel => .outOfFuel

/-- The copy loop of `ReadData`: `count` elements of `size` bytes each. -/
def ReadDataLoop (buf : Buffer) (size : Nat) :
    Nat → ParseContext → Run (List Nat × ParseContext)
  | 0, ctx => .done ([], ctx)
  | count + 1, ctx =>
    match loadLE buf (ctx.data + ctx.offset) size with
    | .done v =>
      match ReadDataLoop buf size count { ctx with offset := ctx.offset + size } with
      | .done (vs, ctx1) => .done (v :: vs, ctx1)
      | .fault e => .fault e
      | .outOfFuel => .outOfFuel
    | .fault e => .fault e
    | .outOfFuel => .outOfFuel

/-- Function template `ReadData<c>` with `size = sizeof(c)`: `none` is the
return value `false`, `some vs` is `true` with the elements stored in `result`. -/
def ReadData (buf : Buffer) (size count : Nat) (ctx : ParseContext) :
    Run (Option (List Nat) × ParseContext) :=
  if HaveEnoughData ctx (size * count) then
    match ReadDataLoop buf size count ctx with
    | .done (vs, ctx1) => .done (some vs, ctx1)
    | .fault e => .fault e
    | .outOfFuel => .outOfFuel
  else .done (none, ctx)

/-- Call `ReadData(ctx, &x)` with the default `count = 1`. -/
def ReadScalar (buf : Buffer) (size : Nat) (ctx : ParseContext) :
    Run (Option Nat × ParseContext) :=
  match ReadData buf size 1 ctx with
  | .done (some (v :: _), ctx1) => .done (some v, ctx1)
  | .done (_, ctx1) => .done (none, ctx1)
  | .fault e => .fault e
  | .outOfFuel => .outOfFuel

/-! ## Template registry and name stack (the file-scope variables) -/

/-- Constant `MAX_IDS`. -/
def MAX_IDS : Nat := 256

/-- Constant `INVALID_TEMPLATE_IDX`, `(unsigned int)-1`. -/
def INVALID_TEMPLATE_IDX : Nat := 4294967295

/-- Constant `MAX_NAME_STACK_DEPTH`. -/
def MAX_NAME_STACK_DEPTH : Nat := 20

/-- Type `TemplateArgPair` without its `next` link. -/
structure TemplateArgPair where
  key : List Nat
  type : Nat
  argIdx : Nat
  deriving DecidableEq, Repr

/-- Type `TemplateFixedPair` without its `next` link. -/
structure TemplateFixedPair where
  key : List Nat
  value : List Nat
  deriving DecidableEq, Repr

/-- Type `TemplateDescription`: each root is the chain `root.next, root.next->next, ...`
as a list, head first. -/
structure TemplateDescription where
  shortID : Nat
  fixedRoot : List TemplateFixedPair
  argsRoot : List TemplateArgPair
  deriving DecidableEq, Repr

/-- The file-scope variables of the decoder and the text written to `stdout`.
`nameStack` lists the live slots `nameStack[nameStackPtr], ..., nameStack[0]`,
top first, so `nameStackPtr = nameStack.length - 1`; slots above the pointer are
overwritten by `PushName` before they are read again. -/
structure Globals where
  knownIDs : List Nat
  templates : List TemplateDescription
  numIDs : Nat
  nameStack : List (List Nat)
  stdout : List Nat
  deriving DecidableEq, Repr

/-- Function `InitTemplateDescription`. -/
def InitTemplateDescription : TemplateDescription :=
  { shortID := 0, fixedRoot := [], argsRoot := [] }

/-- State of the file-scope variables after `InitTemplates`, with nothing printed. -/
def initialGlobals : Globals :=
  { knownIDs := List.replicate MAX_IDS 0
    templates := List.replicate MAX_IDS InitTemplateDescription
    numIDs := 0
    nameStack := []
    stdout := [] }

/-- Function template `AddPair`: the new item becomes `root->next`. -/
def AddPair {c : Type} (root : List c) (item : c) : List c := item :: root

/-- Function `RegisterFixedPair`. -/
def RegisterFixedPair (templateIdx : Nat) (key value : List Nat) (g : Globals) : Run Globals :=
  match g.templates.get? templateIdx with
  | none => .fault (.templateIndex templateIdx)
  | some t =>
    let t1 : TemplateDescription :=
      { t with fixedRoot := AddPair t.fixedRoot { key := key, value := value } }
    .done { g with templates := g.templates.set templateIdx t1 }

/-- Function `RegisterArgPair`; `key = none` is the null pointer. -/
def RegisterArgPair (templateIdx : Nat) (key : Option (List Nat)) (type argIdx : Nat)
    (g : Globals) : Run Globals :=
  match g.templates.get? templateIdx with
  | none => .fault (.templateIndex templateIdx)
  | some t =>
    let newPair : TemplateArgPair :=
      { key := (match key with | none => [] | some k => k), type := type, argIdx := argIdx }
    let t1 : TemplateDescription := { t with argsRoot := AddPair t.argsRoot newPair }
    .done { g with templates := g.templates.set templateIdx t1 }

/-- Function `PushName`: the guard compares the old pointer with
`MAX_NAME_STACK_DEPTH`, the write goes to the slot of the incremented pointer. -/
def PushName (name : List Nat) (g : Globals) : Run Globals :=
  if (g.nameStack.length : Int) - 1 ≥ MAX_NAME_STACK_DEPTH then .done g
  else if g.nameStack.length ≥ MAX_NAME_STACK_DEPTH then
    .fault (.nameStackSlot g.nameStack.length)
  else .done { g with nameStack := name.take 255 :: g.nameStack }

/-- Function `PopName`. -/
def PopName (g : Globals) : Globals :=
  { g with nameStack := g.nameStack.tail }

/-- Function `GetName`; `none` is the null pointer. -/
def GetName (g : Globals) : Option (List Nat) := g.nameStack.head?

/-- Function `GetUpperName`; `none` is the null pointer. -/
def GetUpperName (g : Globals) : Option (List Nat) := g.nameStack.tail.head?

/-- The scan of `IsKnownID` from index `idx` over `n` further entries. -/
def IsKnownIDFrom (knownIDs : List Nat) (id : Nat) : Nat → Nat → Option Nat
  | 0, _ => none
  | n + 1, idx =>
    if knownIDs.get? idx = some id then some idx else IsKnownIDFrom knownIDs id n (idx + 1)

/-- Function `IsKnownID`: `some idx` is `true` with `*templateIdx = idx`. -/
def IsKnownID (id : Nat) (g : Globals) : Option Nat :=
  IsKnownIDFrom g.knownIDs id g.numIDs 0

/-- Function `RegisterID`: `none` is `false` (nothing stored through `templateIdx`). -/
def RegisterID (id : Nat) (g : Globals) : Option Nat × Globals :=
  if g.numIDs ≥ MAX_IDS then (none, g)
  else
    let slot : TemplateDescription := g.templates.getD g.numIDs InitTemplateDescription
    (some g.numIDs,
      { g with
        knownIDs := g.knownIDs.set g.numIDs id
        templates := g.templates.set g.numIDs { slot with shortID := id }
        numIDs := g.numIDs + 1 })

/-- Function `ResetTemplateDescription`. -/
def ResetTemplateDescription (_item : TemplateDescription) : TemplateDescription :=
  { shortID := 0, fixedRoot := [], argsRoot := [] }

/-- Function `ResetTemplates`: the first `numIDs` descriptions are reset. -/
def ResetTemplates (g : Globals) : Globals :=
  { g with
    templates :=
      (g.templates.take g.numIDs).map ResetTemplateDescription ++ g.templates.drop g.numIDs
    numIDs := 0 }

/-- Function `SetState`. -/
def SetState (ctx : ParseContext) (newState : XmlParseState) (g : Globals) :
    ParseContext × Globals :=
  if newState = ctx.state then (ctx, g)
  else
    ({ ctx with state := newState },
      if ctx.state = .StateInAttribute then PopName g else g)

/-! ## Strings and names -/

/-- The loop of `UTF16ToUTF8` that stores the continuation bytes, from index
`charLength - 1` down to `1`; returns the shifted `w` and the bytes in index order. -/
def continuationBytes : Nat → Nat → List Nat → Nat × List Nat
  | 0, w, acc => (w, acc)
  | charIndex + 1, w, acc =>
    continuationBytes charIndex (w >>> 6) ((128 ||| (w &&& 63)) % 256 :: acc)

/-- Function `UTF16ToUTF8`.  `buffer` holds the bytes `buffer[0 .. *bufferUsed)`, so
`*bufferUsed = buffer.length`, and the result is the buffer after the call. -/
def UTF16ToUTF8 (w : Nat) (buffer : List Nat) (bufferSize : Nat) : List Nat :=
  let charLength := 1
  let msb := 0
  let mask := 0
  let (charLength, msb, mask) :=
    if w > 127 then (charLength + 1, msb ||| (128 + 64), 255) else (charLength, msb, mask)
  let (charLength, msb, mask) :=
    if w > 2047 then (charLength + 1, msb ||| 32, 31) else (charLength, msb, mask)
  let (charLength, msb, mask) :=
    if w > 65535 then (charLength + 1, msb ||| 16, 15) else (charLength, msb, mask)
  if buffer.length + charLength ≥ bufferSize then buffer
  else if charLength = 1 then buffer ++ [w % 256]
  else
    let (w1, tail) := continuationBytes (charLength - 1) w []
    buffer ++ ((msb ||| (w1 &&& mask)) % 256 :: tail)

/-- The character loop of `ReadPrefixedUnicodeString`; `remaining` is
`nameCharCnt - idx`.  The result is `none` when a `ReadData` failed, else the
final `idx` and buffer. -/
def readCharsLoop (buf : Buffer) (nameBufferSize : Nat) :
    Nat → Nat → ParseContext → List Nat → Run (Option (Nat × List Nat) × ParseContext)
  | 0, idx, ctx, nameBuffer => .done (some (idx, nameBuffer), ctx)
  | remaining + 1, idx, ctx, nameBuffer =>
    if idx * 2 < nameBufferSize - 1 then
      match ReadScalar buf 2 ctx with
      | .done (some w, ctx1) =>
        readCharsLoop buf nameBufferSize remaining (idx + 1) ctx1
          (UTF16ToUTF8 w nameBuffer nameBufferSize)
      | .done (none, ctx1) => .done (none, ctx1)
      | .fault e => .fault e
      | .outOfFuel => .outOfFuel
    else .done (some (idx, nameBuffer), ctx)

/-- Function `ReadPrefixedUnicodeString`: `none` is `false`; `some b` is `true`
with `b` the bytes of `nameBuffer` before the NUL stored at `nameBufferUsed`. -/
def ReadPrefixedUnicodeString (buf : Buffer) (ctx : ParseContext) (nameBufferSize : Nat)
    (isNullTerminated : Bool) : Run (Option (List Nat) × ParseContext) :=
  match ReadScalar buf 2 ctx with
  | .done (some nameCharCnt, ctx1) =>
    match readCharsLoop buf nameBufferSize nameCharCnt 0 ctx1 [] with
    | .done (some (idx, nameBuffer), ctx2) =>
      let nameBufferUsed :=
        if nameBuffer.length ≥ nameBufferSize then nameBufferSize - 1 else nameBuffer.length
      .done (some (nameBuffer.take nameBufferUsed),
        SkipBytes ctx2 ((nameCharCnt - idx + (if isNullTerminated then 1 else 0)) * 2))
    | .done (none, ctx2) => .done (none, ctx2)
    | .fault e => .fault e
    | .outOfFuel => .outOfFuel
  | .done (none, ctx1) => .done (none, ctx1)
  | .fault e => .fault e
  | .outOfFuel => .outOfFuel

/-- The reads of `ReadName` after the choice of `ctxPtr`: the link, the hash
and the string. -/
def readNameBody (buf : Buffer) (ctxPtr : ParseContext) (nameBufferSize : Nat) :
    Run (Option (List Nat) × ParseContext) :=
  match ReadScalar buf 4 ctxPtr with
  | .done (some _, c1) =>
    match ReadScalar buf 2 c1 with
    | .done (some _, c2) => ReadPrefixedUnicodeString buf c2 nameBufferSize true
    | .done (none, c2) => .done (none, c2)
    | .fault e => .fault e
    | .outOfFuel => .outOfFuel
  | .done (none, c1) => .done (none, c1)
  | .fault e => .fault e
  | .outOfFuel => .outOfFuel

/-- Function `ReadName`: `none` is `false`, `some b` is `true` with the bytes of
`nameBuffer`; the context returned is the main context `*ctx`.  When the name is
out of place the reads go through `temporaryCtx`, the copy of `*ctx->chunkContext`
with its `offset` set to `chunkOffset`, and that copy is dropped. -/
def ReadName (buf : Buffer) (ctx : ParseContext) (nameBufferSize : Nat) :
    Run (Option (List Nat) × ParseContext) :=
  if nameBufferSize < 2 then .done (none, ctx)
  else
    match ReadScalar buf 4 ctx with
    | .done (some chunkOffset, ctx1) =>
      if ctx1.offset + ctx1.offsetFromChunkStart ≠ chunkOffset then
        let temporaryCtx : ParseContext :=
          { ctx1 with data := ctx1.chunkData, dataLen := ctx1.chunkDataLen, offset := chunkOffset }
        match readNameBody buf temporaryCtx nameBufferSize with
        | .done (r, _) => .done (r, ctx1)
        | .fault e => .fault e
        | .outOfFuel => .outOfFuel
      else readNameBody buf ctx1 nameBufferSize
    | .done (none, ctx1) => .done (none, ctx1)
    | .fault e => .fault e
    | .outOfFuel => .outOfFuel

/-- Function `GetProperKeyName`; `none` is the null pointer. -/
def GetProperKeyName (ctx : ParseContext) (g : Globals) : Option (List Nat) :=
  let key := GetName g
  let upperName := GetUpperName g
  if upperName ≠ none ∧ key = some (ascii "Data") ∧ upperName = some (ascii "EventData") ∧
      ctx.cachedValue ≠ [] then
    some ctx.cachedValue
  else key

/-! ## Token handlers -/

/-- Function `ParseValueText`. -/
def ParseValueText (buf : Buffer) (ctx : ParseContext) (g : Globals) :
    Run (Bool × ParseContext × Globals) :=
  match ReadScalar buf 1 ctx with
  | .done (some _, ctx1) =>
    match ReadPrefixedUnicodeString buf ctx1 256 false with
    | .done (some valueBuffer, ctx2) =>
      let key := GetProperKeyName ctx2 g
      let upperName := GetUpperName g
      let registered : Run Globals :=
        match key with
        | some k =>
          if upperName = none ∨ k ≠ ascii "Name" ∨ GetUpperName g ≠ some (ascii "Data") then
            RegisterFixedPair ctx2.currentTemplateIdx k (cstr valueBuffer) g
          else .done g
        | none => .done g
      match registered with
      | .done g1 =>
        let (ctx3, g2) := SetState ctx2 .StateNormal g1
        .done (true, { ctx3 with cachedValue := (cstr valueBuffer).take 255 }, g2)
      | .fault e => .fault e
      | .outOfFuel => .outOfFuel
    | .done (none, ctx2) => .done (false, ctx2, g)
    | .fault e => .fault e
    | .outOfFuel => .outOfFuel
  | .done (none, ctx1) => .done (false, ctx1, g)
  | .fault e => .fault e
  | .outOfFuel => .outOfFuel

/-- Function `ParseAttributes`. -/
def ParseAttributes (buf : Buffer) (ctx : ParseContext) (g : Globals) :
    Run (Bool × ParseContext × Globals) :=
  match ReadName buf ctx 256 with
  | .done (some nameBuffer, ctx1) =>
    match PushName (cstr nameBuffer) g with
    | .done g1 =>
      let (ctx2, g2) := SetState ctx1 .StateInAttribute g1
      .done (true, ctx2, g2)
    | .fault e => .fault e
    | .outOfFuel => .outOfFuel
  | .done (none, ctx1) => .done (false, ctx1, g)
  | .fault e => .fault e
  | .outOfFuel => .outOfFuel

/-- The optional read of `attributeListLength` in `ParseOpenStartElement`. -/
def readAttributeListLength (buf : Buffer) (hasAttributes : Bool) (ctx : ParseContext) :
    Run (Bool × ParseContext) :=
  if hasAttributes then
    match ReadScalar buf 4 ctx with
    | .done (some _, ctx1) => .done (true, ctx1)
    | .done (none, ctx1) => .done (false, ctx1)
    | .fault e => .fault e
    | .outOfFuel => .outOfFuel
  else .done (true, ctx)

/-- Function `ParseOpenStartElement`. -/
def ParseOpenStartElement (buf : Buffer) (ctx : ParseContext) (hasAttributes : Bool)
    (g : Globals) : Run (Bool × ParseContext × Globals) :=
  match ReadScalar buf 2 ctx with
  | .done (some _, ctx1) =>
    match ReadScalar buf 4 ctx1 with
    | .done (some _, ctx2) =>
      match ReadName buf ctx2 256 with
      | .done (some nameBuffer, ctx3) =>
        match readAttributeListLength buf hasAttributes ctx3 with
        | .done (true, ctx4) =>
          match PushName (cstr nameBuffer) g with
          | .done g1 => .done (true, ctx4, g1)
          | .fault e => .fault e
          | .outOfFuel => .outOfFuel
        | .done (false, ctx4) => .done (false, ctx4, g)
        | .fault e => .fault e
        | .outOfFuel => .outOfFuel
      | .done (none, ctx3) => .done (false, ctx3, g)
      | .fault e => .fault e
      | .outOfFuel => .outOfFuel
    | .done (none, ctx2) => .done (false, ctx2, g)
    | .fault e => .fault e
    | .outOfFuel => .outOfFuel
  | .done (none, ctx1) => .done (false, ctx1, g)
  | .fault e => .fault e
  | .outOfFuel => .outOfFuel

/-- Function `ParseCloseStartElement`. -/
def ParseCloseStartElement (ctx : ParseContext) (g : Globals) :
    Run (Bool × ParseContext × Globals) :=
  let (ctx1, g1) := SetState ctx .StateNormal g
  .done (true, ctx1, g1)

/-- Function `ParseCloseElement`. -/
def ParseCloseElement (ctx : ParseContext) (g : Globals) :
    Run (Bool × ParseContext × Globals) :=
  let (ctx1, g1) := SetState ctx .StateNormal g
  .done (true, ctx1, PopName g1)

/-- The reads of `ParseOptionalSubstitution`: `substitutionID` and `valueType`. -/
def readSubstitution (buf : Buffer) (ctx : ParseContext) :
    Run (Option (Nat × Nat) × ParseContext) :=
  match ReadScalar buf 2 ctx with
  | .done (some substitutionID, ctx1) =>
    match ReadScalar buf 1 ctx1 with
    | .done (some valueType, ctx2) =>
      if valueType = 0 then
        match ReadScalar buf 1 ctx2 with
        | .done (some valueType1, ctx3) => .done (some (substitutionID, valueType1), ctx3)
        | .done (none, ctx3) => .done (none, ctx3)
        | .fault e => .fault e
        | .outOfFuel => .outOfFuel
      else .done (some (substitutionID, valueType), ctx2)
    | .done (none, ctx2) => .done (none, ctx2)
    | .fault e => .fault e
    | .outOfFuel => .outOfFuel
  | .done (none, ctx1) => .done (none, ctx1)
  | .fault e => .fault e
  | .outOfFuel => .outOfFuel

/-- Function `ParseOptionalSubstitution`. -/
def ParseOptionalSubstitution (buf : Buffer) (ctx : ParseContext) (g : Globals) :
    Run (Bool × ParseContext × Globals) :=
  match readSubstitution buf ctx with
  | .done (some (substitutionID, valueType), ctx1) =>
    match RegisterArgPair ctx1.currentTemplateIdx (GetProperKeyName ctx1 g) valueType
        substitutionID g with
    | .done g1 =>
      let (ctx2, g2) := SetState ctx1 .StateNormal g1
      .done (true, ctx2, g2)
    | .fault e => .fault e
    | .outOfFuel => .outOfFuel
  | .done (none, ctx1) => .done (false, ctx1, g)
  | .fault e => .fault e
  | .outOfFuel => .outOfFuel

/-! ## Read-only tables and library functions -/

/-- Type `struct tm`, the fields the decoder prints. -/
structure Tm where
  tm_year : Int
  tm_mon : Int
  tm_mday : Int
  tm_hour : Int
  tm_min : Int
  tm_sec : Int
  deriving DecidableEq, Repr

/-- What the decoder takes from outside `main_parse_evtx.cpp`: the table
`eventDescriptionHashTable` (65536 entries filled from `eventlist.h`, `none` is
the null pointer), the library function `gmtime_r` (`none` is the null pointer),
and `uninitialised`, the indeterminate value that `templateCtx.currentTemplateIdx`
holds when `RegisterID` returns `false` without storing through its pointer. -/
structure Env where
  eventDescriptionHashTable : Nat → Option (List Nat)
  gmtime_r : Nat → Option Tm
  uninitialised : Nat

/-- Table `logonTypes`. -/
def logonTypes : List (Option (List Nat)) :=
  [none, none, some (ascii "Interactive"), some (ascii "Network"), some (ascii "Batch"),
   some (ascii "Service"), none, some (ascii "Unlock"), some (ascii "NetworkCleartext"),
   some (ascii "NewCredentials"), some (ascii "RemoteInteractive"),
   some (ascii "CachedInteractive")]

/-- Function `UnixTimeFromFileTime` of `wintime.h`, in 64-bit unsigned arithmetic. -/
def UnixTimeFromFileTime (fileTime : Nat) : Nat :=
  ((fileTime % 2 ^ 64 + 2 ^ 64 - (11644473600000 * 10000) % 2 ^ 64) % 2 ^ 64) / 10000000

/-- Library predicate `isspace` in the C locale. -/
def isspace (c : Nat) : Bool := decide (c = 32 ∨ (9 ≤ c ∧ c ≤ 13))

/-- The digit loop of `strtoul` in base 10. -/
def strtoulDigits : List Nat → Nat → Nat
  | [], acc => acc
  | c :: cs, acc => if 48 ≤ c ∧ c ≤ 57 then strtoulDigits cs (acc * 10 + (c - 48)) else acc

/-- Library function `strtoul(s, NULL, 10)` with a 64-bit `unsigned long`. -/
def strtoul (s : List Nat) : Nat :=
  let s1 := s.dropWhile isspace
  let (neg, s2) :=
    match s1 with
    | 45 :: r => (true, r)
    | 43 :: r => (false, r)
    | _ => (false, s1)
  let v := strtoulDigits s2 0
  if v ≥ 2 ^ 64 then 2 ^ 64 - 1
  else if neg then (2 ^ 64 - v) % 2 ^ 64
  else v

/-- The byte of the apostrophe. -/
def apostrophe : List Nat := [39]

/-- Output `'%s':` of a key. -/
def fmtKey (key : List Nat) : List Nat := apostrophe ++ key ++ apostrophe ++ [58]

/-- Conversion `%u` of an `int` argument. -/
def fmtInt (width : Nat) (x : Int) : List Nat := fmtU width (x % 4294967296).toNat

/-! ## Template instance -/

/-- Body of the loop of `ParseTemplateInstance` over the fixed pairs: the text
printed for one pair. -/
def printFixedPair (env : Env) (ptr : TemplateFixedPair) : List Nat :=
  let eventID := strtoul ptr.value % 65536
  let plain := fmtKey ptr.key ++ apostrophe ++ ptr.value ++ apostrophe ++ ascii ", "
  if ptr.key = ascii "EventID" then
    match env.eventDescriptionHashTable eventID with
    | some description =>
      if eventID ≠ 0 then
        fmtKey ptr.key ++ fmtU 0 eventID ++ ascii " (" ++ description ++ ascii "), "
      else plain
    | none => plain
  else plain

/-- The loop of `ParseTemplateInstance` over the fixed pairs of a template,
from `fixedRoot.next` along the `next` links. -/
def printFixedPairs (env : Env) (fixedRoot : List TemplateFixedPair) : List Nat :=
  (fixedRoot.map (printFixedPair env)).flatten

/-- The search loop for `argPair`: the first pair along the chain with
`argIdx == argumentIdx`. -/
def findArgPair (argsRoot : List TemplateArgPair) (argumentIdx : Nat) : Option TemplateArgPair :=
  argsRoot.find? (fun ptr => decide (ptr.argIdx = argumentIdx))

/-- Case `0x01`, the loop over `argLen / 2` code units. -/
def readStringLoop (buf : Buffer) (stringSize : Nat) :
    Nat → ParseContext → List Nat → Run (Option (List Nat) × ParseContext)
  | 0, ctx, stringBuffer => .done (some stringBuffer, ctx)
  | n + 1, ctx, stringBuffer =>
    match ReadScalar buf 2 ctx with
    | .done (some v_w, ctx1) =>
      readStringLoop buf stringSize n ctx1 (UTF16ToUTF8 v_w stringBuffer stringSize)
    | .done (none, ctx1) => .done (none, ctx1)
    | .fault e => .fault e
    | .outOfFuel => .outOfFuel

/-- Case `0x0E`, the loop over `argLen` bytes; the text is printed byte by byte,
so it is returned also when a `ReadData` fails. -/
def readBinaryLoop (buf : Buffer) :
    Nat → ParseContext → List Nat → Run (Bool × ParseContext × List Nat)
  | 0, ctx, out => .done (true, ctx, out)
  | n + 1, ctx, out =>
    match ReadScalar buf 1 ctx with
    | .done (some v_b, ctx1) => readBinaryLoop buf n ctx1 (out ++ fmtX 2 v_b)
    | .done (none, ctx1) => .done (false, ctx1, out)
    | .fault e => .fault e
    | .outOfFuel => .outOfFuel

/-- Case `0x13`, the loop over the sub-authorities, `(argLen - 8) / 4` of them. -/
def readSubAuthorities (buf : Buffer) :
    Nat → ParseContext → List Nat → Run (Bool × ParseContext × List Nat)
  | 0, ctx, out => .done (true, ctx, out)
  | n + 1, ctx, out =>
    match ReadScalar buf 4 ctx with
    | .done (some v_d, ctx1) => readSubAuthorities buf n ctx1 (out ++ [45] ++ fmtU 0 v_d)
    | .done (none, ctx1) => .done (false, ctx1, out)
    | .fault e => .fault e
    | .outOfFuel => .outOfFuel

/-- Output helper: append text to `stdout`. -/
def printf (text : List Nat) (g : Globals) : Globals :=
  { g with stdout := g.stdout ++ text }

/-- A fixed-width typed argument: read `size` bytes as one value and print
`'key':` followed by `render value` and `, `. -/
def readAndPrint (buf : Buffer) (size : Nat) (key : List Nat) (render : Nat → List Nat)
    (ctx : ParseContext) (g : Globals) : Run (Bool × ParseContext × Globals) :=
  match ReadScalar buf size ctx with
  | .done (some v, ctx1) => .done (true, ctx1, printf (fmtKey key ++ render v ++ ascii ", ") g)
  | .done (none, ctx1) => .done (false, ctx1, g)
  | .fault e => .fault e
  | .outOfFuel => .outOfFuel

/-- The type of `ParseBinXml`, which `ParseTemplateInstance` calls back. -/
abbrev Parser : Type := ParseContext → Globals → Run (Bool × ParseContext × Globals)

/-- Text after the value of a `0x06` argument: the event description. -/
def eventSuffix (env : Env) (key : List Nat) (v_w : Nat) : List Nat :=
  if key = ascii "EventID" then
    match env.eventDescriptionHashTable v_w with
    | some description => ascii " (" ++ description ++ ascii ")"
    | none => []
  else []

/-- Text after the value of a `0x08` argument: the logon type label. -/
def logonSuffix (key : List Nat) (v_d : Nat) : List Nat :=
  if key = ascii "LogonType" ∧ v_d ≤ 11 then
    match logonTypes.get? v_d with
    | some (some label) => ascii " (" ++ label ++ ascii ")"
    | _ => []
  else []

/-- Text of a GUID read as one packed 16-byte little-endian value:
`%08X-%02X-%02X-%02X%02X%02X%02X%02X%02X%02X%02X`. -/
def fmtGuid (guid : Nat) : List Nat :=
  fmtX 8 (guid % 2 ^ 32) ++ [45] ++ fmtX 2 (guid / 2 ^ 32 % 2 ^ 16) ++ [45] ++
  fmtX 2 (guid / 2 ^ 48 % 2 ^ 16) ++ [45] ++
  ((List.range 8).map (fun i => fmtX 2 (guid / 2 ^ (64 + 8 * i) % 256))).flatten

/-- Text of a FILETIME argument. -/
def fmtFileTime (env : Env) (v_q : Nat) : List Nat :=
  match env.gmtime_r (UnixTimeFromFileTime v_q) with
  | none => fmtX 16 v_q
  | some t =>
    fmtInt 4 (t.tm_year + 1900) ++ [46] ++ fmtInt 2 (t.tm_mon + 1) ++ [46] ++ fmtInt 2 t.tm_mday ++
    [45] ++ fmtInt 2 t.tm_hour ++ [58] ++ fmtInt 2 t.tm_min ++ [58] ++ fmtInt 2 t.tm_sec

/-- The authority of a SID: bytes `sid[2] .. sid[7]` as one big-endian number. -/
def sidAuthority (sid : List Nat) : Nat :=
  (sid.drop 2).foldl (fun v_q b => ((v_q <<< 8) % 2 ^ 64) ||| b) 0

/-- The `switch (argType)` of `ParseTemplateInstance` for an argument bound to
`argPair`.  The Boolean `false` is `return false`. -/
def decodeArgument (env : Env) (buf : Buffer) (ParseBinXml : Parser) (argPair : TemplateArgPair)
    (argLen argType : Nat) (ctx : ParseContext) (g : Globals) :
    Run (Bool × ParseContext × Globals) :=
  if argType = 1 then
    let stringSize := argLen * 2 + 2
    match readStringLoop buf stringSize (argLen / 2) ctx [] with
    | .done (some stringBuffer, ctx1) =>
      let stringNumUsed :=
        if stringBuffer.length ≥ stringSize then stringSize - 1 else stringBuffer.length
      .done (true, ctx1, printf (fmtKey argPair.key ++ apostrophe ++
        cstr (stringBuffer.take stringNumUsed) ++ apostrophe ++ ascii ", ") g)
    | .done (none, ctx1) => .done (false, ctx1, g)
    | .fault e => .fault e
    | .outOfFuel => .outOfFuel
  else if argType = 4 then readAndPrint buf 1 argPair.key (fmtU 2) ctx g
  else if argType = 6 then
    readAndPrint buf 2 argPair.key (fun v_w => fmtU 4 v_w ++ eventSuffix env argPair.key v_w) ctx g
  else if argType = 8 then
    readAndPrint buf 4 argPair.key (fun v_d => fmtU 8 v_d ++ logonSuffix argPair.key v_d) ctx g
  else if argType = 10 then readAndPrint buf 8 argPair.key (fmtU 16) ctx g
  else if argType = 14 then
    match readBinaryLoop buf argLen ctx (fmtKey argPair.key) with
    | .done (true, ctx1, out) => .done (true, ctx1, printf (out ++ ascii ", ") g)
    | .done (false, ctx1, out) => .done (false, ctx1, printf out g)
    | .fault e => .fault e
    | .outOfFuel => .outOfFuel
  else if argType = 15 then readAndPrint buf 16 argPair.key fmtGuid ctx g
  else if argType = 20 then readAndPrint buf 4 argPair.key (fmtX 8) ctx g
  else if argType = 21 then readAndPrint buf 8 argPair.key (fmtX 16) ctx g
  else if argType = 17 then readAndPrint buf 8 argPair.key (fmtFileTime env) ctx g
  else if argType = 19 then
    if argLen < 8 then .done (false, ctx, g)
    else
      match ReadData buf 1 8 ctx with
      | .done (some sid, ctx1) =>
        let head := fmtKey argPair.key ++ ascii "S-" ++ fmtU 0 (sid.headD 0) ++ [45] ++
          fmtU 0 (sidAuthority sid)
        match readSubAuthorities buf ((argLen - 8) / 4) ctx1 head with
        | .done (true, ctx2, out) => .done (true, ctx2, printf (out ++ ascii ", ") g)
        | .done (false, ctx2, out) => .done (false, ctx2, printf out g)
        | .fault e => .fault e
        | .outOfFuel => .outOfFuel
      | .done (none, ctx1) => .done (false, ctx1, g)
      | .fault e => .fault e
      | .outOfFuel => .outOfFuel
  else if argType = 33 then
    let temporaryCtx : ParseContext := { ctx with dataLen := ctx.offset + argLen }
    match ParseBinXml temporaryCtx g with
    | .done (_, _, g1) => .done (true, SkipBytes ctx argLen, g1)
    | .fault e => .fault e
    | .outOfFuel => .outOfFuel
  else
    let g1 :=
      if argType ≠ 0 then
        printf (fmtKey argPair.key ++ apostrophe ++ ascii "...//" ++ fmtX 4 argPair.type ++
          ascii "[" ++ fmtX 4 argLen ++ ascii "]" ++ apostrophe ++ ascii ", ") g
      else g
    .done (true, SkipBytes ctx argLen, g1)

/-- Body of the loop of `ParseTemplateInstance` over the arguments, for argument
`argumentIdx` with map entry `(argLen, argType)`.  `false` is `return false`. -/
def bindArgument (env : Env) (buf : Buffer) (ParseBinXml : Parser)
    (argLen argType argumentIdx : Nat) (ctx : ParseContext) (g : Globals) :
    Run (Bool × ParseContext × Globals) :=
  match g.templates.get? ctx.currentTemplateIdx with
  | none => .fault (.templateIndex ctx.currentTemplateIdx)
  | some t =>
    match findArgPair t.argsRoot argumentIdx with
    | none => .done (true, SkipBytes ctx argLen, g)
    | some argPair => decodeArgument env buf ParseBinXml argPair argLen argType ctx g

/-- The loop of `ParseTemplateInstance` over `argumentIdx < numArguments`;
`remaining` is `numArguments - argumentIdx`, and `argumentMap` is the heap
block of `argumentMapCount` 16-bit values. -/
def argumentLoop (env : Env) (buf : Buffer) (ParseBinXml : Parser) (argumentMap : List Nat) :
    Nat → Nat → ParseContext → Globals → Run (Bool × ParseContext × Globals)
  | 0, _, ctx, g => .done (true, ctx, g)
  | remaining + 1, argumentIdx, ctx, g =>
    match argumentMap.get? (argumentIdx * 2) with
    | none => .fault (.argumentMap (argumentIdx * 2))
    | some argLen =>
      match argumentMap.get? (argumentIdx * 2 + 1) with
      | none => .fault (.argumentMap (argumentIdx * 2 + 1))
      | some argType =>
        match bindArgument env buf ParseBinXml argLen argType argumentIdx ctx g with
        | .done (true, ctx1, g1) =>
          argumentLoop env buf ParseBinXml argumentMap remaining (argumentIdx + 1) ctx1 g1
        | .done (false, ctx1, g1) => .done (false, ctx1, g1)
        | .fault e => .fault e
        | .outOfFuel => .outOfFuel

/-- The part of `ParseTemplateInstance` after the template is resolved: print
the fixed pairs, read the argument map, bind the arguments. -/
def emitInstance (env : Env) (buf : Buffer) (ParseBinXml : Parser) (numArguments : Nat)
    (ctx : ParseContext) (g : Globals) : Run (Bool × ParseContext × Globals) :=
  match g.templates.get? ctx.currentTemplateIdx with
  | none => .fault (.templateIndex ctx.currentTemplateIdx)
  | some t =>
    let g1 := printf (printFixedPairs env t.fixedRoot) g
    let argumentMapCount := (numArguments * 2) % 2 ^ 32
    match ReadData buf 2 argumentMapCount ctx with
    | .done (some argumentMap, ctx1) =>
      argumentLoop env buf ParseBinXml argumentMap numArguments 0 ctx1 g1
    | .done (none, ctx1) =>
      .done (false, ctx1, printf (ascii "Failed to read the arguments\n") g1)
    | .fault e => .fault e
    | .outOfFuel => .outOfFuel

/-- The header reads of `ParseTemplateInstance`: the byte `b`, then `shortID`,
`tempResLen` and `numArguments`; `none` is `return false`. -/
def readInstanceHeader (buf : Buffer) (ctx : ParseContext) :
    Run (Option (Nat × Nat) × ParseContext) :=
  match ReadScalar buf 1 ctx with
  | .done (some b, ctx1) =>
    if b ≠ 1 then .done (none, ctx1)
    else
      match ReadScalar buf 4 ctx1 with
      | .done (some shortID, ctx2) =>
        match ReadScalar buf 4 ctx2 with
        | .done (some _, ctx3) =>
          match ReadScalar buf 4 ctx3 with
          | .done (some numArguments, ctx4) => .done (some (shortID, numArguments), ctx4)
          | .done (none, ctx4) => .done (none, ctx4)
          | .fault e => .fault e
          | .outOfFuel => .outOfFuel
        | .done (none, ctx3) => .done (none, ctx3)
        | .fault e => .fault e
        | .outOfFuel => .outOfFuel
      | .done (none, ctx2) => .done (none, ctx2)
      | .fault e => .fault e
      | .outOfFuel => .outOfFuel
  | .done (none, ctx1) => .done (none, ctx1)
  | .fault e => .fault e
  | .outOfFuel => .outOfFuel

/-- The branch of `ParseTemplateInstance` for a `shortID` that is not known: the
template definition follows.  Returns `none` for `return false`, else the
`numArguments` read after the body; the context is `*ctx`. -/
def parseTemplateDefinition (env : Env) (buf : Buffer) (ParseBinXml : Parser) (shortID : Nat)
    (ctx : ParseContext) (g : Globals) : Run (Option Nat × ParseContext × Globals) :=
  match ReadData buf 1 16 ctx with
  | .done (some _, ctx1) =>
    match ReadScalar buf 4 ctx1 with
    | .done (some templateBodyLen, ctx2) =>
      let (registeredIdx, g1) := RegisterID shortID g
      let templateCtx : ParseContext :=
        { data := ctx2.data + ctx2.offset
          dataLen := templateBodyLen
          offset := 0
          chunkData := ctx2.data
          chunkDataLen := ctx2.dataLen
          offsetFromChunkStart := ctx2.offset + ctx2.offsetFromChunkStart
          cachedValue := []
          state := .StateNormal
          currentTemplateIdx :=
            (match registeredIdx with
             | some idx => idx
             | none => env.uninitialised) }
      match ParseBinXml templateCtx g1 with
      | .done (true, templateCtx1, g2) =>
        let ctx3 := SkipBytes ctx2 templateBodyLen
        match ReadScalar buf 4 ctx3 with
        | .done (some numArguments, ctx4) =>
          .done (some numArguments,
            { ctx4 with currentTemplateIdx := templateCtx1.currentTemplateIdx }, g2)
        | .done (none, ctx4) => .done (none, ctx4, g2)
        | .fault e => .fault e
        | .outOfFuel => .outOfFuel
      | .done (false, _, g2) => .done (none, ctx2, g2)
      | .fault e => .fault e
      | .outOfFuel => .outOfFuel
    | .done (none, ctx2) => .done (none, ctx2, g)
    | .fault e => .fault e
    | .outOfFuel => .outOfFuel
  | .done (none, ctx1) => .done (none, ctx1, g)
  | .fault e => .fault e
  | .outOfFuel => .outOfFuel

/-- Function `ParseTemplateInstance`. -/
def ParseTemplateInstance (env : Env) (buf : Buffer) (ParseBinXml : Parser)
    (ctx : ParseContext) (g : Globals) : Run (Bool × ParseContext × Globals) :=
  match readInstanceHeader buf ctx with
  | .done (some (shortID, numArguments), ctx1) =>
    match IsKnownID shortID g with
    | some idx =>
      emitInstance env buf ParseBinXml numArguments { ctx1 with currentTemplateIdx := idx } g
    | none =>
      match parseTemplateDefinition env buf ParseBinXml shortID ctx1 g with
      | .done (some numArguments1, ctx2, g1) =>
        emitInstance env buf ParseBinXml numArguments1 ctx2 g1
      | .done (none, ctx2, g1) => .done (false, ctx2, g1)
      | .fault e => .fault e
      | .outOfFuel => .outOfFuel
  | .done (none, ctx1) => .done (false, ctx1, g)
  | .fault e => .fault e
  | .outOfFuel => .outOfFuel

/-! ## Token loop -/

/-- The `switch (tag)` of `ParseBinXml`; the Boolean is the new `result`. -/
def dispatchToken (env : Env) (buf : Buffer) (ParseBinXml : Parser) (tag : Nat)
    (ctx : ParseContext) (g : Globals) : Run (Bool × ParseContext × Globals) :=
  if tag = 0 then .done (true, { ctx with offset := ctx.dataLen }, g)
  else if tag = 1 then ParseOpenStartElement buf ctx false g
  else if tag = 65 then ParseOpenStartElement buf ctx true g
  else if tag = 2 then ParseCloseStartElement ctx g
  else if tag = 3 ∨ tag = 4 then ParseCloseElement ctx g
  else if tag = 5 ∨ tag = 69 then ParseValueText buf ctx g
  else if tag = 6 ∨ tag = 70 then ParseAttributes buf ctx g
  else if tag = 7 ∨ tag = 71 ∨ tag = 8 ∨ tag = 72 ∨ tag = 9 ∨ tag = 73 ∨ tag = 10 ∨ tag = 11 then
    .done (true, ctx, g)
  else if tag = 12 then ParseTemplateInstance env buf ParseBinXml ctx g
  else if tag = 13 ∨ tag = 14 then ParseOptionalSubstitution buf ctx g
  else if tag = 15 then .done (true, SkipBytes ctx 3, g)
  else .done (false, ctx, g)

/-- The `while` loop of `ParseBinXml` (entered with `result == true`).  One unit
of fuel is spent per iteration and per nested call of `ParseBinXml`. -/
def ParseBinXmlLoop (env : Env) (buf : Buffer) :
    Nat → ParseContext → Globals → Run (Bool × ParseContext × Globals)
  | 0, _, _ => .outOfFuel
  | fuel + 1, ctx, g =>
    if ctx.offset < ctx.dataLen then
      match buf (ctx.data + ctx.offset) with
      | none => .fault (.chunkRead (ctx.data + ctx.offset))
      | some b =>
        let tag := b % 256
        match dispatchToken env buf
            (fun c g0 => ParseBinXmlLoop env buf fuel { c with state := .StateNormal } g0)
            tag { ctx with offset := ctx.offset + 1 } g with
        | .done (true, ctx1, g1) => ParseBinXmlLoop env buf fuel ctx1 g1
        | .done (false, ctx1, g1) => .done (false, ctx1, g1)
        | .fault e => .fault e
        | .outOfFuel => .outOfFuel
    else .done (true, ctx, g)

/-- Function `ParseBinXml` (the argument `inFileOffset` is only used by
commented-out tracing). -/
def ParseBinXml (env : Env) (buf : Buffer) (fuel : Nat) : Parser :=
  fun ctx g => ParseBinXmlLoop env buf fuel { ctx with state := .StateNormal } g

/-- Function `ParseBinXmlPre`: `data` is the chunk buffer `buf` itself. -/
def ParseBinXmlPre (env : Env) (buf : Buffer) (fuel : Nat) (dataLen inChunkOffset : Nat)
    (g : Globals) : Run (Bool × ParseContext × Globals) :=
  let ctx : ParseContext :=
    { data := 0
      dataLen := dataLen
      offset := inChunkOffset
      currentTemplateIdx := INVALID_TEMPLATE_IDX
      chunkData := 0
      chunkDataLen := dataLen
      offsetFromChunkStart := 0
      cachedValue := []
      state := .StateNormal }
  ParseBinXml env buf fuel ctx g

/-! # Definitions used in the statements -/

/-- Only the offset of a context changed, and it did not decrease. -/
def OffsetOnly (ctx ctx1 : ParseContext) : Prop :=
  ctx1 = { ctx with offset := ctx1.offset } ∧ ctx.offset ≤ ctx1.offset

/-- A table with no event description and a `gmtime_r` that knows the Unix
epoch only, `1970-01-01 00:00:00`; the indeterminate template index is `junk`. -/
def envWith (junk : Nat) : Env :=
  { eventDescriptionHashTable := fun _ => none
    gmtime_r := fun t =>
      if t = 0 then
        some { tm_year := 70, tm_mon := 0, tm_mday := 1, tm_hour := 0, tm_min := 0, tm_sec := 0 }
      else none
    uninitialised := junk }

/-- A context over a whole buffer of `dataLen` bytes, as `ParseBinXmlPre` sets it
up, with a chosen template index and sub-state. -/
def contextAt (dataLen offset templateIdx : Nat) (state : XmlParseState) : ParseContext :=
  { data := 0
    dataLen := dataLen
    offset := offset
    currentTemplateIdx := templateIdx
    chunkData := 0
    chunkDataLen := dataLen
    offsetFromChunkStart := 0
    cachedValue := []
    state := state }

/-- Payload of a ValueText token after its tag: string type 1, one code unit `v`. -/
def valueTextBytes : List Nat := [1, 1, 0, 118, 0]

/-- The byte region and the chunk reference of a context are unchanged and its
offset did not decrease. -/
def SameRegion (ctx ctx1 : ParseContext) : Prop :=
  ctx1.data = ctx.data ∧ ctx1.dataLen = ctx.dataLen ∧ ctx1.chunkData = ctx.chunkData ∧
  ctx1.chunkDataLen = ctx.chunkDataLen ∧ ctx1.offsetFromChunkStart = ctx.offsetFromChunkStart ∧
  ctx.offset ≤ ctx1.offset

/-- A relation between the file-scope variables before and after a step that
every primitive update of the decoder respects. -/
structure GlobalsStep (R : Globals → Globals → Prop) : Prop where
  refl : ∀ g, R g g
  trans : ∀ a b c, R a b → R b c → R a c
  registerFixed : ∀ idx k v g g1, RegisterFixedPair idx k v g = .done g1 → R g g1
  registerArg : ∀ idx k ty ai g g1, RegisterArgPair idx k ty ai g = .done g1 → R g g1
  pushName : ∀ n g g1, PushName n g = .done g1 → R g g1
  popName : ∀ g, R g (PopName g)
  registerID : ∀ id g, R g (RegisterID id g).2
  print : ∀ t g, R g (printf t g)

/-- What a frame lemma asks of the parser called back by `ParseTemplateInstance`. -/
def ParserRespects (R : Globals → Globals → Prop) (P : Parser) : Prop :=
  ∀ c g b c' g', P c g = .done (b, c', g') → R g g'

/-! ## The record loop of `ParseEVTXInt` -/

/-- Constant `EVTX_CHUNK_SIZE`. -/
def EVTX_CHUNK_SIZE : Nat := 65536

/-- Text `%04u.%02u.%02u-%02u:%02u:%02u` of a broken-down time. -/
def fmtTm (t : Tm) : List Nat :=
  fmtInt 4 (t.tm_year + 1900) ++ [46] ++ fmtInt 2 (t.tm_mon + 1) ++ [46] ++ fmtInt 2 t.tm_mday ++
  [45] ++ fmtInt 2 t.tm_hour ++ [58] ++ fmtInt 2 t.tm_min ++ [58] ++ fmtInt 2 t.tm_sec

/-- The inner `while` loop of `ParseEVTXInt` over the records of the chunk held in
`chunk`; the Boolean is `result` and the number is `inRecordOff` at the end.  The
fields `magic`, `size`, `number` and `timestamp` of the record header at
`inRecordOff` and the fields `firstRecordNumber` and `lastRecordNumber` of the
chunk header all lie inside the chunk once `inRecordOff + 24` does not exceed
`EVTX_CHUNK_SIZE`, and are loaded together. -/
def recordLoop (env : Env) (chunk : Buffer) :
    Nat → Nat → Globals → Run (Bool × Nat × Globals)
  | 0, _, _ => .outOfFuel
  | fuel + 1, inRecordOff, g =>
    if inRecordOff + 24 > EVTX_CHUNK_SIZE then .done (true, inRecordOff, g)
    else
      match loadLE chunk inRecordOff 4, loadLE chunk (inRecordOff + 4) 4,
          loadLE chunk (inRecordOff + 8) 8, loadLE chunk (inRecordOff + 16) 8,
          loadLE chunk 8 8, loadLE chunk 16 8 with
      | .done magic, .done size, .done number, .done timestamp, .done firstRecordNumber,
          .done lastRecordNumber =>
        if magic ≠ 10794 then .done (true, inRecordOff, g)
        else
          match env.gmtime_r (UnixTimeFromFileTime timestamp) with
          | none => .done (false, inRecordOff, g)
          | some t =>
            let g1 := printf (ascii "Record #" ++ fmtU 0 number ++ ascii " " ++ fmtTm t ++
              ascii " ") g
            match ParseBinXmlPre env chunk fuel EVTX_CHUNK_SIZE (inRecordOff + 24) g1 with
            | .done (true, _, g2) =>
              recordLoop env chunk fuel ((inRecordOff + size) % 2 ^ 64) (printf (ascii "\n") g2)
            | .done (false, _, g2) =>
              .done (!(decide (number ≥ firstRecordNumber ∧ number ≤ lastRecordNumber)),
                inRecordOff, g2)
            | .fault e => .fault e
            | .outOfFuel => .outOfFuel
      | .fault e, _, _, _, _, _ => .fault e
      | _, .fault e, _, _, _, _ => .fault e
      | _, _, .fault e, _, _, _ => .fault e
      | _, _, _, .fault e, _, _ => .fault e
      | _, _, _, _, .fault e, _ => .fault e
      | _, _, _, _, _, .fault e => .fault e
      | _, _, _, _, _, _ => .outOfFuel

/-- One turn of the outer loop of `ParseEVTXInt` once the chunk is read and its
magic is checked: reset the templates, then decode the records. -/
def ParseChunk (env : Env) (chunk : Buffer) (fuel : Nat) (g : Globals) :
    Run (Bool × Nat × Globals) :=
  recordLoop env chunk fuel 512 (ResetTemplates g)

/-- Little-endian bytes of a 16-bit value. -/
def le16 (n : Nat) : List Nat := [n % 256, n / 256 % 256]
/-- Little-endian bytes of a 32-bit value. -/
def le32 (n : Nat) : List Nat := [n % 256, n / 256 % 256, n / 65536 % 256, n / 16777216 % 256]
/-- Little-endian bytes of a 64-bit value. -/
def le64 (n : Nat) : List Nat := le32 (n % 4294967296) ++ le32 (n / 4294967296)

/-- Bytes of a TemplateInstance token (tag included) that carries the definition
of its template: header, long id, body length, body, argument count, argument
map and argument data. -/
def instanceWithBody (shortID : Nat) (body : List Nat) (numArguments : Nat)
    (argumentMap : List (Nat × Nat)) (argumentData : List Nat) : List Nat :=
  [12, 1] ++ le32 shortID ++ le32 0 ++ le32 numArguments ++ List.replicate 16 0 ++ le32 body.length ++
  body ++ le32 numArguments ++ (argumentMap.map (fun a => le16 a.1 ++ le16 a.2)).flatten ++
  argumentData

/-- A chunk of `EVTX_CHUNK_SIZE` bytes with one record at offset 512, number 1,
stamped with the Unix epoch, carrying `payload`; all other bytes are zero. -/
def chunkWithRecord (payload : List Nat) : Buffer :=
  let header := ascii "ElfChnk" ++ [0] ++ le64 1 ++ le64 1
  let record := le32 10794 ++ le32 (24 + payload.length) ++ le64 1 ++ le64 116444736000000000 ++
    payload
  fun i =>
    if i < 24 then header.get? i
    else if 512 ≤ i ∧ i < 512 + record.length then record.get? (i - 512)
    else if i < EVTX_CHUNK_SIZE then some 0
    else none

/-- OpenStartElement token whose name, one character `c`, is stored in place;
`pos` is the chunk offset of the tag. -/
def openElementInPlace (pos c : Nat) : List Nat :=
  [1] ++ le16 0 ++ le32 0 ++ le32 (pos + 11) ++ le32 0 ++ le16 0 ++ le16 1 ++ le16 c ++ le16 0

/-- Chunk A: its record opens the element `K` and never closes it. -/
def chunkA : Buffer := chunkWithRecord (openElementInPlace 536 75 ++ [0])
/-- Chunk B: its record is one template instance whose body is the text `v`. -/
def chunkB : Buffer := chunkWithRecord (instanceWithBody 7 [5, 1, 1, 0, 118, 0] 0 [] [] ++ [0])

/-- The text that decoding a chunk writes, with the result of the record loop,
when the decoder variables are `g` beforehand; `none` if the run does not return. -/
def chunkOutput (env : Env) (chunk : Buffer) (fuel : Nat) (g : Globals) :
    Option (Bool × List Nat) :=
  match ParseChunk env chunk fuel { g with stdout := [] } with
  | .done (b, _, g1) => some (b, g1.stdout)
  | _ => none

/-- The decoder variables after decoding a chunk; `none` if the run does not return. -/
def stateAfter (env : Env) (chunk : Buffer) (fuel : Nat) (g : Globals) : Option Globals :=
  match ParseChunk env chunk fuel g with
  | .done (_, _, g1) => some g1
  | _ => none

/-! ## Concrete streams -/

/-- Bytes of a TemplateInstance token (tag included) for a template that is
already known: header, argument map and argument data. -/
def knownInstance (shortID numArguments : Nat)
    (argumentMap : List (Nat × Nat)) (argumentData : List Nat) : List Nat :=
  [12, 1] ++ le32 shortID ++ le32 0 ++ le32 numArguments ++
  (argumentMap.map (fun a => le16 a.1 ++ le16 a.2)).flatten ++ argumentData

/-- A template instance that ends right after its `templateBodyLen` field,
which announces one more byte than the buffer holds. -/
def bodyPastEnd : List Nat :=
  [12, 1] ++ le32 7 ++ le32 0 ++ le32 0 ++ List.replicate 16 0 ++ le32 1

/-- A template instance whose single argument, bound by the substitution in
the body, has type `0x21` and announces 100 bytes where the buffer ends. -/
def argPastEnd : List Nat := instanceWithBody 7 [13, 0, 0, 33] 1 [(100, 33)] []

/-- A chunk of `EVTX_CHUNK_SIZE` bytes, all zero except its last 34 bytes, which
are the bytes of `bodyPastEnd`: the template instance starts at offset 65502. -/
def chunkEndingInBody : Buffer := fun i =>
  if i < 65502 then some 0 else bodyPastEnd.get? (i - 65502)

/-- A stream that holds a substitution token and nothing else. -/
def substitutionAtTopLevel : List Nat := [13, 0, 0, 1]

/-- A stream that holds a FragmentHeader tag and nothing else. -/
def fragmentHeaderAtEnd : List Nat := [15]

/-- First instance of template 7: its body is one substitution of argument 0
with declared type `0x21`; the instance has no arguments. -/
def definingInstance : List Nat := instanceWithBody 7 [13, 0, 0, 33] 0 [] []

/-- Later instance of template 7 with one argument of type `0x21`, four bytes
long, that holds a substitution token for argument 1 of type 1. -/
def laterInstance : List Nat := knownInstance 7 1 [(4, 33)] [13, 1, 0, 1]

/-- The registry after 256 template definitions with the ids 1 to 256 and no pairs. -/
def fullRegistry : Globals :=
  { knownIDs := (List.range 256).map (fun i => i + 1)
    templates :=
      (List.range 256).map (fun i => { shortID := i + 1, fixedRoot := [], argsRoot := [] })
    numIDs := 256
    nameStack := []
    stdout := [] }

/-- Instance of the unknown template 1000 whose body is one substitution token. -/
def overflowInstance : List Nat := instanceWithBody 1000 [13, 0, 0, 1] 0 [] []

/-- Number of bytes that the `switch (argType)` of `ParseTemplateInstance` takes
from the cursor for a bound argument of type `argType` and map length `argLen`. -/
def argWidth (argLen argType : Nat) : Nat :=
  if argType = 1 then 2 * (argLen / 2)
  else if argType = 4 then 1
  else if argType = 6 then 2
  else if argType = 8 ∨ argType = 20 then 4
  else if argType = 10 ∨ argType = 21 ∨ argType = 17 then 8
  else if argType = 15 then 16
  else if argType = 19 then 8 + 4 * ((argLen - 8) / 4)
  else argLen

/-- Bytes taken from the cursor by one turn of the argument loop: the map
length for an argument without a pair, the width read by the decoder of the
type otherwise. -/
def consumed (g : Globals) (ctx : ParseContext) (argLen argType argumentIdx : Nat) : Nat :=
  match (g.templates.get? ctx.currentTemplateIdx).bind
      (fun t => findArgPair t.argsRoot argumentIdx) with
  | some _ => argWidth argLen argType
  | none => argLen

/-- The text on `stdout` was only extended. -/
def StdoutExtends (g g1 : Globals) : Prop := ∃ text, g1.stdout = g.stdout ++ text

/-- Instance whose body opens the element `K` and holds the texts `a` and `b`. -/
def twoTextsInstance : List Nat :=
  instanceWithBody 7 (openElementInPlace 34 75 ++ [5, 1, 1, 0, 97, 0] ++ [5, 1, 1, 0, 98, 0]) 0 [] []

/-- The same instance with the body cut after the first text. -/
def oneTextInstance : List Nat :=
  instanceWithBody 7 (openElementInPlace 34 75 ++ [5, 1, 1, 0, 97, 0]) 0 [] []

/-- Instance whose only argument is bound, has type `0x04` and map length 4. -/
def byteArgInstance : List Nat := instanceWithBody 7 [13, 0, 0, 4] 1 [(4, 4)] [9, 0, 0, 0]

/-- The return value of a run and the offset of its context at the end. -/
def resultAndOffset : Run (Bool × ParseContext × Globals) → Option (Bool × Nat)
  | .done (b, ctx, _) => some (b, ctx.offset)
  | _ => none

/-- The fixed pairs of template 0 after a run. -/
def fixedPairsOf : Run (Bool × ParseContext × Globals) → Option (List TemplateFixedPair)
  | .done (_, _, g) => (g.templates.get? 0).map (fun t => t.fixedRoot)
  | _ => none

/-- The text on `stdout` after a run. -/
def stdoutOf : Run (Bool × ParseContext × Globals) → Option (List Nat)
  | .done (_, _, g) => some g.stdout
  | _ => none

/-! ## Bytes at the cursor -/

/-- The bytes `bs` are stored in the buffer from index `addr` on. -/
def BytesAt (buf : Buffer) (addr : Nat) (bs : List Nat) : Prop :=
  ∀ i, i < bs.length → buf (addr + i) = bs.get? i

/-- The value of a little-endian byte sequence. -/
def leValue : List Nat → Nat
  | [] => 0
  | b :: bs => b % 256 + 256 * leValue bs

/-- A row of `n` OpenStartElement tokens from offset 0, each with the one-letter
name `K` stored in place. -/
def manyOpenElements (n : Nat) : Buffer := fun i =>
  if i < 23 * n then (openElementInPlace (23 * (i / 23)) 75).get? (i % 23) else none

/-- The name stack after a run. -/
def nameStackOf : Run (Bool × ParseContext × Globals) → Option (List (List Nat))
  | .done (_, _, g) => some g.nameStack
  | _ => none

/-- A buffer that holds the four bytes of the 32-bit value 2. -/
def logonTypeBuffer : Buffer := bufferOf [2, 0, 0, 0]

/-- The rendering of a GUID in the words of the claim: the first four bytes as a
little-endian value in 8 hex digits, bytes 4..5 and bytes 6..7 as little-endian
values in at least 2 hex digits, bytes 8..15 in order in 2 hex digits each. -/
def guidText (bs : List Nat) : List Nat :=
  fmtX 8 (leValue (bs.take 4)) ++ ascii "-" ++ fmtX 2 (leValue ((bs.drop 4).take 2)) ++
  ascii "-" ++ fmtX 2 (leValue ((bs.drop 6).take 2)) ++ ascii "-" ++
  ((bs.drop 8).map (fmtX 2)).flatten

/-- The sixteen bytes of the example GUID. -/
def guidExample : List Nat :=
  [0x78, 0x56, 0x34, 0x12, 0x34, 0x12, 0x78, 0x56, 0xDE, 0xAD, 0xBE, 0xEF, 0xCA, 0xFE, 0xBA, 0xBE]

/-- The value of a big-endian byte sequence. -/
def beValue (bs : List Nat) : Nat := bs.foldl (fun v b => v * 256 + b) 0

/-- The rendering of a SID in the words of the claim: `S-`, byte 0 in decimal,
a dash, bytes 2..7 as one big-endian number in decimal, then a dash and the
decimal little-endian value for each sub-authority in order. -/
def sidText (sid : List Nat) (subs : List (List Nat)) : List Nat :=
  ascii "S-" ++ fmtU 0 (sid.headD 0) ++ ascii "-" ++ fmtU 0 (beValue ((sid.drop 2).take 6)) ++
  (subs.map (fun s => ascii "-" ++ fmtU 0 (leValue s))).flatten

/-- The bytes of the SID `S-1-5-32`. -/
def sidExample : List Nat := [1, 1, 0, 0, 0, 0, 0, 5, 32, 0, 0, 0]

/-- The canonical (shortest) UTF-8 encoding of a code point, as RFC 3629 gives
it: one byte below `0x80`, two bytes below `0x800`, three bytes below `0x10000`,
four bytes otherwise. -/
def utf8Canonical (cp : Nat) : List Nat :=
  if cp < 0x80 then [cp]
  else if cp < 0x800 then [0xC0 + cp / 64, 0x80 + cp % 64]
  else if cp < 0x10000 then [0xE0 + cp / 4096, 0x80 + cp / 64 % 64, 0x80 + cp % 64]
  else [0xF0 + cp / 262144, 0x80 + cp / 4096 % 64, 0x80 + cp / 64 % 64, 0x80 + cp % 64]

/-- A continuation byte, `0x80 .. 0xBF`. -/
def IsContinuation (b : Nat) : Prop := 0x80 ≤ b ∧ b ≤ 0xBF

/-- Well-formed UTF-8 byte sequences, after the table of the Unicode standard:
`00..7F`; `C2..DF` with one continuation byte; `E0` with `A0..BF`, `E1..EC` or
`EE..EF` with a continuation byte, `ED` with `80..9F`, each with one more
continuation byte; `F0` with `90..BF`, `F1..F3` with a continuation byte, `F4`
with `80..8F`, each with two more continuation bytes. -/
inductive WellFormedUTF8 : List Nat → Prop where
  | done : WellFormedUTF8 []
  | one (b0 : Nat) (rest : List Nat) : b0 ≤ 0x7F → WellFormedUTF8 rest →
      WellFormedUTF8 (b0 :: rest)
  | two (b0 b1 : Nat) (rest : List Nat) : 0xC2 ≤ b0 → b0 ≤ 0xDF → IsContinuation b1 →
      WellFormedUTF8 rest → WellFormedUTF8 (b0 :: b1 :: rest)
  | three (b0 b1 b2 : Nat) (rest : List Nat) :
      (b0 = 0xE0 ∧ 0xA0 ≤ b1 ∧ b1 ≤ 0xBF) ∨ (0xE1 ≤ b0 ∧ b0 ≤ 0xEC ∧ IsContinuation b1) ∨
        (b0 = 0xED ∧ 0x80 ≤ b1 ∧ b1 ≤ 0x9F) ∨ (0xEE ≤ b0 ∧ b0 ≤ 0xEF ∧ IsContinuation b1) →
      IsContinuation b2 → WellFormedUTF8 rest → WellFormedUTF8 (b0 :: b1 :: b2 :: rest)
  | four (b0 b1 b2 b3 : Nat) (rest : List Nat) :
      (b0 = 0xF0 ∧ 0x90 ≤ b1 ∧ b1 ≤ 0xBF) ∨ (0xF1 ≤ b0 ∧ b0 ≤ 0xF3 ∧ IsContinuation b1) ∨
        (b0 = 0xF4 ∧ 0x80 ≤ b1 ∧ b1 ≤ 0x8F) →
      IsContinuation b2 → IsContinuation b3 → WellFormedUTF8 rest →
      WellFormedUTF8 (b0 :: b1 :: b2 :: b3 :: rest)

/-- A UTF-16 code unit that is not a surrogate. -/
def IsScalarUnit (w : Nat) : Prop := w ≤ 0xD7FF ∨ (0xE000 ≤ w ∧ w ≤ 0xFFFF)

/-- The buffer after one call of `UTF16ToUTF8` per code unit of `ws`, in order. -/
def convertAll (bufferSize : Nat) (ws : List Nat) (buffer : List Nat) : List Nat :=
  ws.foldl (fun b w => UTF16ToUTF8 w b bufferSize) buffer

/-- Attribute token whose name, one character `c`, is stored in place; `pos` is
the chunk offset of the tag. -/
def attributeInPlace (pos c : Nat) : List Nat :=
  [6] ++ le32 (pos + 5) ++ le32 0 ++ le16 0 ++ le16 1 ++ le16 c ++ le16 0

/-- A stream of two tokens: the attribute `A`, then the start of the element `E`. -/
def attributeThenElement : List Nat := attributeInPlace 0 65 ++ openElementInPlace 17 69

/-- The sub-state and the name stack at the end of a run. -/
def stateAndStack :
    Run (Bool × ParseContext × Globals) → Option (XmlParseState × List (List Nat))
  | .done (_, ctx, g) => some (ctx.state, g.nameStack)
  | _ => none

/-! ## Tokens with names stored in place -/

/-- A name structure stored in place: the field `chunkOffset`, which stands at
chunk offset `pos` and designates the bytes right after itself, then the link,
the hash, the character count, the UTF-16 characters and the terminator. -/
def nameInPlace (pos : Nat) (name : List Nat) : List Nat :=
  le32 (pos + 4) ++ le32 0 ++ le16 0 ++ le16 name.length ++ (name.map le16).flatten ++ le16 0

/-- OpenStartElement token without attributes at chunk offset `pos`. -/
def openElement (pos : Nat) (name : List Nat) : List Nat :=
  [1] ++ le16 0 ++ le32 0 ++ nameInPlace (pos + 7) name

/-- OpenStartElement token with the attribute flag at chunk offset `pos`. -/
def openElementWithAttributes (pos : Nat) (name : List Nat) : List Nat :=
  [65] ++ le16 0 ++ le32 0 ++ nameInPlace (pos + 7) name ++ le32 0

/-- Attribute token at chunk offset `pos`. -/
def attributeToken (pos : Nat) (name : List Nat) : List Nat := [6] ++ nameInPlace (pos + 1) name

/-- ValueText token: string type 1, then the length-prefixed UTF-16 text. -/
def valueText (text : List Nat) : List Nat :=
  [5, 1] ++ le16 text.length ++ (text.map le16).flatten

/-- Body of a template for `<EventData><Data Name="X">%1</Data></EventData>`,
placed at chunk offset 34: open `EventData`, open `Data`, attribute `Name` with
the text `X`, substitution of argument 0 with type `0x06`, two closes, EOF.
With `closeStart` the CloseStartElement tokens of the two start tags are
present. -/
def eventDataBody (closeStart : Bool) : List Nat :=
  let close := if closeStart then [2] else []
  let a := openElement 34 (ascii "EventData") ++ close
  let b := openElementWithAttributes (34 + a.length) (ascii "Data")
  let c := attributeToken (34 + a.length + b.length) (ascii "Name")
  a ++ b ++ c ++ valueText (ascii "X") ++ close ++ [13, 0, 0, 6] ++ [4] ++ [4] ++ [0]

/-- The instance of C12: template 7 with the body `eventDataBody` and one
argument of type `0x06`, two bytes long, with the value 4624. -/
def eventDataInstance (closeStart : Bool) : List Nat :=
  instanceWithBody 7 (eventDataBody closeStart) 1 [(2, 6)] (le16 4624)

/-- A description table that maps event 4624 and nothing else. -/
def envDescribing4624 : Env :=
  { eventDescriptionHashTable := fun id =>
      if id = 4624 then some (ascii "An account was successfully logged on") else none
    gmtime_r := fun _ => none
    uninitialised := 0 }

/-- Body of a template for `<N>V</N>`, placed at chunk offset `pos`:
OpenStartElement with the name `N` stored in place, CloseStartElement,
ValueText `V`, CloseElement, EOF. -/
def fixedPairBody (pos : Nat) (N V : List Nat) : List Nat :=
  openElement pos N ++ [2] ++ valueText V ++ [4] ++ [0]

/-- Instance of template `shortID` with the body `fixedPairBody` and no
arguments, as a whole stream: the body starts at offset 34. -/
def fixedPairInstance (shortID : Nat) (N V : List Nat) : List Nat :=
  instanceWithBody shortID (fixedPairBody 34 N V) 0 [] []

/-- A text of ASCII characters other than NUL, at most 127 of them. -/
def IsAsciiText (text : List Nat) : Prop :=
  (∀ c ∈ text, 1 ≤ c ∧ c ≤ 127) ∧ text.length ≤ 127
/-- The context `templateCtx` that `ParseTemplateInstance` sets up over a template
body of `bodyLen` bytes at address `data` and chunk offset `pos`, with the
cursor at `offset` and the cached value `cached`. -/
def bodyContext (data bodyLen pos idx chunkData chunkDataLen offset : Nat)
    (cached : List Nat) : ParseContext :=
  { data := data
    dataLen := bodyLen
    offset := offset
    chunkData := chunkData
    chunkDataLen := chunkDataLen
    offsetFromChunkStart := pos
    cachedValue := cached
    state := .StateNormal
    currentTemplateIdx := idx }
/-- The decoder variables after the instance `fixedPairInstance`, decoded from
the initial state: template 0 has the identifier `shortID` and the one fixed
pair `(N, V)`, the name stack is empty, and `text` is on `stdout`. -/
def afterFixedPair (shortID : Nat) (N V text : List Nat) : Globals :=
  { knownIDs := initialGlobals.knownIDs.set 0 shortID
    templates := initialGlobals.templates.set 0
      { shortID := shortID, fixedRoot := [{ key := N, value := V }], argsRoot := [] }
    numIDs := 1
    nameStack := []
    stdout := text }

/-- The byte range `data[0 .. dataLen)` of a context lies inside the buffer. -/
def InBuffer (buf : Buffer) (ctx : ParseContext) : Prop :=
  ∀ i, i < ctx.dataLen → ∃ b, buf (ctx.data + i) = some b

/-- The `n` bytes stored in the buffer from index `addr` on (0 where there is none). -/
def bytesFrom (buf : Buffer) (addr n : Nat) : List Nat :=
  (List.range n).map (fun i => (buf (addr + i)).getD 0)

/-- A stream of two tokens: OpenStartElement whose name reference, 1000, lies past
the end of the stream, then EOF. -/
def elementWithLostName : List Nat := [1] ++ le16 0 ++ le32 0 ++ le32 1000 ++ [0]

/-- A stream of two tokens: Attribute whose name reference, 1000, lies past the
end of the stream, then EOF. -/
def attributeWithLostName : List Nat := [6] ++ le32 1000 ++ [0]

/-- The text that is kept of a sequence of code units for an output buffer of
`cap` bytes that already holds `acc`: each unit in turn is appended in its
canonical UTF-8 encoding when the buffer then still has a free byte, and is
left out otherwise. -/
def keepFitting (cap : Nat) : List Nat → List Nat → List Nat
  | [], acc => acc
  | w :: ws, acc =>
    keepFitting cap ws
      (if acc.length + (utf8Canonical w).length < cap then acc ++ utf8Canonical w else acc)

/-- Bytes of a length-prefixed UTF-16 string. -/
def prefixedString (ws : List Nat) : List Nat := le16 ws.length ++ (ws.map le16).flatten

/-- A name structure as an out-of-place reference finds it: link, hash,
character count, the UTF-16 characters and the terminator. -/
def nameRecord (name : List Nat) : List Nat :=
  le32 0 ++ le16 0 ++ le16 name.length ++ (name.map le16).flatten ++ le16 0

/-- OpenStartElement token whose name is the reference `ref` to a name stored
elsewhere in the chunk. -/
def openElementRef (ref : Nat) : List Nat := [1] ++ le16 0 ++ le32 0 ++ le32 ref

/-- Body of the inner template of `nestedBodiesChunk`: an element whose name is
the reference 57, with the text `v`, then EOF. -/
def innerBody : List Nat := openElementRef 57 ++ valueText (ascii "v") ++ [0]

/-- Body of the outer template of `nestedBodiesChunk`: an instance of template 8
that carries `innerBody`, then EOF; the name `B` is stored after the EOF, at
offset 57 of this body. -/
def outerBody : List Nat :=
  instanceWithBody 8 innerBody 0 [] [] ++ [0] ++ nameRecord (ascii "B")

/-- A chunk with the name `A` stored at offset 57 and a stream that starts at
offset 69: an element whose name is the reference 57, an instance of template 7
that carries `outerBody`, then EOF. -/
def nestedBodiesChunk : List Nat :=
  List.replicate 57 0 ++ nameRecord (ascii "A") ++ openElementRef 57 ++
    instanceWithBody 7 outerBody 0 [] [] ++ [0]

/-- The registry only grew from `g` to `g1`: the identifiers registered in `g`
are where they were, and every template has the pairs it had, behind the pairs
added since. -/
def RegistryKept (g g1 : Globals) : Prop :=
  g.numIDs ≤ g1.numIDs ∧ g.knownIDs.length = g1.knownIDs.length ∧
  (∀ i, i < g.numIDs → g1.knownIDs.get? i = g.knownIDs.get? i) ∧
  (∀ i t, g.templates.get? i = some t →
    ∃ t1, g1.templates.get? i = some t1 ∧ t.fixedRoot <:+ t1.fixedRoot ∧
      t.argsRoot <:+ t1.argsRoot)
/-- Instance of the unknown template 9 whose body opens the element `K`, holds
the text `v` and then the byte `FF`, which is no token. -/
def failingDefinition : List Nat :=
  instanceWithBody 9 (openElementInPlace 34 75 ++ [5, 1, 1, 0, 118, 0] ++ [255]) 0 [] []

/-- A stream in which the failing definition of template 9 is decoded inside a
`0x21` argument, where the failure is ignored: an instance of template 7 whose
body binds argument 0 and whose argument holds an instance of template 9 with
the body of `failingDefinition`; then an instance of the template 9 without
definition, then EOF. -/
def failedThenLater : List Nat :=
  instanceWithBody 7 [13, 0, 0, 33] 1 [(68, 33)]
    (instanceWithBody 9 (openElementInPlace 80 75 ++ [5, 1, 1, 0, 118, 0] ++ [255]) 0 [] []) ++
  knownInstance 9 0 [] [] ++ [0]

/-- The absolute buffer position of the cursor of a context. -/
def startOf (c : ParseContext) : Nat := c.data + c.offset

/-- The parser returns or faults on every context that starts at or above `q`. -/
def ReturnsAbove (q : Nat) (P : Parser) : Prop :=
  ∀ c g0, q ≤ startOf c → P c g0 ≠ .outOfFuel

/-- Two parsers give the same result on every context that starts at or above `q`. -/
def AgreeAbove (q : Nat) (P P1 : Parser) : Prop :=
  ∀ c g0, q ≤ startOf c → P c g0 = P1 c g0
/-- Fuel that is enough for the token loop entered with the context `c` over a
buffer of `len` bytes. -/
def fuelFor (len : Nat) (c : ParseContext) : Nat := len - startOf c + 1

/-- The part of `ParseTemplateInstance` before its loop over the fixed pairs:
the header reads and, for a `shortID` that is not known, the template
definition.  The result is `numArguments` with `*ctx` and the file-scope
variables at the point where the emission starts; `none` is `return false`. -/
def resolveInstance (env : Env) (buf : Buffer) (ParseBinXml : Parser)
    (ctx : ParseContext) (g : Globals) : Run (Option Nat × ParseContext × Globals) :=
  match readInstanceHeader buf ctx with
  | .done (some (shortID, numArguments), ctx1) =>
    match IsKnownID shortID g with
    | some idx => .done (some numArguments, { ctx1 with currentTemplateIdx := idx }, g)
    | none => parseTemplateDefinition env buf ParseBinXml shortID ctx1 g
  | .done (none, ctx1) => .done (none, ctx1, g)
  | .fault e => .fault e
  | .outOfFuel => .outOfFuel

/-- The chain `templates[idx].fixedRoot.next, ...` of fixed pairs, head first;
`none` outside the array. -/
def fixedChain (g : Globals) (idx : Nat) : Option (List TemplateFixedPair) :=
  (g.templates.get? idx).map (fun t => t.fixedRoot)

/-- The template array kept its size, and every chain of fixed pairs of `g` is
still in `g1`, unchanged, below the pairs added since. -/
def ChainsGrow (g g1 : Globals) : Prop :=
  g1.templates.length = g.templates.length ∧
  ∀ idx chain, fixedChain g idx = some chain →
    ∃ added, fixedChain g1 idx = some (added ++ chain)

set_option maxRecDepth 100000

/-! # Lemmas on the byte cursor -/

theorem ReadDataLoop_done (buf : Buffer) (size : Nat) :
    ∀ (count : Nat) (ctx : ParseContext) (vs : List Nat) (ctx1 : ParseContext),
      ReadDataLoop buf size count ctx = .done (vs, ctx1) →
      ctx1 = { ctx with offset := ctx.offset + size * count } ∧ vs.length = count := by
  intro count
  induction count with
  | zero =>
    intro ctx vs ctx1 h
    simp only [ReadDataLoop, Run.done.injEq, Prod.mk.injEq] at h
    obtain ⟨h1, h2⟩ := h
    subst h1 h2
    simp
  | succ n ih =>
    intro ctx vs ctx1 h
    unfold ReadDataLoop at h
    split at h
    · split at h
      · rename_i v vs0 c0 hrec
        simp only [Run.done.injEq, Prod.mk.injEq] at h
        obtain ⟨h1, h2⟩ := h
        subst h1 h2
        obtain ⟨e1, e2⟩ := ih _ _ _ hrec
        refine ⟨?_, by simp [e2]⟩
        rw [e1]
        simp only [ParseContext.mk.injEq, true_and, and_true]
        ring
      · simp at h
      · simp at h
    · simp at h
    · simp at h

theorem ReadData_some (buf : Buffer) (size count : Nat) (ctx ctx1 : ParseContext) (vs : List Nat)
    (h : ReadData buf size count ctx = .done (some vs, ctx1)) :
    ctx1 = { ctx with offset := ctx.offset + size * count } ∧ vs.length = count ∧
      ctx.offset + size * count ≤ ctx.dataLen := by
  unfold ReadData at h
  split at h
  · rename_i hE
    split at h
    · rename_i vs0 c0 hrec
      simp only [Run.done.injEq, Prod.mk.injEq, Option.some.injEq] at h
      obtain ⟨h1, h2⟩ := h
      subst h1 h2
      obtain ⟨e1, e2⟩ := ReadDataLoop_done _ _ _ _ _ _ hrec
      exact ⟨e1, e2, by simpa [HaveEnoughData] using hE⟩
    · simp at h
    · simp at h
  · simp at h

theorem ReadData_none (buf : Buffer) (size count : Nat) (ctx ctx1 : ParseContext)
    (h : ReadData buf size count ctx = .done (none, ctx1)) :
    ctx1 = ctx ∧ ctx.dataLen < ctx.offset + size * count := by
  unfold ReadData at h
  split at h
  · split at h <;> simp at h
  · rename_i hE
    simp only [Run.done.injEq, Prod.mk.injEq, true_and] at h
    exact ⟨h.symm, by simpa [HaveEnoughData] using hE⟩

theorem ReadScalar_some (buf : Buffer) (size : Nat) (ctx ctx1 : ParseContext) (v : Nat)
    (h : ReadScalar buf size ctx = .done (some v, ctx1)) :
    ctx1 = { ctx with offset := ctx.offset + size } ∧ ctx.offset + size ≤ ctx.dataLen := by
  unfold ReadScalar at h
  split at h
  · rename_i v0 tl c0 hrec
    simp only [Run.done.injEq, Prod.mk.injEq, Option.some.injEq] at h
    obtain ⟨-, h2⟩ := h
    subst h2
    obtain ⟨e1, -, e3⟩ := ReadData_some _ _ _ _ _ _ hrec
    simpa using And.intro e1 e3
  · simp at h
  · simp at h
  · simp at h

theorem ReadScalar_none (buf : Buffer) (size : Nat) (ctx ctx1 : ParseContext)
    (h : ReadScalar buf size ctx = .done (none, ctx1)) :
    ctx1 = ctx := by
  unfold ReadScalar at h
  split at h
  · simp at h
  · rename_i r c0 hne hrec
    simp only [Run.done.injEq, Prod.mk.injEq] at h
    obtain ⟨h1, h2⟩ := h
    subst h2
    cases r with
    | none => exact (ReadData_none _ _ _ _ _ hrec).1
    | some vs =>
      obtain ⟨e1, e2, -⟩ := ReadData_some _ _ _ _ _ _ hrec
      cases vs with
      | nil => simp at e2
      | cons a t => exact absurd rfl (hne a t)
  · simp at h
  · simp at h


theorem OffsetOnly.same (ctx : ParseContext) : OffsetOnly ctx ctx := ⟨rfl, le_refl _⟩

theorem OffsetOnly.andThen {a b c : ParseContext} (h1 : OffsetOnly a b) (h2 : OffsetOnly b c) :
    OffsetOnly a c := by
  obtain ⟨e1, l1⟩ := h1
  obtain ⟨e2, l2⟩ := h2
  refine ⟨?_, le_trans l1 l2⟩
  rw [e2, e1]

theorem OffsetOnly.skip (ctx : ParseContext) (n : Nat) : OffsetOnly ctx (SkipBytes ctx n) :=
  ⟨rfl, Nat.le_add_right _ _⟩

theorem ReadScalar_frame (buf : Buffer) (size : Nat) (ctx ctx1 : ParseContext) (r : Option Nat)
    (h : ReadScalar buf size ctx = .done (r, ctx1)) : OffsetOnly ctx ctx1 := by
  cases r with
  | none => rw [ReadScalar_none _ _ _ _ h]; exact OffsetOnly.same _
  | some v =>
    obtain ⟨e, -⟩ := ReadScalar_some _ _ _ _ _ h
    rw [e]
    exact ⟨rfl, Nat.le_add_right _ _⟩

theorem ReadData_frame (buf : Buffer) (size count : Nat) (ctx ctx1 : ParseContext)
    (r : Option (List Nat)) (h : ReadData buf size count ctx = .done (r, ctx1)) :
    OffsetOnly ctx ctx1 := by
  cases r with
  | none => rw [(ReadData_none _ _ _ _ _ h).1]; exact OffsetOnly.same _
  | some v =>
    obtain ⟨e, -⟩ := ReadData_some _ _ _ _ _ _ h
    rw [e]
    exact ⟨rfl, Nat.le_add_right _ _⟩

theorem continuationBytes_length :
    ∀ (n w : Nat) (acc : List Nat), (continuationBytes n w acc).2.length = n + acc.length := by
  intro n
  induction n with
  | zero => intro w acc; simp [continuationBytes]
  | succ k ih =>
    intro w acc
    rw [continuationBytes, ih]
    simp only [List.length_cons]
    omega

theorem UTF16ToUTF8_length (w : Nat) (buffer : List Nat) (bufferSize : Nat)
    (h : buffer.length < bufferSize) : (UTF16ToUTF8 w buffer bufferSize).length < bufferSize := by
  unfold UTF16ToUTF8
  simp only
  split_ifs <;> simp_all [continuationBytes_length]

theorem readCharsLoop_frame (buf : Buffer) (size : Nat) :
    ∀ (remaining idx : Nat) (ctx : ParseContext) (nb : List Nat)
      (r : Option (Nat × List Nat)) (ctx1 : ParseContext),
      readCharsLoop buf size remaining idx ctx nb = .done (r, ctx1) →
      OffsetOnly ctx ctx1 ∧
        (nb.length < size → ∀ i b, r = some (i, b) → b.length < size) := by
  intro remaining
  induction remaining with
  | zero =>
    intro idx ctx nb r ctx1 h
    simp only [readCharsLoop, Run.done.injEq, Prod.mk.injEq] at h
    obtain ⟨h1, h2⟩ := h
    subst h1 h2
    refine ⟨OffsetOnly.same _, ?_⟩
    intro hl i b hb
    simp only [Option.some.injEq, Prod.mk.injEq] at hb
    rw [← hb.2]; exact hl
  | succ n ih =>
    intro idx ctx nb r ctx1 h
    unfold readCharsLoop at h
    split at h
    · split at h
      · rename_i w c1 hread
        obtain ⟨f1, f2⟩ := ih _ _ _ _ _ h
        refine ⟨(ReadScalar_frame _ _ _ _ _ hread).andThen f1, ?_⟩
        intro hl
        exact f2 (UTF16ToUTF8_length _ _ _ hl)
      · rename_i c1 hread
        simp only [Run.done.injEq, Prod.mk.injEq] at h
        obtain ⟨h1, h2⟩ := h
        subst h1 h2
        exact ⟨ReadScalar_frame _ _ _ _ _ hread, by intro _ i b hb; simp at hb⟩
      · simp at h
      · simp at h
    · simp only [Run.done.injEq, Prod.mk.injEq] at h
      obtain ⟨h1, h2⟩ := h
      subst h1 h2
      refine ⟨OffsetOnly.same _, ?_⟩
      intro hl i b hb
      simp only [Option.some.injEq, Prod.mk.injEq] at hb
      rw [← hb.2]; exact hl

theorem ReadPrefixedUnicodeString_frame (buf : Buffer) (ctx ctx1 : ParseContext) (size : Nat)
    (nt : Bool) (r : Option (List Nat))
    (h : ReadPrefixedUnicodeString buf ctx size nt = .done (r, ctx1)) :
    OffsetOnly ctx ctx1 ∧ (0 < size → ∀ b, r = some b → b.length < size) := by
  unfold ReadPrefixedUnicodeString at h
  split at h
  · rename_i cnt c1 hread
    have f0 := ReadScalar_frame _ _ _ _ _ hread
    split at h
    · rename_i idx nb c2 hloop
      obtain ⟨f1, f2⟩ := readCharsLoop_frame _ _ _ _ _ _ _ _ hloop
      simp only [Run.done.injEq, Prod.mk.injEq] at h
      obtain ⟨h1, h2⟩ := h
      subst h1 h2
      refine ⟨f0.andThen (f1.andThen (OffsetOnly.skip _ _)), ?_⟩
      intro hs b hb
      have hnb := f2 (by simpa using hs) idx nb rfl
      simp only [Option.some.injEq] at hb
      subst hb
      simp only [List.length_take]
      omega
    · rename_i c2 hloop
      obtain ⟨f1, -⟩ := readCharsLoop_frame _ _ _ _ _ _ _ _ hloop
      simp only [Run.done.injEq, Prod.mk.injEq] at h
      obtain ⟨h1, h2⟩ := h
      subst h1 h2
      exact ⟨f0.andThen f1, by intro _ b hb; simp at hb⟩
    · simp at h
    · simp at h
  · rename_i c1 hread
    simp only [Run.done.injEq, Prod.mk.injEq] at h
    obtain ⟨h1, h2⟩ := h
    subst h1 h2
    exact ⟨ReadScalar_frame _ _ _ _ _ hread, by intro _ b hb; simp at hb⟩
  · simp at h
  · simp at h

theorem cstr_length_le (b : List Nat) : (cstr b).length ≤ b.length := by
  unfold cstr
  induction b with
  | nil => simp
  | cons a t ih =>
    rw [List.takeWhile_cons]
    split
    · simp only [List.length_cons]; omega
    · simp

/-! # Key names and ValueText -/

theorem GetProperKeyName_eq (ctx : ParseContext) (g : Globals) :
    GetProperKeyName ctx g =
      match g.nameStack with
      | [] => none
      | [top] => some top
      | top :: upper :: _ =>
        if top = ascii "Data" ∧ upper = ascii "EventData" ∧ ctx.cachedValue ≠ [] then
          some ctx.cachedValue
        else some top := by
  unfold GetProperKeyName GetName GetUpperName
  rcases hs : g.nameStack with _ | ⟨top, _ | ⟨upper, rest⟩⟩
  · simp
  · simp
  · simp

/-- Claim C9: `GetProperKeyName` returns the cached value exactly when the name
stack has at least two names, its top is `Data`, the name below is `EventData`
and the cached value is not empty; otherwise it returns the top of the name
stack, and no name when the stack is empty. -/
theorem C9_GetProperKeyName_rule (ctx : ParseContext) (g : Globals) :
    GetProperKeyName ctx g =
      match g.nameStack with
      | [] => none
      | [top] => some top
      | top :: upper :: _ =>
        if top = ascii "Data" ∧ upper = ascii "EventData" ∧ ctx.cachedValue ≠ [] then
          some ctx.cachedValue
        else some top :=
  GetProperKeyName_eq ctx g

theorem SetState_Normal (ctx : ParseContext) (g : Globals) :
    SetState ctx .StateNormal g =
      ({ ctx with state := .StateNormal },
        if ctx.state = .StateInAttribute then PopName g else g) := by
  unfold SetState
  cases hs : ctx.state <;> simp [hs]
  cases ctx; simp_all

/-- Claim C10: a successful `ParseValueText` with decoded text `V` adds exactly
the fixed pair `(GetProperKeyName(), V)` to the current template, the key taken
from the name stack and cached value before the token, unless the name stack is
empty or the key is `Name` below `Data`, where nothing is added; the cached
value becomes `V`, the state becomes Normal, and one name is popped exactly when
the state was InAttribute. -/
theorem C10_ParseValueText (buf : Buffer) (ctx ctx' : ParseContext) (g g' : Globals)
    (h : ParseValueText buf ctx g = .done (true, ctx', g')) :
    ∃ stringType ctx1 valueBuffer ctx2,
      ReadScalar buf 1 ctx = .done (some stringType, ctx1) ∧
      ReadPrefixedUnicodeString buf ctx1 256 false = .done (some valueBuffer, ctx2) ∧
      ctx' = { ctx2 with state := .StateNormal, cachedValue := cstr valueBuffer } ∧
      g'.nameStack = (if ctx.state = .StateInAttribute then g.nameStack.tail else g.nameStack) ∧
      g'.knownIDs = g.knownIDs ∧ g'.numIDs = g.numIDs ∧ g'.stdout = g.stdout ∧
      (if g.nameStack = [] ∨
          (GetProperKeyName ctx g = some (ascii "Name") ∧ GetUpperName g = some (ascii "Data"))
        then g'.templates = g.templates
        else ∃ key t, GetProperKeyName ctx g = some key ∧
          g.templates.get? ctx.currentTemplateIdx = some t ∧
          g'.templates = g.templates.set ctx.currentTemplateIdx
            { t with fixedRoot := { key := key, value := cstr valueBuffer } :: t.fixedRoot }) := by
  unfold ParseValueText at h
  split at h
  · rename_i stringType ctx1 hr1
    have f1 := ReadScalar_frame _ _ _ _ _ hr1
    split at h
    · rename_i valueBuffer ctx2 hr2
      obtain ⟨f2, hlen⟩ := ReadPrefixedUnicodeString_frame _ _ _ _ _ _ hr2
      have hvb : valueBuffer.length < 256 := hlen (by norm_num) _ rfl
      have hcs : (cstr valueBuffer).take 255 = cstr valueBuffer := by
        apply List.take_of_length_le
        have := cstr_length_le valueBuffer
        omega
      have f12 := f1.andThen f2
      have hkey : GetProperKeyName ctx2 g = GetProperKeyName ctx g := by
        unfold GetProperKeyName
        rw [f12.1]
      have hidx : ctx2.currentTemplateIdx = ctx.currentTemplateIdx := by rw [f12.1]
      have hst : ctx2.state = ctx.state := by rw [f12.1]
      refine ⟨stringType, ctx1, valueBuffer, ctx2, hr1, hr2, ?_⟩
      simp only at h
      rw [hkey, hidx, hcs] at h
      split at h
      · rename_i g1 hreg
        rw [SetState_Normal] at h
        simp only [Run.done.injEq, Prod.mk.injEq, true_and] at h
        obtain ⟨h1, h2⟩ := h
        subst h1 h2
        refine ⟨rfl, ?_⟩
        rw [hst]
        split at hreg
        · rename_i k hk
          split at hreg
          · rename_i hcond
            unfold RegisterFixedPair at hreg
            split at hreg
            · simp at hreg
            · rename_i t ht
              simp only [Run.done.injEq] at hreg
              subst hreg
              have hne : g.nameStack ≠ [] := by
                intro he
                rw [GetProperKeyName_eq, he] at hk
                simp at hk
              have hnc : ¬ (g.nameStack = [] ∨ (GetProperKeyName ctx g = some (ascii "Name") ∧
                  GetUpperName g = some (ascii "Data"))) := by
                rw [hk]
                rintro (he | ⟨e1, e2⟩)
                · exact hne he
                · simp only [Option.some.injEq] at e1
                  rcases hcond with c | c | c
                  · rw [c] at e2; simp at e2
                  · exact c e1
                  · exact c e2
              rw [if_neg hnc]
              have ht2 := ht
              simp only [List.get?_eq_getElem?] at ht2
              cases hcs : ctx.state <;> simp [PopName, AddPair, hk, ht2]
          · rename_i hcond
            simp only [Run.done.injEq] at hreg
            subst hreg
            have hc : g.nameStack = [] ∨ (GetProperKeyName ctx g = some (ascii "Name") ∧
                  GetUpperName g = some (ascii "Data")) := by
              right
              rw [hk]
              simp only [not_or, not_not] at hcond
              exact ⟨by rw [hcond.2.1], hcond.2.2⟩
            rw [if_pos hc]
            cases hcs : ctx.state <;> simp [PopName]
        · rename_i hk
          simp only [Run.done.injEq] at hreg
          subst hreg
          have hc : g.nameStack = [] ∨ (GetProperKeyName ctx g = some (ascii "Name") ∧
                  GetUpperName g = some (ascii "Data")) := by
            left
            rw [GetProperKeyName_eq] at hk
            rcases hs : g.nameStack with _ | ⟨top, _ | ⟨upper, rest⟩⟩
            · rfl
            · rw [hs] at hk; simp at hk
            · rw [hs] at hk
              simp only at hk
              split at hk <;> simp at hk
          rw [if_pos hc]
          cases hcs : ctx.state <;> simp [PopName]
      · simp at h
      · simp at h
    · simp at h
    · simp at h
    · simp at h
  · simp at h
  · simp at h
  · simp at h

/-- Witness of claim C10: a ValueText token read in attribute state below the
name `K` registers `(K, v)` on template 0 and pops the name. -/
theorem C10_ParseValueText_witness :
    ∃ ctx' g',
      ParseValueText (bufferOf valueTextBytes) (contextAt 5 0 0 .StateInAttribute)
        { initialGlobals with nameStack := [[75]] } = .done (true, ctx', g') ∧
      ctx'.cachedValue = [118] ∧ g'.nameStack = [] ∧
      (g'.templates.get? 0).map (fun t => t.fixedRoot) = some [{ key := [75], value := [118] }] := by
  have h : ParseValueText (bufferOf valueTextBytes) (contextAt 5 0 0 .StateInAttribute)
      { initialGlobals with nameStack := [[75]] } =
      .done (true, { contextAt 5 5 0 .StateNormal with cachedValue := [118] },
        { initialGlobals with
          templates := initialGlobals.templates.set 0
            { shortID := 0, fixedRoot := [{ key := [75], value := [118] }], argsRoot := [] } }) := by
    rfl
  obtain ⟨_, _, _, _, _, _, _, _, _, _, _, _⟩ := C10_ParseValueText _ _ _ _ _ h
  exact ⟨_, _, h, rfl, rfl, rfl⟩

/-! # Frame lemmas of the token handlers -/

theorem SameRegion.unchanged (ctx : ParseContext) : SameRegion ctx ctx :=
  ⟨rfl, rfl, rfl, rfl, rfl, le_refl _⟩

theorem SameRegion.followedBy {a b c : ParseContext} (h1 : SameRegion a b) (h2 : SameRegion b c) :
    SameRegion a c := by
  unfold SameRegion at h1 h2 ⊢
  refine ⟨?_, ?_, ?_, ?_, ?_, ?_⟩
  · rw [h2.1, h1.1]
  · rw [h2.2.1, h1.2.1]
  · rw [h2.2.2.1, h1.2.2.1]
  · rw [h2.2.2.2.1, h1.2.2.2.1]
  · rw [h2.2.2.2.2.1, h1.2.2.2.2.1]
  · exact Nat.le_trans h1.2.2.2.2.2 h2.2.2.2.2.2

theorem OffsetOnly.sameRegion {a b : ParseContext} (h : OffsetOnly a b) : SameRegion a b := by
  obtain ⟨e, l⟩ := h
  rw [e]
  exact ⟨rfl, rfl, rfl, rfl, rfl, l⟩

theorem readNameBody_frame (buf : Buffer) (ctx ctx1 : ParseContext) (size : Nat)
    (r : Option (List Nat)) (h : readNameBody buf ctx size = .done (r, ctx1)) :
    OffsetOnly ctx ctx1 := by
  unfold readNameBody at h
  split at h
  · rename_i _ c1 h1
    have f1 := ReadScalar_frame _ _ _ _ _ h1
    split at h
    · rename_i _ c2 h2
      have f2 := ReadScalar_frame _ _ _ _ _ h2
      exact f1.andThen (f2.andThen (ReadPrefixedUnicodeString_frame _ _ _ _ _ _ h).1)
    · rename_i c2 h2
      simp only [Run.done.injEq, Prod.mk.injEq] at h
      obtain ⟨-, rfl⟩ := h
      exact f1.andThen (ReadScalar_frame _ _ _ _ _ h2)
    · simp at h
    · simp at h
  · rename_i c1 h1
    simp only [Run.done.injEq, Prod.mk.injEq] at h
    obtain ⟨-, rfl⟩ := h
    exact ReadScalar_frame _ _ _ _ _ h1
  · simp at h
  · simp at h

theorem ReadName_frame (buf : Buffer) (ctx ctx1 : ParseContext) (size : Nat)
    (r : Option (List Nat)) (h : ReadName buf ctx size = .done (r, ctx1)) :
    OffsetOnly ctx ctx1 := by
  unfold ReadName at h
  split at h
  · simp only [Run.done.injEq, Prod.mk.injEq] at h
    obtain ⟨-, rfl⟩ := h
    exact OffsetOnly.same _
  · split at h
    · rename_i co c1 h1
      have f1 := ReadScalar_frame _ _ _ _ _ h1
      split at h
      · simp only at h
        split at h
        · simp only [Run.done.injEq, Prod.mk.injEq] at h
          obtain ⟨-, rfl⟩ := h
          exact f1
        · simp at h
        · simp at h
      · exact f1.andThen (readNameBody_frame _ _ _ _ _ h)
    · rename_i c1 h1
      simp only [Run.done.injEq, Prod.mk.injEq] at h
      obtain ⟨-, rfl⟩ := h
      exact ReadScalar_frame _ _ _ _ _ h1
    · simp at h
    · simp at h

theorem SetState_frame {R : Globals → Globals → Prop} (hR : GlobalsStep R) (ctx : ParseContext)
    (s : XmlParseState) (g : Globals) :
    SameRegion ctx (SetState ctx s g).1 ∧ R g (SetState ctx s g).2 := by
  unfold SetState
  split
  · exact ⟨SameRegion.unchanged _, hR.refl _⟩
  · refine ⟨⟨rfl, rfl, rfl, rfl, rfl, le_refl _⟩, ?_⟩
    simp only
    split
    · exact hR.popName _
    · exact hR.refl _

theorem ParseValueText_frame {R : Globals → Globals → Prop} (hR : GlobalsStep R) (buf : Buffer)
    (ctx ctx' : ParseContext) (g g' : Globals) (b : Bool)
    (h : ParseValueText buf ctx g = .done (b, ctx', g')) : SameRegion ctx ctx' ∧ R g g' := by
  unfold ParseValueText at h
  split at h
  · rename_i _ c1 h1
    have f1 := (ReadScalar_frame _ _ _ _ _ h1).sameRegion
    split at h
    · rename_i vb c2 h2
      have f2 := (ReadPrefixedUnicodeString_frame _ _ _ _ _ _ h2).1.sameRegion
      simp only at h
      split at h
      · rename_i g1 hreg
        have hg1 : R g g1 := by
          split at hreg
          · split at hreg
            · exact hR.registerFixed _ _ _ _ _ hreg
            · simp only [Run.done.injEq] at hreg
              subst hreg; exact hR.refl _
          · simp only [Run.done.injEq] at hreg
            subst hreg; exact hR.refl _
        obtain ⟨s1, s2⟩ := SetState_frame hR c2 .StateNormal g1
        simp only [Run.done.injEq, Prod.mk.injEq] at h
        obtain ⟨-, rfl, rfl⟩ := h
        refine ⟨f1.followedBy (f2.followedBy ?_), hR.trans _ _ _ hg1 s2⟩
        obtain ⟨a1, a2, a3, a4, a5, a6⟩ := s1
        exact ⟨a1, a2, a3, a4, a5, a6⟩
      · simp at h
      · simp at h
    · rename_i c2 h2
      simp only [Run.done.injEq, Prod.mk.injEq] at h
      obtain ⟨-, rfl, rfl⟩ := h
      exact ⟨f1.followedBy (ReadPrefixedUnicodeString_frame _ _ _ _ _ _ h2).1.sameRegion, hR.refl _⟩
    · simp at h
    · simp at h
  · rename_i c1 h1
    simp only [Run.done.injEq, Prod.mk.injEq] at h
    obtain ⟨-, rfl, rfl⟩ := h
    exact ⟨(ReadScalar_frame _ _ _ _ _ h1).sameRegion, hR.refl _⟩
  · simp at h
  · simp at h

theorem ParseAttributes_frame {R : Globals → Globals → Prop} (hR : GlobalsStep R) (buf : Buffer)
    (ctx ctx' : ParseContext) (g g' : Globals) (b : Bool)
    (h : ParseAttributes buf ctx g = .done (b, ctx', g')) : SameRegion ctx ctx' ∧ R g g' := by
  unfold ParseAttributes at h
  split at h
  · rename_i nb c1 h1
    have f1 := (ReadName_frame _ _ _ _ _ h1).sameRegion
    split at h
    · rename_i g1 hp
      obtain ⟨s1, s2⟩ := SetState_frame hR c1 .StateInAttribute g1
      simp only [Run.done.injEq, Prod.mk.injEq] at h
      obtain ⟨-, rfl, rfl⟩ := h
      exact ⟨f1.followedBy s1, hR.trans _ _ _ (hR.pushName _ _ _ hp) s2⟩
    · simp at h
    · simp at h
  · rename_i c1 h1
    simp only [Run.done.injEq, Prod.mk.injEq] at h
    obtain ⟨-, rfl, rfl⟩ := h
    exact ⟨(ReadName_frame _ _ _ _ _ h1).sameRegion, hR.refl _⟩
  · simp at h
  · simp at h

theorem readAttributeListLength_frame (buf : Buffer) (ha : Bool) (ctx ctx1 : ParseContext)
    (b : Bool) (h : readAttributeListLength buf ha ctx = .done (b, ctx1)) : OffsetOnly ctx ctx1 := by
  unfold readAttributeListLength at h
  split at h
  · split at h
    · rename_i _ c1 h1
      simp only [Run.done.injEq, Prod.mk.injEq] at h
      obtain ⟨-, rfl⟩ := h
      exact ReadScalar_frame _ _ _ _ _ h1
    · rename_i c1 h1
      simp only [Run.done.injEq, Prod.mk.injEq] at h
      obtain ⟨-, rfl⟩ := h
      exact ReadScalar_frame _ _ _ _ _ h1
    · simp at h
    · simp at h
  · simp only [Run.done.injEq, Prod.mk.injEq] at h
    obtain ⟨-, rfl⟩ := h
    exact OffsetOnly.same _

theorem ParseOpenStartElement_frame {R : Globals → Globals → Prop} (hR : GlobalsStep R)
    (buf : Buffer) (ctx ctx' : ParseContext) (ha : Bool) (g g' : Globals) (b : Bool)
    (h : ParseOpenStartElement buf ctx ha g = .done (b, ctx', g')) :
    SameRegion ctx ctx' ∧ R g g' := by
  unfold ParseOpenStartElement at h
  split at h
  · rename_i _ c1 h1
    have f1 := ReadScalar_frame _ _ _ _ _ h1
    split at h
    · rename_i _ c2 h2
      have f2 := f1.andThen (ReadScalar_frame _ _ _ _ _ h2)
      split at h
      · rename_i nb c3 h3
        have f3 := f2.andThen (ReadName_frame _ _ _ _ _ h3)
        split at h
        · rename_i c4 h4
          have f4 := f3.andThen (readAttributeListLength_frame _ _ _ _ _ h4)
          split at h
          · rename_i g1 hp
            simp only [Run.done.injEq, Prod.mk.injEq] at h
            obtain ⟨-, rfl, rfl⟩ := h
            exact ⟨f4.sameRegion, hR.pushName _ _ _ hp⟩
          · simp at h
          · simp at h
        · rename_i c4 h4
          have f4 := f3.andThen (readAttributeListLength_frame _ _ _ _ _ h4)
          simp only [Run.done.injEq, Prod.mk.injEq] at h
          obtain ⟨-, rfl, rfl⟩ := h
          exact ⟨f4.sameRegion, hR.refl _⟩
        · simp at h
        · simp at h
      · rename_i c3 h3
        simp only [Run.done.injEq, Prod.mk.injEq] at h
        obtain ⟨-, rfl, rfl⟩ := h
        exact ⟨(f2.andThen (ReadName_frame _ _ _ _ _ h3)).sameRegion, hR.refl _⟩
      · simp at h
      · simp at h
    · rename_i c2 h2
      simp only [Run.done.injEq, Prod.mk.injEq] at h
      obtain ⟨-, rfl, rfl⟩ := h
      exact ⟨(f1.andThen (ReadScalar_frame _ _ _ _ _ h2)).sameRegion, hR.refl _⟩
    · simp at h
    · simp at h
  · rename_i c1 h1
    simp only [Run.done.injEq, Prod.mk.injEq] at h
    obtain ⟨-, rfl, rfl⟩ := h
    exact ⟨(ReadScalar_frame _ _ _ _ _ h1).sameRegion, hR.refl _⟩
  · simp at h
  · simp at h

theorem ParseCloseStartElement_frame {R : Globals → Globals → Prop} (hR : GlobalsStep R)
    (ctx ctx' : ParseContext) (g g' : Globals) (b : Bool)
    (h : ParseCloseStartElement ctx g = .done (b, ctx', g')) : SameRegion ctx ctx' ∧ R g g' := by
  unfold ParseCloseStartElement at h
  obtain ⟨s1, s2⟩ := SetState_frame hR ctx .StateNormal g
  simp only [Run.done.injEq, Prod.mk.injEq] at h
  obtain ⟨-, rfl, rfl⟩ := h
  exact ⟨s1, s2⟩

theorem ParseCloseElement_frame {R : Globals → Globals → Prop} (hR : GlobalsStep R)
    (ctx ctx' : ParseContext) (g g' : Globals) (b : Bool)
    (h : ParseCloseElement ctx g = .done (b, ctx', g')) : SameRegion ctx ctx' ∧ R g g' := by
  unfold ParseCloseElement at h
  obtain ⟨s1, s2⟩ := SetState_frame hR ctx .StateNormal g
  simp only [Run.done.injEq, Prod.mk.injEq] at h
  obtain ⟨-, rfl, rfl⟩ := h
  exact ⟨s1, hR.trans _ _ _ s2 (hR.popName _)⟩

theorem readSubstitution_frame (buf : Buffer) (ctx ctx1 : ParseContext)
    (r : Option (Nat × Nat)) (h : readSubstitution buf ctx = .done (r, ctx1)) :
    OffsetOnly ctx ctx1 := by
  unfold readSubstitution at h
  split at h
  · rename_i _ c1 h1
    have f1 := ReadScalar_frame _ _ _ _ _ h1
    split at h
    · rename_i _ c2 h2
      have f2 := f1.andThen (ReadScalar_frame _ _ _ _ _ h2)
      split at h
      · split at h
        · rename_i _ c3 h3
          simp only [Run.done.injEq, Prod.mk.injEq] at h
          obtain ⟨-, rfl⟩ := h
          exact f2.andThen (ReadScalar_frame _ _ _ _ _ h3)
        · rename_i c3 h3
          simp only [Run.done.injEq, Prod.mk.injEq] at h
          obtain ⟨-, rfl⟩ := h
          exact f2.andThen (ReadScalar_frame _ _ _ _ _ h3)
        · simp at h
        · simp at h
      · simp only [Run.done.injEq, Prod.mk.injEq] at h
        obtain ⟨-, rfl⟩ := h
        exact f2
    · rename_i c2 h2
      simp only [Run.done.injEq, Prod.mk.injEq] at h
      obtain ⟨-, rfl⟩ := h
      exact f1.andThen (ReadScalar_frame _ _ _ _ _ h2)
    · simp at h
    · simp at h
  · rename_i c1 h1
    simp only [Run.done.injEq, Prod.mk.injEq] at h
    obtain ⟨-, rfl⟩ := h
    exact ReadScalar_frame _ _ _ _ _ h1
  · simp at h
  · simp at h

theorem ParseOptionalSubstitution_frame {R : Globals → Globals → Prop} (hR : GlobalsStep R)
    (buf : Buffer) (ctx ctx' : ParseContext) (g g' : Globals) (b : Bool)
    (h : ParseOptionalSubstitution buf ctx g = .done (b, ctx', g')) :
    SameRegion ctx ctx' ∧ R g g' := by
  unfold ParseOptionalSubstitution at h
  split at h
  · rename_i sid vt c1 h1
    have f1 := (readSubstitution_frame _ _ _ _ h1).sameRegion
    split at h
    · rename_i g1 hreg
      obtain ⟨s1, s2⟩ := SetState_frame hR c1 .StateNormal g1
      simp only [Run.done.injEq, Prod.mk.injEq] at h
      obtain ⟨-, rfl, rfl⟩ := h
      exact ⟨f1.followedBy s1, hR.trans _ _ _ (hR.registerArg _ _ _ _ _ _ hreg) s2⟩
    · simp at h
    · simp at h
  · rename_i c1 h1
    simp only [Run.done.injEq, Prod.mk.injEq] at h
    obtain ⟨-, rfl, rfl⟩ := h
    exact ⟨(readSubstitution_frame _ _ _ _ h1).sameRegion, hR.refl _⟩
  · simp at h
  · simp at h


theorem readStringLoop_frame (buf : Buffer) (size : Nat) :
    ∀ (n : Nat) (ctx : ParseContext) (sb : List Nat) (r : Option (List Nat)) (ctx1 : ParseContext),
      readStringLoop buf size n ctx sb = .done (r, ctx1) → OffsetOnly ctx ctx1 := by
  intro n
  induction n with
  | zero =>
    intro ctx sb r ctx1 h
    simp only [readStringLoop, Run.done.injEq, Prod.mk.injEq] at h
    obtain ⟨-, rfl⟩ := h
    exact OffsetOnly.same _
  | succ k ih =>
    intro ctx sb r ctx1 h
    unfold readStringLoop at h
    split at h
    · rename_i _ c1 h1
      exact (ReadScalar_frame _ _ _ _ _ h1).andThen (ih _ _ _ _ h)
    · rename_i c1 h1
      simp only [Run.done.injEq, Prod.mk.injEq] at h
      obtain ⟨-, rfl⟩ := h
      exact ReadScalar_frame _ _ _ _ _ h1
    · simp at h
    · simp at h

theorem readBinaryLoop_frame (buf : Buffer) :
    ∀ (n : Nat) (ctx : ParseContext) (out : List Nat) (b : Bool) (ctx1 : ParseContext)
      (out1 : List Nat),
      readBinaryLoop buf n ctx out = .done (b, ctx1, out1) → OffsetOnly ctx ctx1 := by
  intro n
  induction n with
  | zero =>
    intro ctx out b ctx1 out1 h
    simp only [readBinaryLoop, Run.done.injEq, Prod.mk.injEq] at h
    obtain ⟨-, rfl, -⟩ := h
    exact OffsetOnly.same _
  | succ k ih =>
    intro ctx out b ctx1 out1 h
    unfold readBinaryLoop at h
    split at h
    · rename_i _ c1 h1
      exact (ReadScalar_frame _ _ _ _ _ h1).andThen (ih _ _ _ _ _ h)
    · rename_i c1 h1
      simp only [Run.done.injEq, Prod.mk.injEq] at h
      obtain ⟨-, rfl, -⟩ := h
      exact ReadScalar_frame _ _ _ _ _ h1
    · simp at h
    · simp at h

theorem readSubAuthorities_frame (buf : Buffer) :
    ∀ (n : Nat) (ctx : ParseContext) (out : List Nat) (b : Bool) (ctx1 : ParseContext)
      (out1 : List Nat),
      readSubAuthorities buf n ctx out = .done (b, ctx1, out1) → OffsetOnly ctx ctx1 := by
  intro n
  induction n with
  | zero =>
    intro ctx out b ctx1 out1 h
    simp only [readSubAuthorities, Run.done.injEq, Prod.mk.injEq] at h
    obtain ⟨-, rfl, -⟩ := h
    exact OffsetOnly.same _
  | succ k ih =>
    intro ctx out b ctx1 out1 h
    unfold readSubAuthorities at h
    split at h
    · rename_i _ c1 h1
      exact (ReadScalar_frame _ _ _ _ _ h1).andThen (ih _ _ _ _ _ h)
    · rename_i c1 h1
      simp only [Run.done.injEq, Prod.mk.injEq] at h
      obtain ⟨-, rfl, -⟩ := h
      exact ReadScalar_frame _ _ _ _ _ h1
    · simp at h
    · simp at h

theorem readAndPrint_frame {R : Globals → Globals → Prop} (hR : GlobalsStep R) (buf : Buffer)
    (size : Nat) (key : List Nat) (render : Nat → List Nat) (ctx ctx' : ParseContext)
    (g g' : Globals) (b : Bool)
    (h : readAndPrint buf size key render ctx g = .done (b, ctx', g')) :
    SameRegion ctx ctx' ∧ R g g' := by
  unfold readAndPrint at h
  split at h
  · rename_i _ c1 h1
    simp only [Run.done.injEq, Prod.mk.injEq] at h
    obtain ⟨-, rfl, rfl⟩ := h
    exact ⟨(ReadScalar_frame _ _ _ _ _ h1).sameRegion, hR.print _ _⟩
  · rename_i c1 h1
    simp only [Run.done.injEq, Prod.mk.injEq] at h
    obtain ⟨-, rfl, rfl⟩ := h
    exact ⟨(ReadScalar_frame _ _ _ _ _ h1).sameRegion, hR.refl _⟩
  · simp at h
  · simp at h

theorem decodeArgument_frame {R : Globals → Globals → Prop} (hR : GlobalsStep R) (env : Env)
    (buf : Buffer) (P : Parser) (hP : ParserRespects R P) (argPair : TemplateArgPair)
    (argLen argType : Nat) (ctx ctx' : ParseContext) (g g' : Globals) (b : Bool)
    (h : decodeArgument env buf P argPair argLen argType ctx g = .done (b, ctx', g')) :
    SameRegion ctx ctx' ∧ R g g' := by
  unfold decodeArgument at h
  by_cases c1 : argType = 1
  · rw [if_pos c1] at h
    simp only at h
    split at h
    · rename_i sb c1 h1
      simp only [Run.done.injEq, Prod.mk.injEq] at h
      obtain ⟨-, rfl, rfl⟩ := h
      exact ⟨(readStringLoop_frame _ _ _ _ _ _ _ h1).sameRegion, hR.print _ _⟩
    · rename_i c1 h1
      simp only [Run.done.injEq, Prod.mk.injEq] at h
      obtain ⟨-, rfl, rfl⟩ := h
      exact ⟨(readStringLoop_frame _ _ _ _ _ _ _ h1).sameRegion, hR.refl _⟩
    · simp at h
    · simp at h
  rw [if_neg c1] at h
  by_cases c4 : argType = 4
  · rw [if_pos c4] at h
    exact readAndPrint_frame hR _ _ _ _ _ _ _ _ _ h
  rw [if_neg c4] at h
  by_cases c6 : argType = 6
  · rw [if_pos c6] at h
    exact readAndPrint_frame hR _ _ _ _ _ _ _ _ _ h
  rw [if_neg c6] at h
  by_cases c8 : argType = 8
  · rw [if_pos c8] at h
    exact readAndPrint_frame hR _ _ _ _ _ _ _ _ _ h
  rw [if_neg c8] at h
  by_cases c10 : argType = 10
  · rw [if_pos c10] at h
    exact readAndPrint_frame hR _ _ _ _ _ _ _ _ _ h
  rw [if_neg c10] at h
  by_cases c14 : argType = 14
  · rw [if_pos c14] at h
    split at h
    · rename_i c1 out h1
      simp only [Run.done.injEq, Prod.mk.injEq] at h
      obtain ⟨-, rfl, rfl⟩ := h
      exact ⟨(readBinaryLoop_frame _ _ _ _ _ _ _ h1).sameRegion, hR.print _ _⟩
    · rename_i c1 out h1
      simp only [Run.done.injEq, Prod.mk.injEq] at h
      obtain ⟨-, rfl, rfl⟩ := h
      exact ⟨(readBinaryLoop_frame _ _ _ _ _ _ _ h1).sameRegion, hR.print _ _⟩
    · simp at h
    · simp at h
  rw [if_neg c14] at h
  by_cases c15 : argType = 15
  · rw [if_pos c15] at h
    exact readAndPrint_frame hR _ _ _ _ _ _ _ _ _ h
  rw [if_neg c15] at h
  by_cases c20 : argType = 20
  · rw [if_pos c20] at h
    exact readAndPrint_frame hR _ _ _ _ _ _ _ _ _ h
  rw [if_neg c20] at h
  by_cases c21 : argType = 21
  · rw [if_pos c21] at h
    exact readAndPrint_frame hR _ _ _ _ _ _ _ _ _ h
  rw [if_neg c21] at h
  by_cases c17 : argType = 17
  · rw [if_pos c17] at h
    exact readAndPrint_frame hR _ _ _ _ _ _ _ _ _ h
  rw [if_neg c17] at h
  by_cases c19 : argType = 19
  · rw [if_pos c19] at h
    split at h
    · simp only [Run.done.injEq, Prod.mk.injEq] at h
      obtain ⟨-, rfl, rfl⟩ := h
      exact ⟨SameRegion.unchanged _, hR.refl _⟩
    · split at h
      · rename_i sid c1 h1
        have f1 := ReadData_frame _ _ _ _ _ _ h1
        simp only at h
        split at h
        · rename_i c2 out h2
          simp only [Run.done.injEq, Prod.mk.injEq] at h
          obtain ⟨-, rfl, rfl⟩ := h
          exact ⟨(f1.andThen (readSubAuthorities_frame _ _ _ _ _ _ _ h2)).sameRegion, hR.print _ _⟩
        · rename_i c2 out h2
          simp only [Run.done.injEq, Prod.mk.injEq] at h
          obtain ⟨-, rfl, rfl⟩ := h
          exact ⟨(f1.andThen (readSubAuthorities_frame _ _ _ _ _ _ _ h2)).sameRegion, hR.print _ _⟩
        · simp at h
        · simp at h
      · rename_i c1 h1
        simp only [Run.done.injEq, Prod.mk.injEq] at h
        obtain ⟨-, rfl, rfl⟩ := h
        exact ⟨(ReadData_frame _ _ _ _ _ _ h1).sameRegion, hR.refl _⟩
      · simp at h
      · simp at h
  rw [if_neg c19] at h
  by_cases c33 : argType = 33
  · rw [if_pos c33] at h
    simp only at h
    split at h
    · rename_i _ _ g1 h1
      simp only [Run.done.injEq, Prod.mk.injEq] at h
      obtain ⟨-, rfl, rfl⟩ := h
      exact ⟨(OffsetOnly.skip _ _).sameRegion, hP _ _ _ _ _ h1⟩
    · simp at h
    · simp at h
  rw [if_neg c33] at h
  simp only [Run.done.injEq, Prod.mk.injEq] at h
  obtain ⟨-, rfl, rfl⟩ := h
  refine ⟨(OffsetOnly.skip _ _).sameRegion, ?_⟩
  split
  · exact hR.print _ _
  · exact hR.refl _

theorem bindArgument_frame {R : Globals → Globals → Prop} (hR : GlobalsStep R) (env : Env)
    (buf : Buffer) (P : Parser) (hP : ParserRespects R P)
    (argLen argType argumentIdx : Nat) (ctx ctx' : ParseContext) (g g' : Globals) (b : Bool)
    (h : bindArgument env buf P argLen argType argumentIdx ctx g = .done (b, ctx', g')) :
    SameRegion ctx ctx' ∧ R g g' := by
  unfold bindArgument at h
  split at h
  · simp at h
  · split at h
    · simp only [Run.done.injEq, Prod.mk.injEq] at h
      obtain ⟨-, rfl, rfl⟩ := h
      exact ⟨(OffsetOnly.skip _ _).sameRegion, hR.refl _⟩
    · exact decodeArgument_frame hR _ _ _ hP _ _ _ _ _ _ _ _ h

theorem argumentLoop_frame {R : Globals → Globals → Prop} (hR : GlobalsStep R) (env : Env)
    (buf : Buffer) (P : Parser) (hP : ParserRespects R P) (argumentMap : List Nat) :
    ∀ (remaining argumentIdx : Nat) (ctx ctx' : ParseContext) (g g' : Globals) (b : Bool),
      argumentLoop env buf P argumentMap remaining argumentIdx ctx g = .done (b, ctx', g') →
      SameRegion ctx ctx' ∧ R g g' := by
  intro remaining
  induction remaining with
  | zero =>
    intro idx ctx ctx' g g' b h
    simp only [argumentLoop, Run.done.injEq, Prod.mk.injEq] at h
    obtain ⟨-, rfl, rfl⟩ := h
    exact ⟨SameRegion.unchanged _, hR.refl _⟩
  | succ n ih =>
    intro idx ctx ctx' g g' b h
    unfold argumentLoop at h
    split at h
    · simp at h
    · split at h
      · simp at h
      · split at h
        · rename_i c1 g1 h1
          obtain ⟨s1, r1⟩ := bindArgument_frame hR _ _ _ hP _ _ _ _ _ _ _ _ h1
          obtain ⟨s2, r2⟩ := ih _ _ _ _ _ _ h
          exact ⟨s1.followedBy s2, hR.trans _ _ _ r1 r2⟩
        · rename_i c1 g1 h1
          simp only [Run.done.injEq, Prod.mk.injEq] at h
          obtain ⟨-, rfl, rfl⟩ := h
          exact bindArgument_frame hR _ _ _ hP _ _ _ _ _ _ _ _ h1
        · simp at h
        · simp at h

theorem emitInstance_frame {R : Globals → Globals → Prop} (hR : GlobalsStep R) (env : Env)
    (buf : Buffer) (P : Parser) (hP : ParserRespects R P) (numArguments : Nat)
    (ctx ctx' : ParseContext) (g g' : Globals) (b : Bool)
    (h : emitInstance env buf P numArguments ctx g = .done (b, ctx', g')) :
    SameRegion ctx ctx' ∧ R g g' := by
  unfold emitInstance at h
  split at h
  · simp at h
  · simp only at h
    split at h
    · rename_i am c1 h1
      obtain ⟨s2, r2⟩ := argumentLoop_frame hR _ _ _ hP _ _ _ _ _ _ _ _ h
      exact ⟨(ReadData_frame _ _ _ _ _ _ h1).sameRegion.followedBy s2, hR.trans _ _ _ (hR.print _ _) r2⟩
    · rename_i c1 h1
      simp only [Run.done.injEq, Prod.mk.injEq] at h
      obtain ⟨-, rfl, rfl⟩ := h
      exact ⟨(ReadData_frame _ _ _ _ _ _ h1).sameRegion,
        hR.trans _ _ _ (hR.print _ _) (hR.print _ _)⟩
    · simp at h
    · simp at h

theorem readInstanceHeader_frame (buf : Buffer) (ctx ctx1 : ParseContext)
    (r : Option (Nat × Nat)) (h : readInstanceHeader buf ctx = .done (r, ctx1)) :
    OffsetOnly ctx ctx1 := by
  unfold readInstanceHeader at h
  split at h
  · rename_i _ c1 h1
    have f1 := ReadScalar_frame _ _ _ _ _ h1
    split at h
    · simp only [Run.done.injEq, Prod.mk.injEq] at h
      obtain ⟨-, rfl⟩ := h
      exact f1
    · split at h
      · rename_i _ c2 h2
        have f2 := f1.andThen (ReadScalar_frame _ _ _ _ _ h2)
        split at h
        · rename_i _ c3 h3
          have f3 := f2.andThen (ReadScalar_frame _ _ _ _ _ h3)
          split at h
          · rename_i _ c4 h4
            simp only [Run.done.injEq, Prod.mk.injEq] at h
            obtain ⟨-, rfl⟩ := h
            exact f3.andThen (ReadScalar_frame _ _ _ _ _ h4)
          · rename_i c4 h4
            simp only [Run.done.injEq, Prod.mk.injEq] at h
            obtain ⟨-, rfl⟩ := h
            exact f3.andThen (ReadScalar_frame _ _ _ _ _ h4)
          · simp at h
          · simp at h
        · rename_i c3 h3
          simp only [Run.done.injEq, Prod.mk.injEq] at h
          obtain ⟨-, rfl⟩ := h
          exact f2.andThen (ReadScalar_frame _ _ _ _ _ h3)
        · simp at h
        · simp at h
      · rename_i c2 h2
        simp only [Run.done.injEq, Prod.mk.injEq] at h
        obtain ⟨-, rfl⟩ := h
        exact f1.andThen (ReadScalar_frame _ _ _ _ _ h2)
      · simp at h
      · simp at h
  · rename_i c1 h1
    simp only [Run.done.injEq, Prod.mk.injEq] at h
    obtain ⟨-, rfl⟩ := h
    exact ReadScalar_frame _ _ _ _ _ h1
  · simp at h
  · simp at h

theorem parseTemplateDefinition_frame {R : Globals → Globals → Prop} (hR : GlobalsStep R)
    (env : Env) (buf : Buffer) (P : Parser) (hP : ParserRespects R P) (shortID : Nat)
    (ctx ctx' : ParseContext) (g g' : Globals) (r : Option Nat)
    (h : parseTemplateDefinition env buf P shortID ctx g = .done (r, ctx', g')) :
    SameRegion ctx ctx' ∧ R g g' := by
  unfold parseTemplateDefinition at h
  split at h
  · rename_i _ c1 h1
    have f1 := ReadData_frame _ _ _ _ _ _ h1
    split at h
    · rename_i bodyLen c2 h2
      have f2 := (f1.andThen (ReadScalar_frame _ _ _ _ _ h2)).sameRegion
      have hreg := hR.registerID shortID g
      simp only at h
      split at h
      · rename_i tc1 g2 hp
        have hg2 := hR.trans _ _ _ hreg (hP _ _ _ _ _ hp)
        have f3 := f2.followedBy (OffsetOnly.skip c2 bodyLen).sameRegion
        split at h
        · rename_i _ c4 h4
          simp only [Run.done.injEq, Prod.mk.injEq] at h
          obtain ⟨-, rfl, rfl⟩ := h
          have f4 := f3.followedBy (ReadScalar_frame _ _ _ _ _ h4).sameRegion
          obtain ⟨a1, a2, a3, a4, a5, a6⟩ := f4
          exact ⟨⟨a1, a2, a3, a4, a5, a6⟩, hg2⟩
        · rename_i c4 h4
          simp only [Run.done.injEq, Prod.mk.injEq] at h
          obtain ⟨-, rfl, rfl⟩ := h
          exact ⟨f3.followedBy (ReadScalar_frame _ _ _ _ _ h4).sameRegion, hg2⟩
        · simp at h
        · simp at h
      · rename_i _ g2 hp
        simp only [Run.done.injEq, Prod.mk.injEq] at h
        obtain ⟨-, rfl, rfl⟩ := h
        exact ⟨f2, hR.trans _ _ _ hreg (hP _ _ _ _ _ hp)⟩
      · simp at h
      · simp at h
    · rename_i c2 h2
      simp only [Run.done.injEq, Prod.mk.injEq] at h
      obtain ⟨-, rfl, rfl⟩ := h
      exact ⟨(f1.andThen (ReadScalar_frame _ _ _ _ _ h2)).sameRegion, hR.refl _⟩
    · simp at h
    · simp at h
  · rename_i c1 h1
    simp only [Run.done.injEq, Prod.mk.injEq] at h
    obtain ⟨-, rfl, rfl⟩ := h
    exact ⟨(ReadData_frame _ _ _ _ _ _ h1).sameRegion, hR.refl _⟩
  · simp at h
  · simp at h

theorem ParseTemplateInstance_frame {R : Globals → Globals → Prop} (hR : GlobalsStep R)
    (env : Env) (buf : Buffer) (P : Parser) (hP : ParserRespects R P)
    (ctx ctx' : ParseContext) (g g' : Globals) (b : Bool)
    (h : ParseTemplateInstance env buf P ctx g = .done (b, ctx', g')) :
    SameRegion ctx ctx' ∧ R g g' := by
  unfold ParseTemplateInstance at h
  split at h
  · rename_i sid na c1 h1
    have f1 := (readInstanceHeader_frame _ _ _ _ h1).sameRegion
    split at h
    · obtain ⟨s2, r2⟩ := emitInstance_frame hR _ _ _ hP _ _ _ _ _ _ h
      refine ⟨f1.followedBy ?_, r2⟩
      obtain ⟨a1, a2, a3, a4, a5, a6⟩ := s2
      exact ⟨a1, a2, a3, a4, a5, a6⟩
    · split at h
      · rename_i na1 c2 g1 h2
        obtain ⟨s2, r2⟩ := parseTemplateDefinition_frame hR _ _ _ hP _ _ _ _ _ _ h2
        obtain ⟨s3, r3⟩ := emitInstance_frame hR _ _ _ hP _ _ _ _ _ _ h
        exact ⟨f1.followedBy (s2.followedBy s3), hR.trans _ _ _ r2 r3⟩
      · rename_i c2 g1 h2
        simp only [Run.done.injEq, Prod.mk.injEq] at h
        obtain ⟨-, rfl, rfl⟩ := h
        obtain ⟨s2, r2⟩ := parseTemplateDefinition_frame hR _ _ _ hP _ _ _ _ _ _ h2
        exact ⟨f1.followedBy s2, r2⟩
      · simp at h
      · simp at h
  · rename_i c1 h1
    simp only [Run.done.injEq, Prod.mk.injEq] at h
    obtain ⟨-, rfl, rfl⟩ := h
    exact ⟨(readInstanceHeader_frame _ _ _ _ h1).sameRegion, hR.refl _⟩
  · simp at h
  · simp at h


theorem dispatchToken_frame {R : Globals → Globals → Prop} (hR : GlobalsStep R)
    (env : Env) (buf : Buffer) (P : Parser) (hP : ParserRespects R P) (tag : Nat)
    (ctx ctx' : ParseContext) (g g' : Globals) (b : Bool) (hlt : ctx.offset ≤ ctx.dataLen)
    (h : dispatchToken env buf P tag ctx g = .done (b, ctx', g')) :
    SameRegion ctx ctx' ∧ R g g' := by
  unfold dispatchToken at h
  by_cases c0 : tag = 0
  · rw [if_pos c0] at h
    simp only [Run.done.injEq, Prod.mk.injEq] at h
    obtain ⟨-, rfl, rfl⟩ := h
    exact ⟨⟨rfl, rfl, rfl, rfl, rfl, hlt⟩, hR.refl _⟩
  rw [if_neg c0] at h
  by_cases c1 : tag = 1
  · rw [if_pos c1] at h
    exact ParseOpenStartElement_frame hR _ _ _ _ _ _ _ h
  rw [if_neg c1] at h
  by_cases c2 : tag = 65
  · rw [if_pos c2] at h
    exact ParseOpenStartElement_frame hR _ _ _ _ _ _ _ h
  rw [if_neg c2] at h
  by_cases c3 : tag = 2
  · rw [if_pos c3] at h
    exact ParseCloseStartElement_frame hR _ _ _ _ _ h
  rw [if_neg c3] at h
  by_cases c4 : tag = 3 ∨ tag = 4
  · rw [if_pos c4] at h
    exact ParseCloseElement_frame hR _ _ _ _ _ h
  rw [if_neg c4] at h
  by_cases c5 : tag = 5 ∨ tag = 69
  · rw [if_pos c5] at h
    exact ParseValueText_frame hR _ _ _ _ _ _ h
  rw [if_neg c5] at h
  by_cases c6 : tag = 6 ∨ tag = 70
  · rw [if_pos c6] at h
    exact ParseAttributes_frame hR _ _ _ _ _ _ h
  rw [if_neg c6] at h
  by_cases c7 : tag = 7 ∨ tag = 71 ∨ tag = 8 ∨ tag = 72 ∨ tag = 9 ∨ tag = 73 ∨ tag = 10 ∨ tag = 11
  · rw [if_pos c7] at h
    simp only [Run.done.injEq, Prod.mk.injEq] at h
    obtain ⟨-, rfl, rfl⟩ := h
    exact ⟨SameRegion.unchanged _, hR.refl _⟩
  rw [if_neg c7] at h
  by_cases c8 : tag = 12
  · rw [if_pos c8] at h
    exact ParseTemplateInstance_frame hR _ _ _ hP _ _ _ _ _ h
  rw [if_neg c8] at h
  by_cases c9 : tag = 13 ∨ tag = 14
  · rw [if_pos c9] at h
    exact ParseOptionalSubstitution_frame hR _ _ _ _ _ _ h
  rw [if_neg c9] at h
  by_cases c10 : tag = 15
  · rw [if_pos c10] at h
    simp only [Run.done.injEq, Prod.mk.injEq] at h
    obtain ⟨-, rfl, rfl⟩ := h
    exact ⟨(OffsetOnly.skip _ _).sameRegion, hR.refl _⟩
  rw [if_neg c10] at h
  simp only [Run.done.injEq, Prod.mk.injEq] at h
  obtain ⟨-, rfl, rfl⟩ := h
  exact ⟨SameRegion.unchanged _, hR.refl _⟩

theorem ParseBinXmlLoop_frame {R : Globals → Globals → Prop} (hR : GlobalsStep R)
    (env : Env) (buf : Buffer) :
    ∀ (fuel : Nat) (ctx ctx' : ParseContext) (g g' : Globals) (b : Bool),
      ParseBinXmlLoop env buf fuel ctx g = .done (b, ctx', g') →
      SameRegion ctx ctx' ∧ R g g' ∧ (b = true → ctx'.dataLen ≤ ctx'.offset) := by
  intro fuel
  induction fuel with
  | zero =>
    intro ctx ctx' g g' b h
    simp [ParseBinXmlLoop] at h
  | succ n ih =>
    intro ctx ctx' g g' b h
    unfold ParseBinXmlLoop at h
    split at h
    · rename_i hlt
      split at h
      · simp at h
      · rename_i tagByte htag
        simp only at h
        have hP : ParserRespects R
            (fun c g0 => ParseBinXmlLoop env buf n { c with state := .StateNormal } g0) := by
          intro c g0 b0 c' g0' hrun
          exact (ih _ _ _ _ _ hrun).2.1
        have hstep : SameRegion ctx { ctx with offset := ctx.offset + 1 } :=
          ⟨rfl, rfl, rfl, rfl, rfl, Nat.le_add_right _ _⟩
        split at h
        · rename_i c1 g1 hd
          obtain ⟨s1, r1⟩ := dispatchToken_frame hR _ _ _ hP _ _ _ _ _ _ (by simpa using hlt) hd
          obtain ⟨s2, r2, e2⟩ := ih _ _ _ _ _ h
          exact ⟨hstep.followedBy (s1.followedBy s2), hR.trans _ _ _ r1 r2, e2⟩
        · rename_i c1 g1 hd
          obtain ⟨s1, r1⟩ := dispatchToken_frame hR _ _ _ hP _ _ _ _ _ _ (by simpa using hlt) hd
          simp only [Run.done.injEq, Prod.mk.injEq] at h
          obtain ⟨rfl, rfl, rfl⟩ := h
          exact ⟨hstep.followedBy s1, r1, by simp⟩
        · simp at h
        · simp at h
    · rename_i hge
      simp only [Run.done.injEq, Prod.mk.injEq] at h
      obtain ⟨-, rfl, rfl⟩ := h
      exact ⟨SameRegion.unchanged _, hR.refl _, fun _ => by omega⟩

theorem ParseBinXml_frame {R : Globals → Globals → Prop} (hR : GlobalsStep R)
    (env : Env) (buf : Buffer) (fuel : Nat) (ctx ctx' : ParseContext) (g g' : Globals) (b : Bool)
    (h : ParseBinXml env buf fuel ctx g = .done (b, ctx', g')) :
    SameRegion ctx ctx' ∧ R g g' ∧ (b = true → ctx'.dataLen ≤ ctx'.offset) := by
  unfold ParseBinXml at h
  obtain ⟨s, r, e⟩ := ParseBinXmlLoop_frame hR env buf fuel _ _ _ _ _ h
  obtain ⟨a1, a2, a3, a4, a5, a6⟩ := s
  exact ⟨⟨a1, a2, a3, a4, a5, a6⟩, r, e⟩

theorem GlobalsStep_trivial : GlobalsStep (fun _ _ => True) :=
  { refl := fun _ => trivial
    trans := fun _ _ _ _ _ => trivial
    registerFixed := fun _ _ _ _ _ _ => trivial
    registerArg := fun _ _ _ _ _ _ _ => trivial
    pushName := fun _ _ _ _ => trivial
    popName := fun _ => trivial
    registerID := fun _ _ => trivial
    print := fun _ _ => trivial }

/-! # Bounds of the reads and of the template table -/

/-- Claim C1, evaluated at two failing inputs: with a 34-byte buffer that
ends after `templateBodyLen = 1` the inner context of the template body reads
the byte at index 34, and with a 46-byte buffer whose `0x21` argument announces
100 bytes the sub-context reads the byte at index 46; both lie outside the
buffer.  The first instance placed in the last 34 bytes of a chunk of
`EVTX_CHUNK_SIZE` bytes makes the decoder read the byte at index 65536. -/
theorem C1_read_past_buffer (env : Env) (fuel : Nat) :
    bodyPastEnd.length = 34 ∧
    ParseBinXmlPre env (bufferOf bodyPastEnd) (fuel + 2) 34 0 initialGlobals =
      .fault (.chunkRead 34) ∧
    argPastEnd.length = 46 ∧
    ParseBinXmlPre env (bufferOf argPastEnd) (fuel + 3) 46 0 initialGlobals =
      .fault (.chunkRead 46) ∧
    ParseBinXmlPre (envWith 0) chunkEndingInBody 2 EVTX_CHUNK_SIZE 65502 initialGlobals =
      .fault (.chunkRead EVTX_CHUNK_SIZE) :=
  ⟨rfl, rfl, rfl, rfl, by decide⟩

/-- Claim C2, evaluated at a failing input: a substitution token at the top
level registers its argument pair through the unset index `INVALID_TEMPLATE_IDX`,
outside the 256 entries of the template table, also when the token is the
payload of the record of a whole chunk. -/
theorem C2_unset_template_index (env : Env) (fuel : Nat) :
    ParseBinXmlPre env (bufferOf substitutionAtTopLevel) (fuel + 1) 4 0 initialGlobals =
      .fault (.templateIndex INVALID_TEMPLATE_IDX) ∧
    ParseChunk (envWith 0) (chunkWithRecord substitutionAtTopLevel) 2 initialGlobals =
      .fault (.templateIndex INVALID_TEMPLATE_IDX) :=
  ⟨rfl, by decide⟩

/-! # Cursor -/

/-- Claim C3 as stated fails: after a FragmentHeader tag in the last byte of a
one-byte stream `ParseBinXml` returns `true` with offset 4 above `dataLen = 1`. -/
theorem C3_counterexample :
    ParseBinXmlPre (envWith 0) (bufferOf fragmentHeaderAtEnd) 2 1 0 initialGlobals =
      .done (true, contextAt 1 4 INVALID_TEMPLATE_IDX .StateNormal, initialGlobals) ∧
    ¬ (contextAt 1 4 INVALID_TEMPLATE_IDX .StateNormal).offset ≤
      (contextAt 1 4 INVALID_TEMPLATE_IDX .StateNormal).dataLen :=
  ⟨rfl, by decide⟩

theorem ReadData_exhausted (buf : Buffer) (size count : Nat) (ctx : ParseContext)
    (h : ctx.dataLen < ctx.offset) : ReadData buf size count ctx = .done (none, ctx) := by
  unfold ReadData HaveEnoughData
  rw [if_neg]
  simp only [decide_eq_true_eq, not_le]
  omega

/-- Claim C3 as amended: whenever `ParseBinXml` returns, `dataLen` is what it
was and the offset did not decrease; when it returns `true` the cursor is
exhausted, `dataLen ≤ offset`; and a cursor whose offset exceeds `dataLen` makes
every `ReadData` fail without moving. -/
theorem C3_cursor_after_ParseBinXml (env : Env) (buf : Buffer) (fuel : Nat)
    (ctx ctx' : ParseContext) (g g' : Globals) (b : Bool)
    (h : ParseBinXml env buf fuel ctx g = .done (b, ctx', g')) :
    ctx'.dataLen = ctx.dataLen ∧ ctx.offset ≤ ctx'.offset ∧
    (b = true → ctx'.dataLen ≤ ctx'.offset) ∧
    (ctx'.dataLen < ctx'.offset →
      ∀ size count, ReadData buf size count ctx' = .done (none, ctx')) := by
  obtain ⟨s, -, e⟩ := ParseBinXml_frame GlobalsStep_trivial env buf fuel ctx ctx' g g' b h
  exact ⟨s.2.1, s.2.2.2.2.2, e, fun hlt size count => ReadData_exhausted buf size count ctx' hlt⟩

/-- Witness of claim C3: the one-byte stream with a FragmentHeader tag. -/
theorem C3_cursor_after_ParseBinXml_witness :
    ∃ ctx' g',
      ParseBinXml (envWith 0) (bufferOf fragmentHeaderAtEnd) 2
        (contextAt 1 0 INVALID_TEMPLATE_IDX .StateNormal) initialGlobals = .done (true, ctx', g') ∧
      ctx'.dataLen = 1 ∧ 1 ≤ ctx'.offset ∧
      ReadData (bufferOf fragmentHeaderAtEnd) 1 1 ctx' = .done (none, ctx') := by
  have h : ParseBinXml (envWith 0) (bufferOf fragmentHeaderAtEnd) 2
      (contextAt 1 0 INVALID_TEMPLATE_IDX .StateNormal) initialGlobals =
      .done (true, contextAt 1 4 INVALID_TEMPLATE_IDX .StateNormal, initialGlobals) := rfl
  obtain ⟨h1, -, h3, h4⟩ := C3_cursor_after_ParseBinXml _ _ _ _ _ _ _ _ h
  exact ⟨_, _, h, h1, h3 rfl, h4 (by decide) 1 1⟩

/-! # Chunks and the template cache -/

/-- Claim C4, evaluated at a failing input: chunk A leaves the name `K` on the
name stack, which `ResetTemplates` does not clear, and chunk B, which decoded
alone prints no pair, prints the pair `K`, `v` when it is decoded after chunk A. -/
theorem C4_name_stack_carries_over :
    chunkOutput (envWith 0) chunkB 4 initialGlobals =
      some (true, ascii "Record #1 1970.01.01-00:00:00 \n") ∧
    (stateAfter (envWith 0) chunkA 4 initialGlobals).map (fun gA => gA.nameStack) =
      some [ascii "K"] ∧
    (stateAfter (envWith 0) chunkA 4 initialGlobals).bind
        (fun gA => chunkOutput (envWith 0) chunkB 4 gA) =
      some (true, ascii "Record #1 1970.01.01-00:00:00 " ++ fmtKey (ascii "K") ++ apostrophe ++
        ascii "v" ++ apostrophe ++ ascii ", \n") :=
  ⟨rfl, rfl, rfl⟩

/-- Claim C5, evaluated at a failing input: template 7 is defined with the one
argument pair of index 0; a later instance of the known id 7 whose argument 0 has
type `0x21` and holds a substitution token leaves the template with a second
argument pair, registered through the template index that the sub-context inherits. -/
theorem C5_cached_template_changed (env : Env) (fuel : Nat) :
    ∃ ctx1 g1 ctx2 g2,
      ParseBinXmlPre env (bufferOf definingInstance) (fuel + 3) 42 0 initialGlobals =
        .done (true, ctx1, g1) ∧
      IsKnownID 7 g1 = some 0 ∧
      ParseTemplateInstance env (bufferOf laterInstance)
        (ParseBinXml env (bufferOf laterInstance) (fuel + 2))
        (contextAt 22 1 INVALID_TEMPLATE_IDX .StateNormal) g1 = .done (true, ctx2, g2) ∧
      (g1.templates.get? 0).map (fun t => t.argsRoot) =
        some [{ key := [], type := 33, argIdx := 0 }] ∧
      (g2.templates.get? 0).map (fun t => t.argsRoot) =
        some [{ key := [], type := 1, argIdx := 1 }, { key := [], type := 33, argIdx := 0 }] :=
  ⟨_, _, _, _, rfl, rfl, rfl, rfl, rfl⟩

/-- Claim C6, evaluated at a failing input: with 256 registered templates an
instance of the unknown id 1000 is not skipped; its body is decoded with the
indeterminate template index.  When that value is 5 the existing template 5
receives the argument pair of the body; when it is 256 the table is indexed
outside its 256 entries. -/
theorem C6_full_registry_not_skipped (fuel : Nat) :
    IsKnownID 1000 fullRegistry = none ∧
    (fullRegistry.templates.get? 5).map (fun t => t.argsRoot) = some [] ∧
    (∃ ctx1 g1,
      ParseBinXmlPre (envWith 5) (bufferOf overflowInstance) (fuel + 3) 42 0 fullRegistry =
        .done (true, ctx1, g1) ∧
      (g1.templates.get? 5).map (fun t => t.argsRoot) =
        some [{ key := [], type := 1, argIdx := 0 }]) ∧
    ParseBinXmlPre (envWith 256) (bufferOf overflowInstance) (fuel + 3) 42 0 fullRegistry =
      .fault (.templateIndex 256) :=
  ⟨rfl, rfl, ⟨_, _, rfl, rfl⟩, rfl⟩

/-! # The argument loop of a template instance -/

theorem readStringLoop_offset (buf : Buffer) (size : Nat) :
    ∀ (n : Nat) (ctx : ParseContext) (sb sb1 : List Nat) (ctx1 : ParseContext),
      readStringLoop buf size n ctx sb = .done (some sb1, ctx1) →
      ctx1.offset = ctx.offset + 2 * n := by
  intro n
  induction n with
  | zero =>
    intro ctx sb sb1 ctx1 h
    simp only [readStringLoop, Run.done.injEq, Prod.mk.injEq] at h
    obtain ⟨-, rfl⟩ := h
    rfl
  | succ k ih =>
    intro ctx sb sb1 ctx1 h
    unfold readStringLoop at h
    split at h
    · rename_i _ c1 h1
      have e1 := (ReadScalar_some _ _ _ _ _ h1).1
      have e2 := ih _ _ _ _ h
      rw [e2, e1]
      simp only
      omega
    · simp at h
    · simp at h
    · simp at h

theorem readBinaryLoop_offset (buf : Buffer) :
    ∀ (n : Nat) (ctx : ParseContext) (out : List Nat) (ctx1 : ParseContext) (out1 : List Nat),
      readBinaryLoop buf n ctx out = .done (true, ctx1, out1) →
      ctx1.offset = ctx.offset + n := by
  intro n
  induction n with
  | zero =>
    intro ctx out ctx1 out1 h
    simp only [readBinaryLoop, Run.done.injEq, Prod.mk.injEq] at h
    obtain ⟨-, rfl, -⟩ := h
    rfl
  | succ k ih =>
    intro ctx out ctx1 out1 h
    unfold readBinaryLoop at h
    split at h
    · rename_i _ c1 h1
      have e1 := (ReadScalar_some _ _ _ _ _ h1).1
      have e2 := ih _ _ _ _ h
      rw [e2, e1]
      simp only
      omega
    · simp at h
    · simp at h
    · simp at h

theorem readSubAuthorities_offset (buf : Buffer) :
    ∀ (n : Nat) (ctx : ParseContext) (out : List Nat) (ctx1 : ParseContext) (out1 : List Nat),
      readSubAuthorities buf n ctx out = .done (true, ctx1, out1) →
      ctx1.offset = ctx.offset + 4 * n := by
  intro n
  induction n with
  | zero =>
    intro ctx out ctx1 out1 h
    simp only [readSubAuthorities, Run.done.injEq, Prod.mk.injEq] at h
    obtain ⟨-, rfl, -⟩ := h
    rfl
  | succ k ih =>
    intro ctx out ctx1 out1 h
    unfold readSubAuthorities at h
    split at h
    · rename_i _ c1 h1
      have e1 := (ReadScalar_some _ _ _ _ _ h1).1
      have e2 := ih _ _ _ _ h
      rw [e2, e1]
      simp only
      omega
    · simp at h
    · simp at h
    · simp at h

theorem readAndPrint_offset (buf : Buffer) (size : Nat) (key : List Nat)
    (render : Nat → List Nat) (ctx ctx' : ParseContext) (g g' : Globals)
    (h : readAndPrint buf size key render ctx g = .done (true, ctx', g')) :
    ctx'.offset = ctx.offset + size := by
  unfold readAndPrint at h
  split at h
  · rename_i _ c1 h1
    simp only [Run.done.injEq, Prod.mk.injEq, true_and] at h
    obtain ⟨rfl, -⟩ := h
    rw [(ReadScalar_some _ _ _ _ _ h1).1]
  · simp at h
  · simp at h
  · simp at h

theorem decodeArgument_offset (env : Env) (buf : Buffer) (P : Parser)
    (argPair : TemplateArgPair) (argLen argType : Nat) (ctx ctx' : ParseContext) (g g' : Globals)
    (h : decodeArgument env buf P argPair argLen argType ctx g = .done (true, ctx', g')) :
    ctx'.offset = ctx.offset + argWidth argLen argType := by
  unfold decodeArgument at h
  unfold argWidth
  by_cases c1 : argType = 1
  · rw [if_pos c1] at h
    rw [if_pos c1]
    simp only at h
    split at h
    · rename_i sb c1 h1
      simp only [Run.done.injEq, Prod.mk.injEq, true_and] at h
      obtain ⟨rfl, -⟩ := h
      exact readStringLoop_offset _ _ _ _ _ _ _ h1
    · simp at h
    · simp at h
    · simp at h
  rw [if_neg c1] at h
  rw [if_neg c1]
  by_cases c4 : argType = 4
  · rw [if_pos c4] at h
    rw [if_pos c4]
    exact readAndPrint_offset _ _ _ _ _ _ _ _ h
  rw [if_neg c4] at h
  rw [if_neg c4]
  by_cases c6 : argType = 6
  · rw [if_pos c6] at h
    rw [if_pos c6]
    exact readAndPrint_offset _ _ _ _ _ _ _ _ h
  rw [if_neg c6] at h
  rw [if_neg c6]
  by_cases c8 : argType = 8
  · rw [if_pos c8] at h
    rw [if_pos (Or.inl c8)]
    exact readAndPrint_offset _ _ _ _ _ _ _ _ h
  rw [if_neg c8] at h
  by_cases c10 : argType = 10
  · rw [if_pos c10] at h
    rw [if_neg (by omega), if_pos (Or.inl c10)]
    exact readAndPrint_offset _ _ _ _ _ _ _ _ h
  rw [if_neg c10] at h
  by_cases c14 : argType = 14
  · rw [if_pos c14] at h
    rw [if_neg (by omega), if_neg (by omega), if_neg (by omega), if_neg (by omega)]
    split at h
    · rename_i c1 out h1
      simp only [Run.done.injEq, Prod.mk.injEq, true_and] at h
      obtain ⟨rfl, -⟩ := h
      exact readBinaryLoop_offset _ _ _ _ _ _ h1
    · simp at h
    · simp at h
    · simp at h
  rw [if_neg c14] at h
  by_cases c15 : argType = 15
  · rw [if_pos c15] at h
    rw [if_neg (by omega), if_neg (by omega), if_pos c15]
    exact readAndPrint_offset _ _ _ _ _ _ _ _ h
  rw [if_neg c15] at h
  by_cases c20 : argType = 20
  · rw [if_pos c20] at h
    rw [if_pos (Or.inr c20)]
    exact readAndPrint_offset _ _ _ _ _ _ _ _ h
  rw [if_neg c20] at h
  by_cases c21 : argType = 21
  · rw [if_pos c21] at h
    rw [if_neg (by omega), if_pos (Or.inr (Or.inl c21))]
    exact readAndPrint_offset _ _ _ _ _ _ _ _ h
  rw [if_neg c21] at h
  by_cases c17 : argType = 17
  · rw [if_pos c17] at h
    rw [if_neg (by omega), if_pos (Or.inr (Or.inr c17))]
    exact readAndPrint_offset _ _ _ _ _ _ _ _ h
  rw [if_neg c17] at h
  rw [if_neg (by omega), if_neg (by omega), if_neg c15]
  by_cases c19 : argType = 19
  · rw [if_pos c19] at h
    rw [if_pos c19]
    split at h
    · simp at h
    · split at h
      · rename_i sid c1 h1
        have e1 := (ReadData_some _ _ _ _ _ _ h1).1
        simp only at h
        split at h
        · rename_i c2 out h2
          simp only [Run.done.injEq, Prod.mk.injEq, true_and] at h
          obtain ⟨rfl, -⟩ := h
          rw [readSubAuthorities_offset _ _ _ _ _ _ h2, e1]
          simp only
          omega
        · simp at h
        · simp at h
        · simp at h
      · simp at h
      · simp at h
      · simp at h
  rw [if_neg c19] at h
  rw [if_neg c19]
  by_cases c33 : argType = 33
  · rw [if_pos c33] at h
    simp only at h
    split at h
    · simp only [Run.done.injEq, Prod.mk.injEq, true_and] at h
      obtain ⟨rfl, -⟩ := h
      rfl
    · simp at h
    · simp at h
  rw [if_neg c33] at h
  simp only [Run.done.injEq, Prod.mk.injEq, true_and] at h
  obtain ⟨rfl, -⟩ := h
  rfl

theorem bindArgument_offset (env : Env) (buf : Buffer) (P : Parser)
    (argLen argType argumentIdx : Nat) (ctx ctx' : ParseContext) (g g' : Globals)
    (h : bindArgument env buf P argLen argType argumentIdx ctx g = .done (true, ctx', g')) :
    ctx'.offset = ctx.offset + consumed g ctx argLen argType argumentIdx := by
  unfold bindArgument at h
  unfold consumed
  split at h
  · simp at h
  · rename_i t ht
    rw [ht]
    simp only [Option.some_bind]
    split at h
    · rename_i hf
      rw [hf]
      simp only [Run.done.injEq, Prod.mk.injEq, true_and] at h
      obtain ⟨rfl, -⟩ := h
      rfl
    · rename_i p hf
      rw [hf]
      exact decodeArgument_offset _ _ _ _ _ _ _ _ _ _ h

theorem argumentLoop_offset (env : Env) (buf : Buffer) (P : Parser) (argumentMap : List Nat) :
    ∀ (remaining argumentIdx : Nat) (ctx ctx' : ParseContext) (g g' : Globals),
      argumentLoop env buf P argumentMap remaining argumentIdx ctx g = .done (true, ctx', g') →
      (0 < remaining → 2 * (argumentIdx + remaining) ≤ argumentMap.length) ∧
      ((∀ j, argumentIdx ≤ j → j < argumentIdx + remaining →
          argWidth (argumentMap.getD (2 * j) 0) (argumentMap.getD (2 * j + 1) 0) =
            argumentMap.getD (2 * j) 0) →
        ctx'.offset = ctx.offset +
          ((List.range remaining).map (fun j => argumentMap.getD (2 * (argumentIdx + j)) 0)).sum) := by
  intro remaining
  induction remaining with
  | zero =>
    intro idx ctx ctx' g g' h
    simp only [argumentLoop, Run.done.injEq, Prod.mk.injEq, true_and] at h
    obtain ⟨rfl, -⟩ := h
    simp
  | succ n ih =>
    intro idx ctx ctx' g g' h
    unfold argumentLoop at h
    split at h
    · simp at h
    · rename_i argLen hLen
      split at h
      · simp at h
      · rename_i argType hType
        split at h
        · rename_i c1 g1 h1
          obtain ⟨b1, b2⟩ := ih _ _ _ _ _ h
          have e1 := bindArgument_offset _ _ _ _ _ _ _ _ _ _ h1
          have hl1 : idx * 2 + 1 < argumentMap.length := by
            by_contra hc
            rw [List.get?_eq_none.mpr (by omega)] at hType
            simp at hType
          have gL : argumentMap.getD (2 * idx) 0 = argLen := by
            rw [List.getD_eq_getElem?_getD, ← List.get?_eq_getElem?, Nat.mul_comm, hLen]
            rfl
          have gT : argumentMap.getD (2 * idx + 1) 0 = argType := by
            rw [List.getD_eq_getElem?_getD, ← List.get?_eq_getElem?, Nat.mul_comm, hType]
            rfl
          constructor
          · intro _
            by_cases hn : 0 < n
            · have := b1 hn
              omega
            · omega
          · intro hw
            have hw0 := hw idx (le_refl _) (by omega)
            rw [gL, gT] at hw0
            have hc : consumed g ctx argLen argType idx = argLen := by
              unfold consumed
              split
              · exact hw0
              · rfl
            rw [b2 (fun j hj1 hj2 => hw j (by omega) (by omega)), e1, hc, List.range_succ_eq_map]
            simp only [List.map_cons, List.sum_cons, List.map_map, Nat.add_zero, gL]
            have : (fun j => argumentMap.getD (2 * (idx + 1 + j)) 0) =
                ((fun j => argumentMap.getD (2 * (idx + j)) 0) ∘ Nat.succ) := by
              funext j
              simp only [Function.comp]
              congr 2
              omega
            rw [this]
            omega
        · simp at h
        · simp at h
        · simp at h


theorem GlobalsStep_stdout : GlobalsStep StdoutExtends where
  refl := fun g => ⟨[], by simp⟩
  trans := by
    rintro a b c ⟨t1, h1⟩ ⟨t2, h2⟩
    exact ⟨t1 ++ t2, by rw [h2, h1, List.append_assoc]⟩
  registerFixed := by
    intro idx k v g g1 h
    unfold RegisterFixedPair at h
    split at h
    · simp at h
    · simp only [Run.done.injEq] at h
      subst h
      exact ⟨[], by simp⟩
  registerArg := by
    intro idx k ty ai g g1 h
    unfold RegisterArgPair at h
    split at h
    · simp at h
    · simp only [Run.done.injEq] at h
      subst h
      exact ⟨[], by simp⟩
  pushName := by
    intro n g g1 h
    unfold PushName at h
    split at h
    · simp only [Run.done.injEq] at h
      subst h
      exact ⟨[], by simp⟩
    · split at h
      · simp at h
      · simp only [Run.done.injEq] at h
        subst h
        exact ⟨[], by simp⟩
  popName := fun g => ⟨[], by simp [PopName]⟩
  registerID := by
    intro id g
    unfold RegisterID
    split
    · exact ⟨[], by simp⟩
    · exact ⟨[], by simp⟩
  print := fun t g => ⟨t, rfl⟩

theorem argumentLoop_trace (env : Env) (buf : Buffer) (P : Parser) (argumentMap : List Nat) :
    ∀ (remaining argumentIdx : Nat) (ctx ctx' : ParseContext) (g g' : Globals),
      argumentLoop env buf P argumentMap remaining argumentIdx ctx g = .done (true, ctx', g') →
      ∃ st : Nat → ParseContext × Globals,
        st argumentIdx = (ctx, g) ∧ st (argumentIdx + remaining) = (ctx', g') ∧
        ∀ j, argumentIdx ≤ j → j < argumentIdx + remaining →
          ∃ argLen argType,
            argumentMap.get? (j * 2) = some argLen ∧ argumentMap.get? (j * 2 + 1) = some argType ∧
            bindArgument env buf P argLen argType j (st j).1 (st j).2 =
              .done (true, st (j + 1)) := by
  intro remaining
  induction remaining with
  | zero =>
    intro idx ctx ctx' g g' h
    simp only [argumentLoop, Run.done.injEq, Prod.mk.injEq, true_and] at h
    obtain ⟨rfl, rfl⟩ := h
    exact ⟨fun _ => (ctx, g), rfl, rfl, fun j h1 h2 => by omega⟩
  | succ n ih =>
    intro idx ctx ctx' g g' h
    unfold argumentLoop at h
    split at h
    · simp at h
    · rename_i argLen hLen
      split at h
      · simp at h
      · rename_i argType hType
        split at h
        · rename_i c1 g1 h1
          obtain ⟨st, s0, s1, s2⟩ := ih _ _ _ _ _ h
          refine ⟨fun j => if j = idx then (ctx, g) else st j, by simp, ?_, ?_⟩
          · have : idx + (n + 1) ≠ idx := by omega
            simp only [this, if_false]
            rw [← s1]
            congr 1
            omega
          · intro j hj1 hj2
            by_cases hj : j = idx
            · subst hj
              have : j + 1 ≠ j := by omega
              simp only [if_true, this, if_false]
              rw [s0]
              exact ⟨argLen, argType, hLen, hType, h1⟩
            · have hj' : j + 1 ≠ idx := by omega
              simp only [hj, hj', if_false]
              exact s2 j (by omega) (by omega)
        · simp at h
        · simp at h
        · simp at h

theorem emitInstance_parts (env : Env) (buf : Buffer) (P : Parser) (numArguments : Nat)
    (ctx ctx' : ParseContext) (g g' : Globals)
    (h : emitInstance env buf P numArguments ctx g = .done (true, ctx', g')) :
    ∃ t argumentMap ctxM,
      g.templates.get? ctx.currentTemplateIdx = some t ∧
      ReadData buf 2 ((numArguments * 2) % 2 ^ 32) ctx = .done (some argumentMap, ctxM) ∧
      argumentLoop env buf P argumentMap numArguments 0 ctxM
        (printf (printFixedPairs env t.fixedRoot) g) = .done (true, ctx', g') := by
  unfold emitInstance at h
  split at h
  · simp at h
  · rename_i t ht
    simp only at h
    split at h
    · rename_i am c1 h1
      exact ⟨t, am, c1, ht, h1, h⟩
    · simp at h
    · simp at h
    · simp at h


theorem fixedChain_set (g : Globals) (idx j : Nat) (t : TemplateDescription) :
    fixedChain { g with templates := g.templates.set idx t } j =
      if j = idx ∧ idx < g.templates.length then some t.fixedRoot else fixedChain g j := by
  unfold fixedChain
  simp only [List.get?_eq_getElem?, List.getElem?_set]
  by_cases hj : idx = j
  · subst hj
    by_cases hl : idx < g.templates.length
    · simp [hl]
    · have hn : g.templates[idx]? = none := List.getElem?_eq_none (Nat.le_of_not_lt hl)
      simp [hl, hn]
  · have hj' : ¬ j = idx := fun e => hj e.symm
    simp [hj, hj']

theorem RegisterFixedPair_chain (idx : Nat) (key value : List Nat) (g0 g1 : Globals)
    (h : RegisterFixedPair idx key value g0 = .done g1) :
    g1.templates.length = g0.templates.length ∧
    ∃ chain, fixedChain g0 idx = some chain ∧
      fixedChain g1 idx = some ({ key := key, value := value } :: chain) ∧
      ∀ j, j ≠ idx → fixedChain g1 j = fixedChain g0 j := by
  unfold RegisterFixedPair at h
  split at h
  · simp at h
  · rename_i t0 ht0
    simp only [Run.done.injEq] at h
    subst h
    have hlt : idx < g0.templates.length := by
      by_contra hc
      rw [List.get?_eq_none.mpr (by omega)] at ht0
      simp at ht0
    have hc0 : fixedChain g0 idx = some t0.fixedRoot := by
      unfold fixedChain
      rw [ht0]
      rfl
    refine ⟨by simp, t0.fixedRoot, hc0, ?_, ?_⟩
    · rw [fixedChain_set]
      simp [hlt, AddPair]
    · intro j hj
      rw [fixedChain_set]
      simp [hj]

theorem GlobalsStep_chains : GlobalsStep ChainsGrow where
  refl := fun g => ⟨rfl, fun idx chain h => ⟨[], by simpa using h⟩⟩
  trans := by
    intro a b c hab hbc
    refine ⟨hbc.1.trans hab.1, ?_⟩
    intro idx chain h
    obtain ⟨a1, h1⟩ := hab.2 idx chain h
    obtain ⟨a2, h2⟩ := hbc.2 idx _ h1
    exact ⟨a2 ++ a1, by rw [h2, List.append_assoc]⟩
  registerFixed := by
    intro idx k v g g1 h
    obtain ⟨hl, chain, c0, c1, c2⟩ := RegisterFixedPair_chain _ _ _ _ _ h
    refine ⟨hl, ?_⟩
    intro j ch hj
    by_cases e : j = idx
    · subst e
      rw [c0] at hj
      simp only [Option.some.injEq] at hj
      subst hj
      exact ⟨[{ key := k, value := v }], by simpa using c1⟩
    · exact ⟨[], by rw [c2 j e]; simpa using hj⟩
  registerArg := by
    intro idx k ty ai g g1 h
    unfold RegisterArgPair at h
    split at h
    · simp at h
    · rename_i t0 ht0
      simp only [Run.done.injEq] at h
      subst h
      refine ⟨by simp, ?_⟩
      intro j ch hj
      refine ⟨[], ?_⟩
      rw [fixedChain_set]
      by_cases e : j = idx ∧ idx < g.templates.length
      · rw [if_pos e]
        obtain ⟨e1, -⟩ := e
        subst e1
        unfold fixedChain at hj
        rw [ht0] at hj
        simpa using hj
      · rw [if_neg e]
        simpa using hj
  pushName := by
    intro n g g1 h
    unfold PushName at h
    split at h
    · simp only [Run.done.injEq] at h
      subst h
      exact ⟨rfl, fun idx chain h => ⟨[], by simpa using h⟩⟩
    · split at h
      · simp at h
      · simp only [Run.done.injEq] at h
        subst h
        exact ⟨rfl, fun idx chain h => ⟨[], by simpa [fixedChain] using h⟩⟩
  popName := fun g => ⟨rfl, fun idx chain h => ⟨[], by simpa [fixedChain, PopName] using h⟩⟩
  registerID := by
    intro id g
    unfold RegisterID
    split
    · exact ⟨rfl, fun idx chain h => ⟨[], by simpa using h⟩⟩
    · refine ⟨by simp, ?_⟩
      intro j ch hj
      refine ⟨[], ?_⟩
      have e := fixedChain_set { g with knownIDs := g.knownIDs.set g.numIDs id, numIDs := g.numIDs + 1 }
        g.numIDs j { g.templates.getD g.numIDs InitTemplateDescription with shortID := id }
      simp only at e
      simp only [List.nil_append]
      rw [e]
      by_cases c : j = g.numIDs ∧ g.numIDs < g.templates.length
      · rw [if_pos c]
        obtain ⟨c1, c2⟩ := c
        subst c1
        rw [← hj]
        simp [fixedChain, List.getD_eq_getElem?_getD, List.getElem?_eq_getElem c2]
      · rw [if_neg c]
        simpa [fixedChain] using hj
  print := fun t g => ⟨rfl, fun idx chain h => ⟨[], by simpa [fixedChain, printf] using h⟩⟩

theorem ChainsGrow_back {g g1 : Globals} (hc : ChainsGrow g g1) (idx : Nat)
    (chain : List TemplateFixedPair) (h : fixedChain g1 idx = some chain) :
    ∃ chain0 added, fixedChain g idx = some chain0 ∧ chain = added ++ chain0 := by
  have hlt : idx < g.templates.length := by
    by_contra hge
    have : g1.templates.get? idx = none := List.get?_eq_none.mpr (by rw [hc.1]; omega)
    unfold fixedChain at h
    rw [this] at h
    simp at h
  have h0 : fixedChain g idx = some (g.templates.get ⟨idx, hlt⟩).fixedRoot := by
    unfold fixedChain
    rw [List.get?_eq_get hlt]
    rfl
  obtain ⟨added, h1⟩ := hc.2 idx _ h0
  rw [h] at h1
  simp only [Option.some.injEq] at h1
  exact ⟨_, added, h0, h1⟩

theorem ParseTemplateInstance_resolve (env : Env) (buf : Buffer) (P : Parser)
    (ctx ctx' : ParseContext) (g g' : Globals)
    (h : ParseTemplateInstance env buf P ctx g = .done (true, ctx', g')) :
    ∃ numArguments ctxA gA,
      resolveInstance env buf P ctx g = .done (some numArguments, ctxA, gA) ∧
      emitInstance env buf P numArguments ctxA gA = .done (true, ctx', g') := by
  unfold ParseTemplateInstance at h
  unfold resolveInstance
  split at h
  · rename_i sid na c1 h1
    try rw [h1]
    try simp only
    split at h
    · rename_i idx hk
      try rw [hk]
      exact ⟨_, _, _, rfl, h⟩
    · rename_i hk
      try rw [hk]
      try simp only
      split at h
      · rename_i n1 c2 g1 hd
        exact ⟨_, _, _, hd, h⟩
      · simp at h
      · simp at h
      · simp at h
  · simp at h
  · simp at h
  · simp at h

theorem resolveInstance_frame {R : Globals → Globals → Prop} (hR : GlobalsStep R)
    (env : Env) (buf : Buffer) (P : Parser) (hP : ParserRespects R P)
    (ctx ctxA : ParseContext) (g gA : Globals) (r : Option Nat)
    (h : resolveInstance env buf P ctx g = .done (r, ctxA, gA)) : R g gA := by
  unfold resolveInstance at h
  split at h
  · split at h
    · simp only [Run.done.injEq, Prod.mk.injEq] at h
      obtain ⟨-, -, rfl⟩ := h
      exact hR.refl _
    · exact (parseTemplateDefinition_frame hR _ _ _ hP _ _ _ _ _ _ h).2
  · simp only [Run.done.injEq, Prod.mk.injEq] at h
    obtain ⟨-, -, rfl⟩ := h
    exact hR.refl _
  · simp at h
  · simp at h

theorem stdout_telescope (out texts : Nat → List Nat) (n : Nat)
    (hstep : ∀ i, i < n → out (i + 1) = out i ++ texts i) :
    out n = out 0 ++ ((List.range n).map texts).flatten := by
  induction n with
  | zero => simp
  | succ k ih =>
    rw [hstep k (by omega), ih (fun i hi => hstep i (by omega)), List.range_succ]
    simp [List.append_assoc]

theorem offset_telescope (off widths : Nat → Nat) (n : Nat)
    (hstep : ∀ i, i < n → off (i + 1) = off i + widths i) :
    off n = off 0 + ((List.range n).map widths).sum := by
  induction n with
  | zero => simp
  | succ k ih =>
    rw [hstep k (by omega), ih (fun i hi => hstep i (by omega)), List.range_succ]
    simp [Nat.add_assoc]

/-- Claim C7 as stated fails: the body registers the pair `K`, `a` and then the
pair `K`, `b`, and the instance prints the pair with `b` before the pair with `a`. -/
theorem C7_counterexample :
    fixedPairsOf (ParseBinXmlPre (envWith 0) (bufferOf oneTextInstance) 4 oneTextInstance.length 0
      initialGlobals) = some [{ key := ascii "K", value := ascii "a" }] ∧
    fixedPairsOf (ParseBinXmlPre (envWith 0) (bufferOf twoTextsInstance) 5 twoTextsInstance.length 0
      initialGlobals) =
      some [{ key := ascii "K", value := ascii "b" }, { key := ascii "K", value := ascii "a" }] ∧
    stdoutOf (ParseBinXmlPre (envWith 0) (bufferOf twoTextsInstance) 5 twoTextsInstance.length 0
      initialGlobals) =
      some (fmtKey (ascii "K") ++ apostrophe ++ ascii "b" ++ apostrophe ++ ascii ", " ++
        fmtKey (ascii "K") ++ apostrophe ++ ascii "a" ++ apostrophe ++ ascii ", ") :=
  ⟨rfl, rfl, rfl⟩

/-- Claim C7 as amended.  `RegisterFixedPair` puts the new pair at the head of
the chain of its template and leaves every other chain as it was; no token and
no run of `ParseBinXml` removes or reorders a pair, each chain only grows at its
head, so a chain lists its pairs latest registered first.  A successful
`ParseTemplateInstance` on `ctx` and `g` resolves the template (`resolveInstance`,
which for a new id decodes the body), prints the fixed pairs along the chain of
the resolved template from its head, that chain being what the resolution added
on top of the chain the slot had in `g`, and then binds the arguments 0, 1, 2,
... of the argument map in this order, each turn only adding its text at the
end of `stdout`: the text written is the fixed pairs followed by the texts of
the arguments in increasing index. -/
theorem C7_emission_order (env : Env) (buf : Buffer) (fuel : Nat)
    (ctx ctx' : ParseContext) (g g' : Globals)
    (h : ParseTemplateInstance env buf (ParseBinXml env buf fuel) ctx g = .done (true, ctx', g')) :
    (∀ idx key value g0 g1, RegisterFixedPair idx key value g0 = .done g1 →
      ∃ chain, fixedChain g0 idx = some chain ∧
        fixedChain g1 idx = some ({ key := key, value := value } :: chain) ∧
        ∀ j, j ≠ idx → fixedChain g1 j = fixedChain g0 j) ∧
    (∀ fuel1 tag c c1 g0 g1 b, c.offset ≤ c.dataLen →
      dispatchToken env buf (ParseBinXml env buf fuel1) tag c g0 = .done (b, c1, g1) →
      ChainsGrow g0 g1) ∧
    (∀ fuel1 c c1 g0 g1 b, ParseBinXml env buf fuel1 c g0 = .done (b, c1, g1) → ChainsGrow g0 g1) ∧
    ∃ (numArguments : Nat) (ctxA : ParseContext) (gA : Globals)
        (chain0 added : List TemplateFixedPair) (argumentMap : List Nat) (ctxM : ParseContext)
        (st : Nat → ParseContext × Globals) (texts : Nat → List Nat),
      resolveInstance env buf (ParseBinXml env buf fuel) ctx g =
        .done (some numArguments, ctxA, gA) ∧
      fixedChain g ctxA.currentTemplateIdx = some chain0 ∧
      fixedChain gA ctxA.currentTemplateIdx = some (added ++ chain0) ∧
      ReadData buf 2 ((numArguments * 2) % 2 ^ 32) ctxA = .done (some argumentMap, ctxM) ∧
      st 0 = (ctxM, printf (printFixedPairs env (added ++ chain0)) gA) ∧
      st numArguments = (ctx', g') ∧
      (∀ i, i < numArguments →
        ∃ argLen argType,
          argumentMap.get? (i * 2) = some argLen ∧
          argumentMap.get? (i * 2 + 1) = some argType ∧
          bindArgument env buf (ParseBinXml env buf fuel) argLen argType i (st i).1 (st i).2 =
            .done (true, st (i + 1)) ∧
          (st (i + 1)).2.stdout = (st i).2.stdout ++ texts i) ∧
      g'.stdout = gA.stdout ++ ((added ++ chain0).map (printFixedPair env)).flatten ++
        ((List.range numArguments).map texts).flatten := by
  have hP : ∀ fuel1, ParserRespects ChainsGrow (ParseBinXml env buf fuel1) := by
    intro fuel1 c g0 b c1 g1 hrun
    exact (ParseBinXml_frame GlobalsStep_chains _ _ _ _ _ _ _ _ hrun).2.1
  refine ⟨?_, ?_, ?_, ?_⟩
  · intro idx key value g0 g1 hreg
    exact (RegisterFixedPair_chain _ _ _ _ _ hreg).2
  · intro fuel1 tag c c1 g0 g1 b hlt hd
    exact (dispatchToken_frame GlobalsStep_chains _ _ _ (hP fuel1) _ _ _ _ _ _ hlt hd).2
  · intro fuel1 c c1 g0 g1 b hrun
    exact hP fuel1 _ _ _ _ _ hrun
  · obtain ⟨numArguments, ctxA, gA, hres, he⟩ := ParseTemplateInstance_resolve _ _ _ _ _ _ _ h
    obtain ⟨t, am, ctxM, ht, hmap, hloop⟩ := emitInstance_parts _ _ _ _ _ _ _ _ he
    obtain ⟨st, s0, s1, s2⟩ := argumentLoop_trace _ _ _ _ _ _ _ _ _ _ hloop
    have hgrow : ChainsGrow g gA := resolveInstance_frame GlobalsStep_chains _ _ _ (hP fuel) _ _ _ _ _ hres
    have hchain : fixedChain gA ctxA.currentTemplateIdx = some t.fixedRoot := by
      unfold fixedChain
      rw [ht]
      rfl
    obtain ⟨chain0, added, hc0, hadd⟩ := ChainsGrow_back hgrow _ _ hchain
    have hPs : ParserRespects StdoutExtends (ParseBinXml env buf fuel) := by
      intro c g0 b c1 g1 hrun
      exact (ParseBinXml_frame GlobalsStep_stdout _ _ _ _ _ _ _ _ hrun).2.1
    have hstep : ∀ i, i < numArguments →
        (st (i + 1)).2.stdout =
          (st i).2.stdout ++ ((st (i + 1)).2.stdout.drop (st i).2.stdout.length) := by
      intro i hi
      obtain ⟨argLen, argType, -, -, h3⟩ := s2 i (Nat.zero_le _) (by omega)
      obtain ⟨-, text, htext⟩ := bindArgument_frame GlobalsStep_stdout _ _ _ hPs _ _ _ _ _ _ _ _ h3
      rw [htext]
      simp
    have s1' : st numArguments = (ctx', g') := by simpa using s1
    have htotal := stdout_telescope (fun i => (st i).2.stdout)
      (fun i => (st (i + 1)).2.stdout.drop (st i).2.stdout.length) numArguments hstep
    simp only [s0, s1', printf, printFixedPairs] at htotal
    rw [hadd] at hchain s0 htotal
    refine ⟨numArguments, ctxA, gA, chain0, added, am, ctxM, st,
      fun i => (st (i + 1)).2.stdout.drop (st i).2.stdout.length,
      hres, hc0, hchain, hmap, s0, s1', ?_, htotal⟩
    intro i hi
    obtain ⟨argLen, argType, h1, h2, h3⟩ := s2 i (Nat.zero_le _) (by omega)
    exact ⟨argLen, argType, h1, h2, h3, hstep i hi⟩

/-- Claim C8 as stated fails: the bound argument of type `0x04` has map length 4,
its decoder reads one byte, and the instance ends at offset 47, the end of the
argument map 46 plus 1, not at 50. -/
theorem C8_counterexample :
    byteArgInstance.length = 50 ∧
    resultAndOffset
      (ParseTemplateInstance (envWith 0) (bufferOf byteArgInstance)
        (ParseBinXml (envWith 0) (bufferOf byteArgInstance) 3)
        (contextAt 50 1 INVALID_TEMPLATE_IDX .StateNormal) initialGlobals) = some (true, 47) ∧
    47 ≠ 46 + 4 :=
  ⟨rfl, rfl, by decide⟩

/-- Claim C8 as amended.  A successful `ParseTemplateInstance` on `ctx` and `g`
resolves the template (`resolveInstance`), reads the argument map of
`2 * numArguments` entries, which ends `4 * numArguments` bytes further, prints
the fixed pairs and binds the arguments in turn.  Turn `i` moves the cursor by
`consumed`: the map length `len_i` when no argument pair is bound to `i`, else
the width that the decoder of the type reads (`argWidth`: 1, 2, 4, 8 or 16 for
the fixed-width types, `2 * (len_i / 2)` for a string, `8 + 4 * ((len_i - 8) / 4)`
for a SID, `len_i` for binary, BinXml and the other types).  The cursor ends at
the end of the argument map plus the sum of the bytes so consumed, which is the
sum of all `len_i` when every `len_i` equals the width of its type. -/
theorem C8_argument_consumption (env : Env) (buf : Buffer) (P : Parser)
    (ctx ctx' : ParseContext) (g g' : Globals)
    (h : ParseTemplateInstance env buf P ctx g = .done (true, ctx', g')) :
    ∃ (numArguments : Nat) (ctxA : ParseContext) (gA : Globals) (chain : List TemplateFixedPair)
        (argumentMap : List Nat) (st : Nat → ParseContext × Globals),
      resolveInstance env buf P ctx g = .done (some numArguments, ctxA, gA) ∧
      fixedChain gA ctxA.currentTemplateIdx = some chain ∧
      ReadData buf 2 ((numArguments * 2) % 2 ^ 32) ctxA =
        .done (some argumentMap, { ctxA with offset := ctxA.offset + 4 * numArguments }) ∧
      argumentMap.length = 2 * numArguments ∧
      st 0 = ({ ctxA with offset := ctxA.offset + 4 * numArguments },
        printf (printFixedPairs env chain) gA) ∧
      st numArguments = (ctx', g') ∧
      (∀ i, i < numArguments →
        bindArgument env buf P (argumentMap.getD (2 * i) 0) (argumentMap.getD (2 * i + 1) 0) i
          (st i).1 (st i).2 = .done (true, st (i + 1)) ∧
        (st (i + 1)).1.offset = (st i).1.offset +
          consumed (st i).2 (st i).1 (argumentMap.getD (2 * i) 0)
            (argumentMap.getD (2 * i + 1) 0) i) ∧
      ctx'.offset = ctxA.offset + 4 * numArguments +
        ((List.range numArguments).map (fun i =>
          consumed (st i).2 (st i).1 (argumentMap.getD (2 * i) 0)
            (argumentMap.getD (2 * i + 1) 0) i)).sum ∧
      ((∀ i, i < numArguments →
          argWidth (argumentMap.getD (2 * i) 0) (argumentMap.getD (2 * i + 1) 0) =
            argumentMap.getD (2 * i) 0) →
        ctx'.offset = ctxA.offset + 4 * numArguments +
          ((List.range numArguments).map (fun i => argumentMap.getD (2 * i) 0)).sum) := by
  obtain ⟨numArguments, ctxA, gA, hres, he⟩ := ParseTemplateInstance_resolve _ _ _ _ _ _ _ h
  obtain ⟨t, am, ctxM, ht, hmap, hloop⟩ := emitInstance_parts _ _ _ _ _ _ _ _ he
  obtain ⟨st, s0, s1, s2⟩ := argumentLoop_trace _ _ _ _ _ _ _ _ _ _ hloop
  obtain ⟨o1, o2⟩ := argumentLoop_offset _ _ _ _ _ _ _ _ _ _ hloop
  obtain ⟨hM, hl, -⟩ := ReadData_some _ _ _ _ _ _ hmap
  have hlen : am.length = 2 * numArguments := by
    by_cases hn : 0 < numArguments
    · have := o1 hn
      have hm : numArguments * 2 % 2 ^ 32 ≤ numArguments * 2 := Nat.mod_le _ _
      omega
    · have : numArguments = 0 := by omega
      subst this
      simpa using hl
  have hM1 : ctxM = { ctxA with offset := ctxA.offset + 4 * numArguments } := by
    rw [hM, hl.symm.trans hlen]
    congr 1
    omega
  subst hM1
  have hchain : fixedChain gA ctxA.currentTemplateIdx = some t.fixedRoot := by
    unfold fixedChain
    rw [ht]
    rfl
  have s1' : st numArguments = (ctx', g') := by simpa using s1
  have hturn : ∀ i, i < numArguments →
      bindArgument env buf P (am.getD (2 * i) 0) (am.getD (2 * i + 1) 0) i
        (st i).1 (st i).2 = .done (true, st (i + 1)) ∧
      (st (i + 1)).1.offset = (st i).1.offset +
        consumed (st i).2 (st i).1 (am.getD (2 * i) 0) (am.getD (2 * i + 1) 0) i := by
    intro i hi
    obtain ⟨argLen, argType, h1, h2, h3⟩ := s2 i (Nat.zero_le _) (by omega)
    have gL : am.getD (2 * i) 0 = argLen := by
      rw [List.getD_eq_getElem?_getD, ← List.get?_eq_getElem?, Nat.mul_comm, h1]
      rfl
    have gT : am.getD (2 * i + 1) 0 = argType := by
      rw [List.getD_eq_getElem?_getD, ← List.get?_eq_getElem?, Nat.mul_comm, h2]
      rfl
    rw [gL, gT]
    exact ⟨h3, bindArgument_offset _ _ _ _ _ _ _ _ _ _ h3⟩
  have hsum := offset_telescope (fun i => (st i).1.offset)
    (fun i => consumed (st i).2 (st i).1 (am.getD (2 * i) 0) (am.getD (2 * i + 1) 0) i)
    numArguments (fun i hi => (hturn i hi).2)
  simp only [s0, s1'] at hsum
  refine ⟨numArguments, ctxA, gA, t.fixedRoot, am, st, hres, hchain, hmap, hlen, s0, s1',
    hturn, hsum, ?_⟩
  intro hw
  have := o2 (fun j _ hj => hw j (by omega))
  simpa using this


/-- Witness of claim C7: for the instance with the two texts `a` and `b` the
resolution is evaluated, and the text that the theorem gives is the pair with
`b` followed by the pair with `a`. -/
theorem C7_emission_order_witness :
    ∃ ctx' g',
      ParseTemplateInstance (envWith 0) (bufferOf twoTextsInstance)
        (ParseBinXml (envWith 0) (bufferOf twoTextsInstance) 4)
        (contextAt 73 1 INVALID_TEMPLATE_IDX .StateNormal) initialGlobals =
        .done (true, ctx', g') ∧
      g'.stdout = fmtKey (ascii "K") ++ apostrophe ++ ascii "b" ++ apostrophe ++ ascii ", " ++
        fmtKey (ascii "K") ++ apostrophe ++ ascii "a" ++ apostrophe ++ ascii ", " := by
  obtain ⟨c, g, h⟩ : ∃ ctx' g',
      ParseTemplateInstance (envWith 0) (bufferOf twoTextsInstance)
        (ParseBinXml (envWith 0) (bufferOf twoTextsInstance) 4)
        (contextAt 73 1 INVALID_TEMPLATE_IDX .StateNormal) initialGlobals =
        .done (true, ctx', g') := ⟨_, _, rfl⟩
  obtain ⟨-, -, -, n, cA, gA, c0, ad, am, cM, st, tx, h1, h2, h3, -, -, -, -, h8⟩ :=
    C7_emission_order (envWith 0) (bufferOf twoTextsInstance) 4 _ c _ g h
  have e : resolveInstance (envWith 0) (bufferOf twoTextsInstance)
      (ParseBinXml (envWith 0) (bufferOf twoTextsInstance) 4)
      (contextAt 73 1 INVALID_TEMPLATE_IDX .StateNormal) initialGlobals =
      .done (some 0, _, _) := rfl
  rw [e] at h1
  simp only [Run.done.injEq, Prod.mk.injEq, Option.some.injEq] at h1
  obtain ⟨rfl, rfl, rfl⟩ := h1
  have e3 : some (ad ++ c0) = some [{ key := ascii "K", value := ascii "b" },
      { key := ascii "K", value := ascii "a" }] := h3.symm.trans rfl
  simp only [Option.some.injEq] at e3
  rw [e3] at h8
  exact ⟨c, g, h, h8.trans rfl⟩

/-- Witness of claim C8: for the instance with the one-byte argument of map
length 4 the argument map ends at offset 46, and the cursor that the theorem
gives is 47. -/
theorem C8_argument_consumption_witness :
    ∃ ctx' g',
      ParseTemplateInstance (envWith 0) (bufferOf byteArgInstance)
        (ParseBinXml (envWith 0) (bufferOf byteArgInstance) 3)
        (contextAt 50 1 INVALID_TEMPLATE_IDX .StateNormal) initialGlobals =
        .done (true, ctx', g') ∧
      ctx'.offset = 42 + 4 * 1 + 1 := by
  obtain ⟨c, g, h⟩ : ∃ ctx' g',
      ParseTemplateInstance (envWith 0) (bufferOf byteArgInstance)
        (ParseBinXml (envWith 0) (bufferOf byteArgInstance) 3)
        (contextAt 50 1 INVALID_TEMPLATE_IDX .StateNormal) initialGlobals =
        .done (true, ctx', g') := ⟨_, _, rfl⟩
  obtain ⟨n, cA, gA, ch, am, st, h1, -, h3, -, h5, -, -, h8, -⟩ :=
    C8_argument_consumption (envWith 0) (bufferOf byteArgInstance) _ _ c _ g h
  have e : resolveInstance (envWith 0) (bufferOf byteArgInstance)
      (ParseBinXml (envWith 0) (bufferOf byteArgInstance) 3)
      (contextAt 50 1 INVALID_TEMPLATE_IDX .StateNormal) initialGlobals =
      .done (some 1, _, _) := rfl
  rw [e] at h1
  simp only [Run.done.injEq, Prod.mk.injEq, Option.some.injEq] at h1
  obtain ⟨rfl, rfl, rfl⟩ := h1
  have e3 : Run.done (some am, _) = Run.done (some [4, 4], _) := h3.symm.trans rfl
  simp only [Run.done.injEq, Prod.mk.injEq, Option.some.injEq] at e3
  obtain ⟨rfl, -⟩ := e3
  rw [show List.range 1 = [0] from rfl] at h8
  simp only [List.map_cons, List.map_nil, List.sum_cons, List.sum_nil] at h8
  rw [h5] at h8
  exact ⟨c, g, h, h8.trans rfl⟩

/-! ## Reads of bytes that are present -/

theorem BytesAt_cons {buf : Buffer} {addr b : Nat} {bs : List Nat}
    (h : BytesAt buf addr (b :: bs)) : buf addr = some b ∧ BytesAt buf (addr + 1) bs := by
  constructor
  · have := h 0 (by simp)
    simpa using this
  · intro i hi
    have := h (i + 1) (by simpa using hi)
    rw [show addr + 1 + i = addr + (i + 1) by omega, this]
    rfl

theorem BytesAt_append {buf : Buffer} {addr : Nat} {xs ys : List Nat}
    (h : BytesAt buf addr (xs ++ ys)) :
    BytesAt buf addr xs ∧ BytesAt buf (addr + xs.length) ys := by
  constructor
  · intro i hi
    have := h i (by simp; omega)
    rw [this]
    simp only [List.get?_eq_getElem?]
    exact List.getElem?_append_left hi
  · intro i hi
    have := h (xs.length + i) (by simp; omega)
    rw [show addr + xs.length + i = addr + (xs.length + i) by omega, this]
    simp only [List.get?_eq_getElem?]
    rw [List.getElem?_append_right (by omega)]
    congr 1
    omega

theorem BytesAt_bufferOf (pre bs post : List Nat) :
    BytesAt (bufferOf (pre ++ bs ++ post)) pre.length bs := by
  intro i hi
  unfold bufferOf
  simp only [List.get?_eq_getElem?]
  rw [List.append_assoc, List.getElem?_append_right (by omega)]
  rw [show pre.length + i - pre.length = i by omega]
  exact List.getElem?_append_left hi

theorem loadLE_bytesAt (buf : Buffer) :
    ∀ (bs : List Nat) (addr : Nat), BytesAt buf addr bs →
      loadLE buf addr bs.length = .done (leValue bs) := by
  intro bs
  induction bs with
  | nil => intro addr _; rfl
  | cons b t ih =>
    intro addr h
    obtain ⟨h0, ht⟩ := BytesAt_cons h
    simp only [List.length_cons, loadLE, h0, ih _ ht, leValue]

theorem ReadDataLoop_bytesAt (buf : Buffer) (size : Nat) :
    ∀ (bss : List (List Nat)) (ctx : ParseContext),
      (∀ b ∈ bss, b.length = size) →
      BytesAt buf (ctx.data + ctx.offset) bss.flatten →
      ReadDataLoop buf size bss.length ctx =
        .done (bss.map leValue, { ctx with offset := ctx.offset + size * bss.length }) := by
  intro bss
  induction bss with
  | nil => intro ctx _ _; simp [ReadDataLoop]
  | cons b t ih =>
    intro ctx hs h
    rw [List.flatten_cons] at h
    obtain ⟨h1, h2⟩ := BytesAt_append h
    have hb : b.length = size := hs b (by simp)
    have hl := loadLE_bytesAt buf b _ h1
    rw [hb] at hl
    have ht := ih { ctx with offset := ctx.offset + size } (fun x hx => hs x (by simp [hx]))
      (by simpa [hb, Nat.add_assoc] using h2)
    simp only [List.length_cons, ReadDataLoop, hl, ht, List.map_cons]
    congr 3
    ring

theorem ReadData_bytesAt (buf : Buffer) (size : Nat) (bss : List (List Nat)) (ctx : ParseContext)
    (hs : ∀ b ∈ bss, b.length = size)
    (h : BytesAt buf (ctx.data + ctx.offset) bss.flatten)
    (hlen : ctx.offset + size * bss.length ≤ ctx.dataLen) :
    ReadData buf size bss.length ctx =
      .done (some (bss.map leValue), { ctx with offset := ctx.offset + size * bss.length }) := by
  unfold ReadData HaveEnoughData
  rw [if_pos (by simpa using hlen), ReadDataLoop_bytesAt buf size bss ctx hs h]

theorem ReadScalar_bytesAt (buf : Buffer) (bs : List Nat) (ctx : ParseContext)
    (h : BytesAt buf (ctx.data + ctx.offset) bs)
    (hlen : ctx.offset + bs.length ≤ ctx.dataLen) :
    ReadScalar buf bs.length ctx =
      .done (some (leValue bs), { ctx with offset := ctx.offset + bs.length }) := by
  have := ReadData_bytesAt buf bs.length [bs] ctx (by simp) (by simpa using h) (by simpa using hlen)
  unfold ReadScalar
  simp only [List.length_singleton] at this
  rw [this]
  simp


theorem readAndPrint_bytesAt (buf : Buffer) (bs : List Nat) (key : List Nat)
    (render : Nat → List Nat) (ctx : ParseContext) (g : Globals)
    (h : BytesAt buf (ctx.data + ctx.offset) bs)
    (hlen : ctx.offset + bs.length ≤ ctx.dataLen) :
    readAndPrint buf bs.length key render ctx g =
      .done (true, { ctx with offset := ctx.offset + bs.length },
        printf (fmtKey key ++ render (leValue bs) ++ ascii ", ") g) := by
  unfold readAndPrint
  rw [ReadScalar_bytesAt buf bs ctx h hlen]

theorem logonSuffix_eq (key : List Nat) (v : Nat) :
    (key = ascii "LogonType" ∧ v ∈ [2, 3, 4, 5, 7, 8, 9, 10, 11] →
      ∃ label, logonTypes.get? v = some (some label) ∧
        logonSuffix key v = ascii " (" ++ label ++ ascii ")") ∧
    (¬ (key = ascii "LogonType" ∧ v ∈ [2, 3, 4, 5, 7, 8, 9, 10, 11]) → logonSuffix key v = []) := by
  constructor
  · rintro ⟨hk, hv⟩
    simp only [List.mem_cons, List.mem_singleton, List.not_mem_nil, or_false] at hv
    rcases hv with h | h | h | h | h | h | h | h | h <;> subst h <;>
      exact ⟨_, rfl, by simp [logonSuffix, hk, logonTypes]⟩
  · intro hn
    unfold logonSuffix
    by_cases hk : key = ascii "LogonType"
    · by_cases hv : v ≤ 11
      · rw [if_pos ⟨hk, hv⟩]
        have : v = 0 ∨ v = 1 ∨ v = 6 := by
          simp only [hk, true_and, List.mem_cons, List.mem_singleton, List.not_mem_nil,
            or_false] at hn
          omega
        rcases this with h | h | h <;> subst h <;> rfl
      · rw [if_neg (fun h => hv h.2)]
    · rw [if_neg (fun h => hk h.1)]

/-! ## C15: FILETIME conversion -/

/-- The conversion over the integers, with the modulus written out. -/
theorem UnixTimeFromFileTime_int (ft : Nat) (h : ft < 18446744073709551616) :
    (UnixTimeFromFileTime ft : Int) =
      (((ft : Int) - 116444736000000000) % 18446744073709551616) / 10000000 := by
  unfold UnixTimeFromFileTime
  omega

/-- Claim C15.  For every 64-bit value `ft`, `UnixTimeFromFileTime ft` is
`((ft - 116444736000000000) mod 2^64) / 10000000` computed over the integers
(the dividend is not negative, so the division truncates); for
`ft ≥ 116444736000000000` it is `(ft - 116444736000000000) / 10000000`, and for
`ft = 132223104000000000` it is `1577836800`. -/
theorem C15_UnixTimeFromFileTime (ft : Nat) (h : ft < 2 ^ 64) :
    (UnixTimeFromFileTime ft : Int) =
      (((ft : Int) - 116444736000000000) % 2 ^ 64) / 10000000 ∧
    0 ≤ ((ft : Int) - 116444736000000000) % 2 ^ 64 ∧
    (116444736000000000 ≤ ft →
      UnixTimeFromFileTime ft = (ft - 116444736000000000) / 10000000) ∧
    UnixTimeFromFileTime 132223104000000000 = 1577836800 := by
  have e : (2 : Int) ^ 64 = 18446744073709551616 := by norm_num
  have e2 : (2 : Nat) ^ 64 = 18446744073709551616 := by norm_num
  rw [e]
  rw [e2] at h
  refine ⟨UnixTimeFromFileTime_int ft h, by omega, ?_, ?_⟩
  · intro h2
    unfold UnixTimeFromFileTime
    omega
  · unfold UnixTimeFromFileTime
    norm_num

/-- Witness of C15 one second after the Unix epoch. -/
theorem C15_UnixTimeFromFileTime_witness :
    116444736010000000 < 2 ^ 64 ∧ UnixTimeFromFileTime 116444736010000000 = 1 :=
  ⟨by norm_num, by
    have h := (C15_UnixTimeFromFileTime 116444736010000000 (by norm_num)).2.2.1 (by norm_num)
    rw [h]⟩

/-! ## C18: logon type label -/

/-- Claim C18.  A type-`0x08` argument bound to the key `K` whose four bytes
`bs` are present is emitted as `'K':`, the value `v` of the bytes in decimal
zero-padded to 8 digits, a label, a comma and a space.  The label is ` (name)`
with `name` the entry `v` of `logonTypes` when `K` is `LogonType` and `v` is one
of 2, 3, 4, 5, 7, 8, 9, 10, 11, and is empty otherwise; for `LogonType` and
value 2 the text starts `'LogonType':00000002 (Interactive)`. -/
theorem C18_LogonType_annotation (env : Env) (buf : Buffer) (P : Parser)
    (argPair : TemplateArgPair) (argLen : Nat) (ctx : ParseContext) (g : Globals)
    (bs : List Nat) (hb : bs.length = 4)
    (h : BytesAt buf (ctx.data + ctx.offset) bs)
    (hlen : ctx.offset + 4 ≤ ctx.dataLen) :
    ∃ label,
      decodeArgument env buf P argPair argLen 8 ctx g =
        .done (true, { ctx with offset := ctx.offset + 4 },
          { g with stdout := g.stdout ++
              (fmtKey argPair.key ++ fmtU 8 (leValue bs) ++ label ++ ascii ", ") }) ∧
      (argPair.key = ascii "LogonType" ∧ leValue bs ∈ [2, 3, 4, 5, 7, 8, 9, 10, 11] →
        ∃ name, logonTypes.get? (leValue bs) = some (some name) ∧
          label = ascii " (" ++ name ++ ascii ")") ∧
      (¬ (argPair.key = ascii "LogonType" ∧ leValue bs ∈ [2, 3, 4, 5, 7, 8, 9, 10, 11]) →
        label = []) ∧
      (argPair.key = ascii "LogonType" → leValue bs = 2 →
        fmtKey argPair.key ++ fmtU 8 (leValue bs) ++ label =
          ascii "'LogonType':00000002 (Interactive)") := by
  refine ⟨logonSuffix argPair.key (leValue bs), ?_, (logonSuffix_eq _ _).1,
    (logonSuffix_eq _ _).2, ?_⟩
  · have hr := readAndPrint_bytesAt buf bs argPair.key
      (fun v_d => fmtU 8 v_d ++ logonSuffix argPair.key v_d) ctx g h (by omega)
    rw [hb] at hr
    unfold decodeArgument
    rw [if_neg (by decide), if_neg (by decide), if_neg (by decide), if_pos rfl, hr]
    simp [printf, List.append_assoc]
  · intro hk hv
    rw [hk, hv]
    decide

/-- Witness of C18: the bytes `02 00 00 00` under the key `LogonType`. -/
theorem C18_LogonType_annotation_witness :
    BytesAt logonTypeBuffer 0 [2, 0, 0, 0] ∧
    stdoutOf (decodeArgument (envWith 0) logonTypeBuffer (fun c g0 => .done (true, c, g0))
      ⟨ascii "LogonType", 8, 0⟩ 4 8 (contextAt 4 0 0 .StateNormal) initialGlobals) =
      some (ascii "'LogonType':00000002 (Interactive), ") := by
  have hb : BytesAt logonTypeBuffer 0 [2, 0, 0, 0] := BytesAt_bufferOf [] [2, 0, 0, 0] []
  obtain ⟨label, h1, h2, -, -⟩ := C18_LogonType_annotation (envWith 0) logonTypeBuffer
    (fun c g0 => .done (true, c, g0)) ⟨ascii "LogonType", 8, 0⟩ 4
    (contextAt 4 0 0 .StateNormal) initialGlobals [2, 0, 0, 0] rfl hb (by decide)
  obtain ⟨name, hn, hl⟩ := h2 ⟨rfl, by decide⟩
  refine ⟨hb, ?_⟩
  rw [h1, hl]
  have : name = ascii "Interactive" := by
    have e : logonTypes.get? (leValue [2, 0, 0, 0]) = some (some (ascii "Interactive")) := by
      decide
    rw [e] at hn
    simpa using hn.symm
  rw [this]
  decide

/-! ## C19: the bound of the name stack -/

/-- Claim C19, the divergence.  `PushName` on a stack of 20 names passes the
guard (`nameStackPtr` is 19) and writes the slot `nameStack[20]`, one past the
array of `MAX_NAME_STACK_DEPTH` elements.  The state is reached from the empty
stack: a stream of 20 OpenStartElement tokens leaves 20 names on the stack, and
the stream of 21 such tokens performs the write past the array. -/
theorem C19_push_past_the_array (name : List Nat) :
    PushName name { initialGlobals with nameStack := List.replicate 20 (ascii "K") } =
      .fault (.nameStackSlot 20) ∧
    nameStackOf (ParseBinXmlPre (envWith 0) (manyOpenElements 20) 21 460 0
      initialGlobals) = some (List.replicate 20 (ascii "K")) ∧
    ParseBinXmlPre (envWith 0) (manyOpenElements 21) 22 483 0 initialGlobals =
      .fault (.nameStackSlot 20) :=
  ⟨rfl, by decide, by decide⟩

/-! ## C17: GUID rendering -/

theorem leValue_append (xs ys : List Nat) :
    leValue (xs ++ ys) = leValue xs + 256 ^ xs.length * leValue ys := by
  induction xs with
  | nil => simp [leValue]
  | cons x t ih =>
    rw [List.cons_append]
    simp only [leValue, List.length_cons, pow_succ]
    rw [ih]
    ring

theorem leValue_lt (xs : List Nat) : leValue xs < 256 ^ xs.length := by
  induction xs with
  | nil => simp [leValue]
  | cons x t ih =>
    simp only [leValue, List.length_cons, pow_succ]
    have := Nat.mod_lt x (show 256 > 0 by decide)
    nlinarith

theorem leValue_bytes (bs : List Nat) (hbyte : ∀ b ∈ bs, b < 256) :
    (List.range bs.length).map (fun i => leValue bs / 256 ^ i % 256) = bs := by
  induction bs with
  | nil => rfl
  | cons b t ih =>
    have hb : b < 256 := hbyte b (by simp)
    have ht := ih (fun x hx => hbyte x (by simp [hx]))
    rw [List.length_cons, List.range_succ_eq_map, List.map_cons, List.map_map]
    congr 1
    · simp only [leValue, pow_zero, Nat.div_one]
      omega
    · conv_rhs => rw [← ht]
      apply List.map_congr_left
      intro i _
      simp only [Function.comp, leValue, pow_succ]
      congr 1
      rw [Nat.mul_comm (256 ^ i) 256, ← Nat.div_div_eq_div_mul]
      congr 1
      omega

/-- The text that `printf` produces for the packed structure is the text of
`guidText` for its sixteen bytes. -/
theorem fmtGuid_eq_guidText (bs : List Nat) (hb : bs.length = 16)
    (hbyte : ∀ b ∈ bs, b < 256) : fmtGuid (leValue bs) = guidText bs := by
  have hs : bs = bs.take 4 ++ ((bs.drop 4).take 2 ++ ((bs.drop 6).take 2 ++ bs.drop 8)) := by
    have e1 : (bs.drop 6).take 2 ++ bs.drop 8 = bs.drop 6 := by
      rw [show bs.drop 8 = (bs.drop 6).drop 2 by rw [List.drop_drop]]
      exact List.take_append_drop 2 _
    have e2 : (bs.drop 4).take 2 ++ bs.drop 6 = bs.drop 4 := by
      rw [show bs.drop 6 = (bs.drop 4).drop 2 by rw [List.drop_drop]]
      exact List.take_append_drop 2 _
    rw [e1, e2]
    exact (List.take_append_drop 4 bs).symm
  have hA := leValue_lt (bs.take 4)
  have hB := leValue_lt ((bs.drop 4).take 2)
  have hC := leValue_lt ((bs.drop 6).take 2)
  have lA : (bs.take 4).length = 4 := by simp [hb]
  have lB : ((bs.drop 4).take 2).length = 2 := by simp [hb]
  have lC : ((bs.drop 6).take 2).length = 2 := by simp [hb]
  have lD : (bs.drop 8).length = 8 := by simp [hb]
  rw [lA] at hA
  rw [lB] at hB
  rw [lC] at hC
  have hG : leValue bs = leValue (bs.take 4) + 4294967296 * (leValue ((bs.drop 4).take 2) +
      65536 * (leValue ((bs.drop 6).take 2) + 65536 * leValue (bs.drop 8))) := by
    conv_lhs => rw [hs]
    rw [leValue_append, leValue_append, leValue_append, lA, lB, lC]
    norm_num
  norm_num at hA hB hC
  have hD := leValue_bytes (bs.drop 8) (fun b hm => hbyte b (List.mem_of_mem_drop hm))
  rw [lD] at hD
  unfold fmtGuid guidText
  have f1 : leValue bs % 2 ^ 32 = leValue (bs.take 4) := by
    norm_num
    omega
  have f2 : leValue bs / 2 ^ 32 % 2 ^ 16 = leValue ((bs.drop 4).take 2) := by
    norm_num
    omega
  have f3 : leValue bs / 2 ^ 48 % 2 ^ 16 = leValue ((bs.drop 6).take 2) := by
    norm_num
    omega
  have f4 : ∀ i, leValue bs / 2 ^ (64 + 8 * i) % 256 = leValue (bs.drop 8) / 256 ^ i % 256 := by
    intro i
    have e : leValue bs / 2 ^ 64 = leValue (bs.drop 8) := by
      norm_num
      omega
    rw [pow_add, ← Nat.div_div_eq_div_mul, e, pow_mul]
    norm_num
  rw [f1, f2, f3]
  congr 1
  conv_rhs => rw [← hD]
  rw [List.map_map]
  congr 1
  apply List.map_congr_left
  intro i _
  simp only [Function.comp, f4]

/-- Claim C17.  A type-`0x0F` argument whose sixteen bytes `bs` are present is
emitted as `'K':`, then the first four bytes as a little-endian value in 8
upper-case hex digits, a dash, bytes 4..5 as a little-endian value in upper-case
hex padded to at least 2 digits, a dash, bytes 6..7 likewise, a dash, bytes
8..15 in order in two upper-case hex digits each, then a comma and a space; the
example bytes render as `12345678-1234-5678-DEADBEEFCAFEBABE`. -/
theorem C17_GUID_rendering (env : Env) (buf : Buffer) (P : Parser)
    (argPair : TemplateArgPair) (argLen : Nat) (ctx : ParseContext) (g : Globals)
    (bs : List Nat) (hb : bs.length = 16) (hbyte : ∀ b ∈ bs, b < 256)
    (h : BytesAt buf (ctx.data + ctx.offset) bs)
    (hlen : ctx.offset + 16 ≤ ctx.dataLen) :
    decodeArgument env buf P argPair argLen 15 ctx g =
      .done (true, { ctx with offset := ctx.offset + 16 },
        { g with stdout := g.stdout ++ (fmtKey argPair.key ++ guidText bs ++ ascii ", ") }) ∧
    guidText guidExample = ascii "12345678-1234-5678-DEADBEEFCAFEBABE" := by
  refine ⟨?_, by decide⟩
  have hr := readAndPrint_bytesAt buf bs argPair.key fmtGuid ctx g h (by omega)
  rw [hb] at hr
  unfold decodeArgument
  rw [if_neg (by decide), if_neg (by decide), if_neg (by decide), if_neg (by decide),
    if_neg (by decide), if_neg (by decide), if_pos rfl, hr, fmtGuid_eq_guidText bs hb hbyte]
  rfl

/-- Witness of C17: the example bytes under the key `G`. -/
theorem C17_GUID_rendering_witness :
    BytesAt (bufferOf guidExample) 0 guidExample ∧
    stdoutOf (decodeArgument (envWith 0) (bufferOf guidExample) (fun c g0 => .done (true, c, g0))
      ⟨ascii "G", 15, 0⟩ 16 15 (contextAt 16 0 0 .StateNormal) initialGlobals) =
      some (ascii "'G':12345678-1234-5678-DEADBEEFCAFEBABE, ") := by
  have hB : BytesAt (bufferOf guidExample) 0 guidExample := BytesAt_bufferOf [] guidExample []
  refine ⟨hB, ?_⟩
  rw [(C17_GUID_rendering (envWith 0) (bufferOf guidExample) (fun c g0 => .done (true, c, g0))
    ⟨ascii "G", 15, 0⟩ 16 (contextAt 16 0 0 .StateNormal) initialGlobals guidExample rfl
    (by decide) hB (by decide)).1]
  decide

/-! ## C16: SID rendering -/

theorem readSubAuthorities_bytesAt (buf : Buffer) :
    ∀ (subs : List (List Nat)) (ctx : ParseContext) (out : List Nat),
      (∀ s ∈ subs, s.length = 4) →
      BytesAt buf (ctx.data + ctx.offset) subs.flatten →
      ctx.offset + 4 * subs.length ≤ ctx.dataLen →
      readSubAuthorities buf subs.length ctx out =
        .done (true, { ctx with offset := ctx.offset + 4 * subs.length },
          out ++ (subs.map (fun s => ascii "-" ++ fmtU 0 (leValue s))).flatten) := by
  intro subs
  induction subs with
  | nil => intro ctx out _ _ _; simp [readSubAuthorities]
  | cons s t ih =>
    intro ctx out hs h hlen
    rw [List.flatten_cons] at h
    obtain ⟨h1, h2⟩ := BytesAt_append h
    have hl : s.length = 4 := hs s (by simp)
    rw [List.length_cons] at hlen
    have hr := ReadScalar_bytesAt buf s ctx h1 (by omega)
    rw [hl] at hr
    have ht := ih { ctx with offset := ctx.offset + 4 } (out ++ [45] ++ fmtU 0 (leValue s))
      (fun x hx => hs x (by simp [hx])) (by simpa [hl, Nat.add_assoc] using h2)
      (by simp only; omega)
    rw [List.length_cons]
    unfold readSubAuthorities
    rw [hr]
    simp only
    rw [ht]
    simp only [List.map_cons, List.flatten_cons, List.append_assoc, Run.done.injEq,
      Prod.mk.injEq, true_and, ParseContext.mk.injEq, and_true]
    refine ⟨by omega, rfl⟩

theorem sidAuthority_eq (sid : List Nat) (hl : sid.length = 8) (hbyte : ∀ b ∈ sid, b < 256) :
    sidAuthority sid = beValue ((sid.drop 2).take 6) := by
  have step : ∀ v b, v < 2 ^ 56 → b < 256 → ((v <<< 8) % 2 ^ 64) ||| b = v * 256 + b := by
    intro v b hv hb
    rw [Nat.shiftLeft_eq, Nat.mod_eq_of_lt (by norm_num at hv ⊢; omega)]
    rw [show v * 2 ^ 8 = 2 ^ 8 * v by ring, ← Nat.mul_add_lt_is_or (by norm_num; omega)]
    norm_num
    ring
  match sid, hl, hbyte with
  | [s0, s1, s2, s3, s4, s5, s6, s7], _, hbyte =>
    have h2 : s2 < 256 := hbyte s2 (by simp)
    have h3 : s3 < 256 := hbyte s3 (by simp)
    have h4 : s4 < 256 := hbyte s4 (by simp)
    have h5 : s5 < 256 := hbyte s5 (by simp)
    have h6 : s6 < 256 := hbyte s6 (by simp)
    have h7 : s7 < 256 := hbyte s7 (by simp)
    simp only [sidAuthority, beValue, List.drop, List.take, List.foldl]
    rw [step 0 s2 (by norm_num) h2, step _ s3 (by norm_num; omega) h3,
      step _ s4 (by norm_num; omega) h4, step _ s5 (by norm_num; omega) h5,
      step _ s6 (by norm_num; omega) h6, step _ s7 (by norm_num; omega) h7]

theorem flatten_singletons (bs : List Nat) : (bs.map (fun b => [b])).flatten = bs := by
  induction bs with
  | nil => rfl
  | cons b t ih => simp [ih]

theorem ReadData_bytes (buf : Buffer) (bs : List Nat) (ctx : ParseContext)
    (hbyte : ∀ b ∈ bs, b < 256)
    (h : BytesAt buf (ctx.data + ctx.offset) bs)
    (hlen : ctx.offset + bs.length ≤ ctx.dataLen) :
    ReadData buf 1 bs.length ctx =
      .done (some bs, { ctx with offset := ctx.offset + bs.length }) := by
  have e1 := flatten_singletons bs
  have e2 : (bs.map (fun b => [b])).map leValue = bs := by
    rw [List.map_map]
    conv_rhs => rw [← List.map_id bs]
    apply List.map_congr_left
    intro b hb
    have := hbyte b hb
    simp only [Function.comp, leValue, id]
    omega
  have := ReadData_bytesAt buf 1 (bs.map (fun b => [b])) ctx (by simp) (by rw [e1]; exact h)
    (by simpa using hlen)
  rw [List.length_map, e2, Nat.one_mul] at this
  exact this

/-- Claim C16.  A type-`0x13` argument with `argLen ≥ 8` whose eight header
bytes `sid` and `(argLen - 8) / 4` sub-authorities `subs` of four bytes each are
present is emitted as `'K':S-<revision>-<authority>` followed by `-<sub>` for
each sub-authority in order, a comma and a space, where the revision is byte 0
in decimal, the authority is bytes 2..7 as one big-endian number in decimal and
each sub-authority is a little-endian value in decimal.  With `argLen < 8` the
switch returns `false` at once.  The example renders as `S-1-5-32`. -/
theorem C16_SID_rendering (env : Env) (buf : Buffer) (P : Parser)
    (argPair : TemplateArgPair) (argLen : Nat) (ctx : ParseContext) (g : Globals)
    (sid : List Nat) (subs : List (List Nat))
    (hsid : sid.length = 8) (hbyte : ∀ b ∈ sid, b < 256)
    (hsubs : ∀ s ∈ subs, s.length = 4) (hn : subs.length = (argLen - 8) / 4)
    (hlen8 : 8 ≤ argLen)
    (h : BytesAt buf (ctx.data + ctx.offset) (sid ++ subs.flatten))
    (hlen : ctx.offset + 8 + 4 * subs.length ≤ ctx.dataLen) :
    decodeArgument env buf P argPair argLen 19 ctx g =
      .done (true, { ctx with offset := ctx.offset + 8 + 4 * subs.length },
        { g with stdout := g.stdout ++ (fmtKey argPair.key ++ sidText sid subs ++ ascii ", ") }) ∧
    (∀ shortLen, shortLen < 8 →
      decodeArgument env buf P argPair shortLen 19 ctx g = .done (false, ctx, g)) ∧
    sidText [1, 1, 0, 0, 0, 0, 0, 5] [[32, 0, 0, 0]] = ascii "S-1-5-32" := by
  refine ⟨?_, ?_, by decide⟩
  · obtain ⟨h1, h2⟩ := BytesAt_append h
    have hr := ReadData_bytes buf sid ctx hbyte h1 (by omega)
    rw [hsid] at hr h2
    have hs := readSubAuthorities_bytesAt buf subs { ctx with offset := ctx.offset + 8 }
      (fmtKey argPair.key ++ ascii "S-" ++ fmtU 0 (sid.headD 0) ++ [45] ++
        fmtU 0 (sidAuthority sid)) hsubs h2 (by simp only; omega)
    rw [hn] at hs
    unfold decodeArgument
    rw [if_neg (by decide), if_neg (by decide), if_neg (by decide), if_neg (by decide),
      if_neg (by decide), if_neg (by decide), if_neg (by decide), if_neg (by decide),
      if_neg (by decide), if_neg (by decide), if_pos rfl, if_neg (by omega), hr]
    simp only
    rw [hs, sidAuthority_eq sid hsid hbyte]
    simp only [printf, sidText, hn, List.append_assoc]
    rfl
  · intro shortLen hshort
    unfold decodeArgument
    rw [if_neg (by decide), if_neg (by decide), if_neg (by decide), if_neg (by decide),
      if_neg (by decide), if_neg (by decide), if_neg (by decide), if_neg (by decide),
      if_neg (by decide), if_neg (by decide), if_pos rfl, if_pos hshort]

/-- Witness of C16: the twelve bytes of `S-1-5-32` under the key `U`. -/
theorem C16_SID_rendering_witness :
    BytesAt (bufferOf sidExample) 0 ([1, 1, 0, 0, 0, 0, 0, 5] ++ [[32, 0, 0, 0]].flatten) ∧
    stdoutOf (decodeArgument (envWith 0) (bufferOf sidExample) (fun c g0 => .done (true, c, g0))
      ⟨ascii "U", 19, 0⟩ 12 19 (contextAt 12 0 0 .StateNormal) initialGlobals) =
      some (ascii "'U':S-1-5-32, ") := by
  have hB : BytesAt (bufferOf sidExample) 0 ([1, 1, 0, 0, 0, 0, 0, 5] ++ [[32, 0, 0, 0]].flatten) :=
    BytesAt_bufferOf [] sidExample []
  refine ⟨hB, ?_⟩
  rw [(C16_SID_rendering (envWith 0) (bufferOf sidExample) (fun c g0 => .done (true, c, g0))
    ⟨ascii "U", 19, 0⟩ 12 (contextAt 12 0 0 .StateNormal) initialGlobals
    [1, 1, 0, 0, 0, 0, 0, 5] [[32, 0, 0, 0]] rfl (by decide) (by decide) (by decide)
    (by decide) hB (by decide)).1]
  decide

/-! ## C11: substitution token -/

theorem and_63 (x : Nat) : x &&& 63 = x % 64 := Nat.and_pow_two_sub_one_eq_mod x 6
theorem and_255 (x : Nat) : x &&& 255 = x % 256 := Nat.and_pow_two_sub_one_eq_mod x 8
theorem and_31 (x : Nat) : x &&& 31 = x % 32 := Nat.and_pow_two_sub_one_eq_mod x 5

theorem or_128 : ∀ x, x < 64 → 128 ||| x = 128 + x := by decide
theorem or_192 : ∀ x, x < 32 → 192 ||| x = 192 + x := by decide
theorem or_224 : ∀ x, x < 16 → 224 ||| x = 224 + x := by decide

/-- The call as a function of the canonical encoding, for every 16-bit unit. -/
theorem UTF16ToUTF8_eq (w : Nat) (buffer : List Nat) (bufferSize : Nat) (hw : w ≤ 0xFFFF) :
    UTF16ToUTF8 w buffer bufferSize =
      if buffer.length + (utf8Canonical w).length < bufferSize then buffer ++ utf8Canonical w
      else buffer := by
  unfold UTF16ToUTF8 utf8Canonical
  by_cases h1 : w < 0x80
  · have a1 : ¬ w > 127 := by omega
    have a2 : ¬ w > 2047 := by omega
    have a3 : ¬ w > 65535 := by omega
    simp only [if_neg a1, if_neg a2, if_neg a3, if_pos h1, List.length_singleton]
    by_cases hf : buffer.length + 1 < bufferSize
    · rw [if_neg (by omega), if_pos hf, if_pos True.intro, Nat.mod_eq_of_lt (by omega)]
    · rw [if_pos (by omega), if_neg hf]
  · by_cases h2 : w < 0x800
    · have a1 : w > 127 := by omega
      have a2 : ¬ w > 2047 := by omega
      have a3 : ¬ w > 65535 := by omega
      simp only [if_pos a1, if_neg a2, if_neg a3, if_neg h1, if_pos h2, List.length_cons,
        List.length_nil]
      by_cases hf : buffer.length + (0 + 1 + 1) < bufferSize
      · rw [if_neg (by omega), if_pos hf, if_neg (by decide)]
        simp only [continuationBytes, Nat.shiftRight_eq_div_pow, and_63, and_255]
        have b1 : w / 2 ^ 6 % 256 = w / 64 := by
          norm_num
          omega
        rw [b1, or_128 _ (Nat.mod_lt _ (by decide)), show (0 ||| (128 + 64)) = 192 by decide,
          or_192 _ (by omega)]
        congr 2
        · omega
        · congr 1
          omega
      · rw [if_pos (by omega), if_neg hf]
    · have a1 : w > 127 := by omega
      have a2 : w > 2047 := by omega
      have a3 : ¬ w > 65535 := by omega
      have h3 : w < 0x10000 := by omega
      simp only [if_pos a1, if_pos a2, if_neg a3, if_neg h1, if_neg h2, if_pos h3,
        List.length_cons, List.length_nil]
      by_cases hf : buffer.length + (0 + 1 + 1 + 1) < bufferSize
      · rw [if_neg (by omega), if_pos hf, if_neg (by decide)]
        simp only [continuationBytes, Nat.shiftRight_eq_div_pow, and_63, and_31]
        have b1 : w / 2 ^ 6 / 2 ^ 6 % 32 = w / 4096 := by
          norm_num
          omega
        rw [b1, or_128 _ (Nat.mod_lt _ (by decide)), or_128 _ (Nat.mod_lt _ (by decide)),
          show (0 ||| (128 + 64) ||| 32) = 224 by decide, or_224 _ (by omega)]
        congr 2
        · omega
        · congr 1
          · norm_num
            omega
          · congr 1
            omega
      · rw [if_pos (by omega), if_neg hf]

theorem WellFormedUTF8_append (xs ys : List Nat) (hx : WellFormedUTF8 xs)
    (hy : WellFormedUTF8 ys) : WellFormedUTF8 (xs ++ ys) := by
  induction hx with
  | done => exact hy
  | one b0 rest h0 _ ih => exact WellFormedUTF8.one b0 _ h0 ih
  | two b0 b1 rest h0 h1 h2 _ ih => exact WellFormedUTF8.two b0 b1 _ h0 h1 h2 ih
  | three b0 b1 b2 rest h0 h1 _ ih => exact WellFormedUTF8.three b0 b1 b2 _ h0 h1 ih
  | four b0 b1 b2 b3 rest h0 h1 h2 _ ih => exact WellFormedUTF8.four b0 b1 b2 b3 _ h0 h1 h2 ih

theorem utf8Canonical_wellFormed (w : Nat) (hw : IsScalarUnit w) :
    WellFormedUTF8 (utf8Canonical w) := by
  unfold IsScalarUnit at hw
  unfold utf8Canonical
  by_cases h1 : w < 0x80
  · rw [if_pos h1]
    exact WellFormedUTF8.one _ _ (by omega) WellFormedUTF8.done
  · rw [if_neg h1]
    by_cases h2 : w < 0x800
    · rw [if_pos h2]
      exact WellFormedUTF8.two _ _ _ (by omega) (by omega) ⟨by omega, by omega⟩
        WellFormedUTF8.done
    · have h3 : w < 0x10000 := by omega
      rw [if_neg h2, if_pos h3]
      refine WellFormedUTF8.three _ _ _ _ ?_ ⟨by omega, by omega⟩ WellFormedUTF8.done
      unfold IsContinuation
      omega

theorem utf8Canonical_length (w : Nat) (hw : w ≤ 0xFFFF) :
    (utf8Canonical w).length = 1 ∨ (utf8Canonical w).length = 2 ∨
      (utf8Canonical w).length = 3 := by
  unfold utf8Canonical
  by_cases h1 : w < 0x80
  · rw [if_pos h1]
    exact Or.inl rfl
  · rw [if_neg h1]
    by_cases h2 : w < 0x800
    · rw [if_pos h2]
      exact Or.inr (Or.inl rfl)
    · rw [if_neg h2, if_pos (by omega)]
      exact Or.inr (Or.inr rfl)

theorem IsScalarUnit_le (w : Nat) (hw : IsScalarUnit w) : w ≤ 0xFFFF := by
  unfold IsScalarUnit at hw
  omega

theorem UTF16ToUTF8_keeps (w : Nat) (buffer : List Nat) (bufferSize : Nat)
    (hw : IsScalarUnit w) (hused : buffer.length < bufferSize)
    (hwf : WellFormedUTF8 buffer) :
    (UTF16ToUTF8 w buffer bufferSize).length < bufferSize ∧
      WellFormedUTF8 (UTF16ToUTF8 w buffer bufferSize) := by
  rw [UTF16ToUTF8_eq w buffer bufferSize (IsScalarUnit_le w hw)]
  by_cases hf : buffer.length + (utf8Canonical w).length < bufferSize
  · rw [if_pos hf]
    exact ⟨by rw [List.length_append]; exact hf,
      WellFormedUTF8_append _ _ hwf (utf8Canonical_wellFormed w hw)⟩
  · rw [if_neg hf]
    exact ⟨hused, hwf⟩

theorem convertAll_keeps (bufferSize : Nat) :
    ∀ (ws : List Nat) (buffer : List Nat), (∀ u ∈ ws, IsScalarUnit u) →
      buffer.length < bufferSize → WellFormedUTF8 buffer →
      (convertAll bufferSize ws buffer).length < bufferSize ∧
        WellFormedUTF8 (convertAll bufferSize ws buffer) := by
  intro ws
  induction ws with
  | nil => intro buffer _ h1 h2; exact ⟨h1, h2⟩
  | cons u t ih =>
    intro buffer hs h1 h2
    obtain ⟨k1, k2⟩ := UTF16ToUTF8_keeps u buffer bufferSize (hs u (by simp)) h1 h2
    exact ih _ (fun x hx => hs x (by simp [hx])) k1 k2

/-- Claim C14.  For a code unit `w` that is not a surrogate and a buffer with
`bufferUsed < bufferSize` (the buffer is the list of its first `bufferUsed`
bytes): the canonical UTF-8 encoding of the code point `w` has `n` = 1, 2 or 3
bytes; when `bufferUsed + n < bufferSize` the call writes exactly these bytes at
`bufferUsed` and adds `n` to `bufferUsed`; otherwise it changes nothing.  So
`bufferUsed < bufferSize` is kept, the encoding is well-formed UTF-8, and after
any sequence of calls on non-surrogate units a well-formed buffer (the empty
one in particular) is still well-formed and below `bufferSize`. -/
theorem C14_UTF16ToUTF8_canonical (w : Nat) (buffer : List Nat) (bufferSize : Nat)
    (hw : IsScalarUnit w) (hused : buffer.length < bufferSize) :
    ((utf8Canonical w).length = 1 ∨ (utf8Canonical w).length = 2 ∨
      (utf8Canonical w).length = 3) ∧
    (buffer.length + (utf8Canonical w).length < bufferSize →
      UTF16ToUTF8 w buffer bufferSize = buffer ++ utf8Canonical w) ∧
    (¬ buffer.length + (utf8Canonical w).length < bufferSize →
      UTF16ToUTF8 w buffer bufferSize = buffer) ∧
    (UTF16ToUTF8 w buffer bufferSize).length < bufferSize ∧
    WellFormedUTF8 (utf8Canonical w) ∧
    (∀ ws : List Nat, (∀ u ∈ ws, IsScalarUnit u) → WellFormedUTF8 buffer →
      (convertAll bufferSize ws buffer).length < bufferSize ∧
        WellFormedUTF8 (convertAll bufferSize ws buffer)) ∧
    (∀ ws : List Nat, (∀ u ∈ ws, IsScalarUnit u) →
      WellFormedUTF8 (convertAll bufferSize ws [])) := by
  have he := UTF16ToUTF8_eq w buffer bufferSize (IsScalarUnit_le w hw)
  refine ⟨utf8Canonical_length w (IsScalarUnit_le w hw), ?_, ?_, ?_,
    utf8Canonical_wellFormed w hw, ?_, ?_⟩
  · intro hf
    rw [he, if_pos hf]
  · intro hf
    rw [he, if_neg hf]
  · rw [he]
    by_cases hf : buffer.length + (utf8Canonical w).length < bufferSize
    · rw [if_pos hf, List.length_append]
      exact hf
    · rw [if_neg hf]
      exact hused
  · intro ws hs hwf
    exact convertAll_keeps bufferSize ws buffer hs hused hwf
  · intro ws hs
    exact (convertAll_keeps bufferSize ws [] hs (by
      rw [List.length_nil]
      omega) WellFormedUTF8.done).2

/-- Witness of C14: the unit `0x20AC` gives the bytes `E2 82 AC`. -/
theorem C14_UTF16ToUTF8_canonical_witness :
    IsScalarUnit 0x20AC ∧ ([] : List Nat).length < 256 ∧
    UTF16ToUTF8 0x20AC [] 256 = [0xE2, 0x82, 0xAC] ∧
    WellFormedUTF8 [0xE2, 0x82, 0xAC] := by
  have hw : IsScalarUnit 0x20AC := Or.inl (by decide)
  have h := C14_UTF16ToUTF8_canonical 0x20AC [] 256 hw (by decide)
  exact ⟨hw, by decide, by rw [h.2.1 (by decide)]; rfl, h.2.2.2.2.1⟩

/-! ## C20: the attribute state -/

/-- Claim C20, counterexample.  After the tokens Attribute `A` and
OpenStartElement `E`, read from the initial state, the sub-state is still
InAttribute (`ParseOpenStartElement` does not call `SetState`) and the top of
the name stack is `E`, not the name `A` of the most recent Attribute token. -/
theorem C20_counterexample :
    stateAndStack (ParseBinXmlPre (envWith 0) (bufferOf attributeThenElement) 3
      attributeThenElement.length 0 initialGlobals) =
      some (.StateInAttribute, [ascii "E", ascii "A"]) := by
  decide

/-- Claim C20, amended.  Right after an Attribute token whose name is read and
pushed (fewer than `MAX_NAME_STACK_DEPTH` names on the stack), the sub-state is
InAttribute and the top of the name stack is that name (its first 255 bytes),
above the names that were there.  `SetState(Normal)` from InAttribute removes
exactly the top name of the stack, whichever it is, and `SetState` with the
current state as argument changes neither the context nor the stack. -/
theorem C20_attribute_state (buf : Buffer) (ctx ctx1 : ParseContext) (g : Globals)
    (name : List Nat)
    (hread : ReadName buf ctx 256 = .done (some name, ctx1))
    (hroom : g.nameStack.length < MAX_NAME_STACK_DEPTH) :
    ParseAttributes buf ctx g =
      .done (true, { ctx1 with state := .StateInAttribute },
        { g with nameStack := (cstr name).take 255 :: g.nameStack }) ∧
    (∀ (c : ParseContext) (g0 : Globals), c.state = .StateInAttribute →
      SetState c .StateNormal g0 =
        ({ c with state := .StateNormal }, { g0 with nameStack := g0.nameStack.tail })) ∧
    (∀ (c : ParseContext) (g0 : Globals), SetState c c.state g0 = (c, g0)) := by
  refine ⟨?_, ?_, ?_⟩
  · unfold MAX_NAME_STACK_DEPTH at hroom
    unfold ParseAttributes
    rw [hread]
    simp only
    unfold PushName MAX_NAME_STACK_DEPTH
    rw [if_neg (by omega), if_neg (by omega)]
    simp only
    unfold SetState
    by_cases hs : XmlParseState.StateInAttribute = ctx1.state
    · rw [if_pos hs]
      simp only [Run.done.injEq, Prod.mk.injEq, true_and, and_true]
      cases ctx1
      simp only at hs
      simp only [ParseContext.mk.injEq, true_and, and_true]
      exact hs.symm
    · rw [if_neg hs, if_neg (fun h => hs h.symm)]
  · intro c g0 hc
    unfold SetState PopName
    rw [if_neg (by rw [hc]; decide), if_pos hc]
  · intro c g0
    unfold SetState
    rw [if_pos rfl]

/-- Witness of C20: the attribute `A` read from an empty stack. -/
theorem C20_attribute_state_witness :
    ReadName (bufferOf (attributeInPlace 0 65)) (contextAt 17 1 0 .StateNormal) 256 =
      .done (some (ascii "A"), contextAt 17 17 0 .StateNormal) ∧
    initialGlobals.nameStack.length < MAX_NAME_STACK_DEPTH ∧
    ParseAttributes (bufferOf (attributeInPlace 0 65)) (contextAt 17 1 0 .StateNormal)
      initialGlobals =
      .done (true, contextAt 17 17 0 .StateInAttribute,
        { initialGlobals with nameStack := [ascii "A"] }) := by
  have hr : ReadName (bufferOf (attributeInPlace 0 65)) (contextAt 17 1 0 .StateNormal) 256 =
      .done (some (ascii "A"), contextAt 17 17 0 .StateNormal) := by decide
  refine ⟨hr, by decide, ?_⟩
  rw [(C20_attribute_state _ _ _ initialGlobals _ hr (by decide)).1]
  rfl

/-! ## C12: EventData synthesis -/

/-- Claim C12, counterexample.  With a description table that maps event 4624,
the instance prints `'X':4624, `: the conversion `%04u` pads to four digits, so
no `0` precedes `4624`, and no description follows, the key being `X` and not
`EventID`.  The text `'X':04624` does not occur in the output. -/
theorem C12_counterexample :
    stdoutOf (ParseBinXmlPre envDescribing4624 (bufferOf (eventDataInstance true)) 16
      (eventDataInstance true).length 0 initialGlobals) = some (ascii "'X':4624, ") ∧
    ¬ (ascii "'X':04624" <:+: ascii "'X':4624, ") := by
  constructor
  · decide
  · decide

/-- Claim C12, amended.  From an empty name stack and an empty registry, the
instance whose body encodes `<EventData><Data Name="X">%1</Data></EventData>`
(with or without the CloseStartElement tokens) and whose single argument has
type `0x06` and value 4624 returns `true`, binds the argument to the key `X`
and prints exactly `'X':4624, `, whatever the description table holds. -/
theorem C12_EventData_synthesis (env : Env) (closeStart : Bool) :
    stdoutOf (ParseBinXmlPre env (bufferOf (eventDataInstance closeStart)) 16
      (eventDataInstance closeStart).length 0 initialGlobals) = some (ascii "'X':4624, ") ∧
    nameStackOf (ParseBinXmlPre env (bufferOf (eventDataInstance closeStart)) 16
      (eventDataInstance closeStart).length 0 initialGlobals) = some [] := by
  cases closeStart
  · constructor
    · rfl
    · rfl
  · constructor
    · rfl
    · rfl

/-! ## C13: a single fixed pair, end to end -/

/-! ## Tokens whose bytes are present -/

theorem leValue_le16 (n : Nat) (h : n < 65536) : leValue (le16 n) = n := by
  simp only [le16, leValue]
  omega

theorem leValue_le32 (n : Nat) (h : n < 4294967296) : leValue (le32 n) = n := by
  simp only [le32, leValue]
  omega

theorem UTF16ToUTF8_ascii (c : Nat) (acc : List Nat) (hc : c ≤ 127) (ha : acc.length + 1 < 256) :
    UTF16ToUTF8 c acc 256 = acc ++ [c] := by
  rw [UTF16ToUTF8_eq c acc 256 (by omega)]
  have e : utf8Canonical c = [c] := by
    unfold utf8Canonical
    rw [if_pos (by omega)]
  rw [e, if_pos (by simpa using ha)]

theorem readCharsLoop_ascii (buf : Buffer) :
    ∀ (rest : List Nat) (idx : Nat) (ctx : ParseContext) (acc : List Nat),
      (∀ c ∈ rest, c ≤ 127) → acc.length = idx → idx + rest.length ≤ 127 →
      BytesAt buf (ctx.data + ctx.offset) (rest.map le16).flatten →
      ctx.offset + 2 * rest.length ≤ ctx.dataLen →
      readCharsLoop buf 256 rest.length idx ctx acc =
        .done (some (idx + rest.length, acc ++ rest),
          { ctx with offset := ctx.offset + 2 * rest.length }) := by
  intro rest
  induction rest with
  | nil =>
    intro idx ctx acc _ _ _ _ _
    simp [readCharsLoop]
  | cons c t ih =>
    intro idx ctx acc hc ha hn hB hlen
    rw [List.map_cons, List.flatten_cons] at hB
    obtain ⟨h1, h2⟩ := BytesAt_append hB
    rw [List.length_cons] at hn hlen
    have hlen1 : ctx.offset + (le16 c).length ≤ ctx.dataLen := by
      simp only [le16, List.length_cons, List.length_nil]
      omega
    have r : ReadScalar buf 2 ctx = _ := ReadScalar_bytesAt buf (le16 c) ctx h1 hlen1
    have hc1 : c ≤ 127 := hc c (by simp)
    rw [leValue_le16 c (by omega)] at r
    have hu := UTF16ToUTF8_ascii c acc hc1 (by omega)
    have ht := ih (idx + 1) { ctx with offset := ctx.offset + (le16 c).length } (acc ++ [c])
      (fun x hx => hc x (by simp [hx])) (by simp [ha]) (by omega)
      (by simpa [Nat.add_assoc] using h2)
      (by
        simp only [le16, List.length_cons, List.length_nil]
        omega)
    rw [List.length_cons]
    unfold readCharsLoop
    rw [if_pos (by omega), r]
    simp only
    rw [hu, ht]
    simp only [le16, List.length_cons, List.length_nil, List.append_assoc, List.singleton_append,
      Run.done.injEq, Prod.mk.injEq, Option.some.injEq, ParseContext.mk.injEq, and_true, true_and]
    omega

theorem ReadPrefixedUnicodeString_ascii (buf : Buffer) (ctx : ParseContext) (text : List Nat)
    (isNullTerminated : Bool)
    (hc : ∀ c ∈ text, c ≤ 127) (hn : text.length ≤ 127)
    (hB : BytesAt buf (ctx.data + ctx.offset) (le16 text.length ++ (text.map le16).flatten))
    (hlen : ctx.offset + 2 + 2 * text.length ≤ ctx.dataLen) :
    ReadPrefixedUnicodeString buf ctx 256 isNullTerminated =
      .done (some text,
        { ctx with offset := ctx.offset + 2 + 2 * text.length +
            (if isNullTerminated then 2 else 0) }) := by
  obtain ⟨h1, h2⟩ := BytesAt_append hB
  have hlen1 : ctx.offset + (le16 text.length).length ≤ ctx.dataLen := by
    simp only [le16, List.length_cons, List.length_nil]
    omega
  have r : ReadScalar buf 2 ctx = _ := ReadScalar_bytesAt buf (le16 text.length) ctx h1 hlen1
  rw [leValue_le16 _ (by omega)] at r
  have hl := readCharsLoop_ascii buf text 0 { ctx with offset := ctx.offset + (le16 text.length).length }
    [] hc rfl (by omega) (by simpa [Nat.add_assoc] using h2)
    (by
      simp only [le16, List.length_cons, List.length_nil]
      omega)
  unfold ReadPrefixedUnicodeString
  rw [r]
  simp only
  rw [hl]
  simp only [List.nil_append, Nat.zero_add]
  rw [if_neg (by omega), List.take_length]
  unfold SkipBytes
  simp only [le16, List.length_cons, List.length_nil, Nat.sub_self, Nat.zero_add,
    Run.done.injEq, Prod.mk.injEq, true_and, ParseContext.mk.injEq, and_true]
  cases isNullTerminated <;> simp

/-- `ReadName` on a name stored in place, at the chunk offset of the cursor. -/
theorem ReadName_inPlace (buf : Buffer) (ctx : ParseContext) (name : List Nat)
    (hc : ∀ c ∈ name, c ≤ 127) (hn : name.length ≤ 127)
    (hpos : ctx.offset + ctx.offsetFromChunkStart + 4 < 4294967296)
    (hB : BytesAt buf (ctx.data + ctx.offset)
      (nameInPlace (ctx.offset + ctx.offsetFromChunkStart) name))
    (hlen : ctx.offset + 12 + 2 * name.length ≤ ctx.dataLen) :
    ReadName buf ctx 256 =
      .done (some name, { ctx with offset := ctx.offset + 14 + 2 * name.length }) := by
  unfold nameInPlace at hB
  have hB1 : BytesAt buf (ctx.data + ctx.offset)
      (le32 (ctx.offset + ctx.offsetFromChunkStart + 4) ++ (le32 0 ++ (le16 0 ++
        ((le16 name.length ++ (name.map le16).flatten) ++ le16 0)))) := by
    simpa [List.append_assoc] using hB
  obtain ⟨h1, h2⟩ := BytesAt_append hB1
  obtain ⟨h3, h4⟩ := BytesAt_append h2
  obtain ⟨h5, h6⟩ := BytesAt_append h4
  obtain ⟨h7, -⟩ := BytesAt_append h6
  have r1 : ReadScalar buf 4 ctx = _ := ReadScalar_bytesAt buf _ ctx h1 (by
    simp only [le32, List.length_cons, List.length_nil]
    omega)
  rw [leValue_le32 _ hpos] at r1
  have r2 : ReadScalar buf 4 { ctx with offset := ctx.offset + 4 } = _ :=
    ReadScalar_bytesAt buf (le32 0) _ (by simpa [Nat.add_assoc, le32] using h3) (by
      simp only [le32, List.length_cons, List.length_nil]
      omega)
  have r3 : ReadScalar buf 2 { ctx with offset := ctx.offset + 4 + 4 } = _ :=
    ReadScalar_bytesAt buf (le16 0) _ (by simpa [Nat.add_assoc, le32, le16] using h5) (by
      simp only [le16, List.length_cons, List.length_nil]
      omega)
  have r4 := ReadPrefixedUnicodeString_ascii buf { ctx with offset := ctx.offset + 4 + 4 + 2 }
    name true hc hn (by simpa [Nat.add_assoc, le32, le16] using h7) (by
      simp only
      omega)
  unfold ReadName
  rw [if_neg (by decide), r1]
  simp only [le32, List.length_cons, List.length_nil]
  rw [if_neg (by omega)]
  unfold readNameBody
  simp only [le32, le16, List.length_cons, List.length_nil, Nat.zero_add] at r2 r3
  rw [r2]
  simp only
  rw [r3]
  simp only
  rw [r4]
  simp only [if_true, Run.done.injEq, Prod.mk.injEq, true_and, ParseContext.mk.injEq, and_true]
  omega

theorem cstr_of_nonzero (text : List Nat) (h : ∀ c ∈ text, 1 ≤ c) : cstr text = text := by
  unfold cstr
  rw [List.takeWhile_eq_self_iff]
  intro c hc
  have := h c hc
  simp only [bne_iff_ne, ne_eq]
  omega

/-- `ParseOpenStartElement` without attributes on a name stored in place. -/
theorem ParseOpenStartElement_inPlace (buf : Buffer) (ctx : ParseContext) (g : Globals)
    (name : List Nat)
    (hc : ∀ c ∈ name, 1 ≤ c ∧ c ≤ 127) (hn : name.length ≤ 127)
    (hpos : ctx.offset + 6 + ctx.offsetFromChunkStart + 4 < 4294967296)
    (hB : BytesAt buf (ctx.data + ctx.offset)
      (le16 0 ++ le32 0 ++ nameInPlace (ctx.offset + 6 + ctx.offsetFromChunkStart) name))
    (hlen : ctx.offset + 18 + 2 * name.length ≤ ctx.dataLen)
    (hroom : g.nameStack.length < 20) :
    ParseOpenStartElement buf ctx false g =
      .done (true, { ctx with offset := ctx.offset + 20 + 2 * name.length },
        { g with nameStack := name :: g.nameStack }) := by
  have hB1 : BytesAt buf (ctx.data + ctx.offset)
      (le16 0 ++ (le32 0 ++ nameInPlace (ctx.offset + 6 + ctx.offsetFromChunkStart) name)) := by
    simpa [List.append_assoc] using hB
  obtain ⟨h1, h2⟩ := BytesAt_append hB1
  obtain ⟨h3, h4⟩ := BytesAt_append h2
  have r1 : ReadScalar buf 2 ctx = _ := ReadScalar_bytesAt buf (le16 0) ctx h1 (by
    simp only [le16, List.length_cons, List.length_nil]
    omega)
  have r2 : ReadScalar buf 4 { ctx with offset := ctx.offset + 2 } = _ :=
    ReadScalar_bytesAt buf (le32 0) _ (by simpa [Nat.add_assoc, le16] using h3) (by
      simp only [le32, List.length_cons, List.length_nil]
      omega)
  have e : ctx.offset + 6 + ctx.offsetFromChunkStart =
      ctx.offset + 2 + 4 + ctx.offsetFromChunkStart := by omega
  rw [e] at h4
  have r3 := ReadName_inPlace buf { ctx with offset := ctx.offset + 2 + 4 } name
    (fun c hm => (hc c hm).2) hn (by simp only; omega)
    (by simpa [Nat.add_assoc, le16, le32] using h4) (by simp only; omega)
  simp only [le32, le16, List.length_cons, List.length_nil, Nat.zero_add] at r1 r2
  unfold ParseOpenStartElement
  rw [r1]
  simp only
  rw [r2]
  simp only
  rw [r3]
  simp only [readAttributeListLength, Bool.false_eq_true, if_false]
  rw [cstr_of_nonzero name (fun c hm => (hc c hm).1)]
  unfold PushName MAX_NAME_STACK_DEPTH
  rw [if_neg (by omega), if_neg (by omega), List.take_of_length_le (by omega)]

/-- `ParseValueText` under a single open element: the pair `(name, text)` is
registered. -/
theorem ParseValueText_single (buf : Buffer) (ctx : ParseContext) (g : Globals)
    (t : TemplateDescription) (name text : List Nat)
    (hc : ∀ c ∈ text, 1 ≤ c ∧ c ≤ 127) (hn : text.length ≤ 127)
    (hB : BytesAt buf (ctx.data + ctx.offset) ([1] ++ le16 text.length ++ (text.map le16).flatten))
    (hlen : ctx.offset + 3 + 2 * text.length ≤ ctx.dataLen)
    (hstack : g.nameStack = [name]) (hstate : ctx.state = .StateNormal)
    (ht : g.templates.get? ctx.currentTemplateIdx = some t) :
    ParseValueText buf ctx g =
      .done (true,
        { ctx with offset := ctx.offset + 3 + 2 * text.length, cachedValue := text },
        { g with
          templates := g.templates.set ctx.currentTemplateIdx
            { t with fixedRoot := { key := name, value := text } :: t.fixedRoot } }) := by
  have hB1 : BytesAt buf (ctx.data + ctx.offset)
      ([1] ++ (le16 text.length ++ (text.map le16).flatten)) := by
    simpa [List.append_assoc] using hB
  obtain ⟨h1, h2⟩ := BytesAt_append hB1
  have r1 : ReadScalar buf 1 ctx = _ := ReadScalar_bytesAt buf [1] ctx h1 (by
    simp only [List.length_cons, List.length_nil]
    omega)
  have r2 := ReadPrefixedUnicodeString_ascii buf { ctx with offset := ctx.offset + 1 } text false
    (fun c hm => (hc c hm).2) hn (by simpa [Nat.add_assoc] using h2) (by simp only; omega)
  simp only [List.length_cons, List.length_nil, Nat.zero_add] at r1
  unfold ParseValueText
  rw [r1]
  simp only
  rw [r2]
  simp only [GetProperKeyName, GetName, GetUpperName, hstack, List.head?, List.tail]
  rw [cstr_of_nonzero text (fun c hm => (hc c hm).1)]
  simp only [ne_eq, not_true_eq_false, false_and, if_false, true_or, if_true, RegisterFixedPair,
    ht, AddPair, SetState, hstate]
  rw [List.take_of_length_le (by omega), hstack]
  simp only [Bool.false_eq_true, if_false, Run.done.injEq, Prod.mk.injEq, true_and,
    ParseContext.mk.injEq, and_true]
  omega

theorem BytesAt_single {buf : Buffer} {addr b : Nat} (h : BytesAt buf addr [b]) :
    buf addr = some b := (BytesAt_cons h).1

theorem BytesAt_cast {buf : Buffer} {addr addr1 : Nat} {bs : List Nat}
    (h : BytesAt buf addr bs) (e : addr = addr1) : BytesAt buf addr1 bs := e ▸ h

theorem utf16_length (text : List Nat) : ((text.map le16).flatten).length = 2 * text.length := by
  induction text with
  | nil => rfl
  | cons c t ih =>
    rw [List.map_cons, List.flatten_cons, List.length_append, ih, List.length_cons]
    simp only [le16, List.length_cons, List.length_nil]
    omega

theorem nameInPlace_length (pos : Nat) (name : List Nat) :
    (nameInPlace pos name).length = 14 + 2 * name.length := by
  unfold nameInPlace
  simp only [List.length_append, utf16_length, le32, le16, List.length_cons, List.length_nil]
  omega

theorem valueText_length (text : List Nat) : (valueText text).length = 4 + 2 * text.length := by
  unfold valueText
  simp only [List.length_append, utf16_length, le16, List.length_cons, List.length_nil]

theorem openElement_length (pos : Nat) (name : List Nat) :
    (openElement pos name).length = 21 + 2 * name.length := by
  unfold openElement
  simp only [List.length_append, nameInPlace_length, le32, le16, List.length_cons,
    List.length_nil]
  omega

theorem fixedPairBody_length (pos : Nat) (N V : List Nat) :
    (fixedPairBody pos N V).length = 28 + 2 * N.length + 2 * V.length := by
  unfold fixedPairBody
  simp only [List.length_append, openElement_length, valueText_length, List.length_cons,
    List.length_nil]
  omega

/-- One turn of the token loop that handles a token with success. -/
theorem ParseBinXmlLoop_step (env : Env) (buf : Buffer) (fuel : Nat) (ctx ctx1 : ParseContext)
    (g g1 : Globals) (b : Nat)
    (hlt : ctx.offset < ctx.dataLen) (hb : buf (ctx.data + ctx.offset) = some b)
    (hd : dispatchToken env buf
        (fun c g0 => ParseBinXmlLoop env buf fuel { c with state := .StateNormal } g0)
        (b % 256) { ctx with offset := ctx.offset + 1 } g = .done (true, ctx1, g1)) :
    ParseBinXmlLoop env buf (fuel + 1) ctx g = ParseBinXmlLoop env buf fuel ctx1 g1 := by
  rw [ParseBinXmlLoop, if_pos hlt, hb]
  simp only
  rw [hd]

/-- The token loop at the end of its data. -/
theorem ParseBinXmlLoop_end (env : Env) (buf : Buffer) (fuel : Nat) (ctx : ParseContext)
    (g : Globals) (h : ¬ ctx.offset < ctx.dataLen) :
    ParseBinXmlLoop env buf (fuel + 1) ctx g = .done (true, ctx, g) := by
  rw [ParseBinXmlLoop, if_neg h]

/-- The token loop over the body `fixedPairBody`: the pair `(N, V)` is put in
front of the fixed pairs of the current template, and the name stack is as
before. -/
theorem fixedPairBody_run (env : Env) (buf : Buffer) (k d P idx cd cdl : Nat)
    (g : Globals) (t : TemplateDescription) (N V : List Nat)
    (hN : IsAsciiText N) (hV : IsAsciiText V)
    (hpos : P + 11 < 4294967296)
    (hB : BytesAt buf d (fixedPairBody P N V))
    (hstack : g.nameStack = [])
    (ht : g.templates.get? idx = some t) :
    ParseBinXmlLoop env buf (k + 6)
        (bodyContext d (28 + 2 * N.length + 2 * V.length) P idx cd cdl 0 []) g =
      .done (true,
        bodyContext d (28 + 2 * N.length + 2 * V.length) P idx cd cdl
          (28 + 2 * N.length + 2 * V.length) V,
        { g with
          templates := g.templates.set idx
            { t with fixedRoot := { key := N, value := V } :: t.fixedRoot } }) := by
  obtain ⟨hNc, hNl⟩ := hN
  obtain ⟨hVc, hVl⟩ := hV
  have hB1 : BytesAt buf d ([1] ++ ((le16 0 ++ le32 0 ++ nameInPlace (P + 7) N) ++ ([2] ++
      ([5] ++ (([1] ++ le16 V.length ++ (V.map le16).flatten) ++ ([4] ++ [0])))))) := by
    simpa [fixedPairBody, openElement, valueText, List.append_assoc] using hB
  obtain ⟨a0, r0⟩ := BytesAt_append hB1
  obtain ⟨a1, r1⟩ := BytesAt_append r0
  obtain ⟨a2, r2⟩ := BytesAt_append r1
  obtain ⟨a3, r3⟩ := BytesAt_append r2
  obtain ⟨a4, r4⟩ := BytesAt_append r3
  obtain ⟨a5, a6⟩ := BytesAt_append r4
  have lX : (le16 0 ++ le32 0 ++ nameInPlace (P + 7) N).length = 20 + 2 * N.length := by
    simp only [List.length_append, nameInPlace_length, le32, le16, List.length_cons,
      List.length_nil]
    omega
  have lY : ([1] ++ le16 V.length ++ (V.map le16).flatten).length = 3 + 2 * V.length := by
    simp only [List.length_append, utf16_length, le16, List.length_cons, List.length_nil]
  rw [lX] at r1 a2 r2 a3 r3 a4 r4 a5 a6
  rw [lY] at r4 a5 a6
  simp only [List.length_cons, List.length_nil, Nat.zero_add] at a1 a2 a3 a4 a5 a6
  -- token 1: OpenStartElement
  have e7 : P + 7 = 0 + 1 + 6 + P := by omega
  rw [e7] at a1
  have t1 : ParseOpenStartElement buf
      (bodyContext d (28 + 2 * N.length + 2 * V.length) P idx cd cdl (0 + 1) []) false g =
      .done (true,
        bodyContext d (28 + 2 * N.length + 2 * V.length) P idx cd cdl
          (0 + 1 + 20 + 2 * N.length) [],
        { g with nameStack := N :: g.nameStack }) :=
    ParseOpenStartElement_inPlace buf _ g N hNc hNl (by simp only [bodyContext]; omega)
      (BytesAt_cast a1 (by simp only [bodyContext])) (by simp only [bodyContext]; omega)
      (by rw [hstack]; decide)
  have s1 := ParseBinXmlLoop_step env buf (k + 5)
    (bodyContext d (28 + 2 * N.length + 2 * V.length) P idx cd cdl 0 []) _ g _ 1
    (by simp only [bodyContext]; omega) (BytesAt_single a0) t1
  -- token 2: CloseStartElement
  have s2 := ParseBinXmlLoop_step env buf (k + 4)
    (bodyContext d (28 + 2 * N.length + 2 * V.length) P idx cd cdl
      (0 + 1 + 20 + 2 * N.length) [])
    (bodyContext d (28 + 2 * N.length + 2 * V.length) P idx cd cdl
      (0 + 1 + 20 + 2 * N.length + 1) [])
    { g with nameStack := N :: g.nameStack } { g with nameStack := N :: g.nameStack } 2
    (by simp only [bodyContext]; omega)
    (BytesAt_single (BytesAt_cast a2 (by simp only [bodyContext]; omega))) rfl
  -- token 3: ValueText
  have t3 : ParseValueText buf
      (bodyContext d (28 + 2 * N.length + 2 * V.length) P idx cd cdl
        (0 + 1 + 20 + 2 * N.length + 1 + 1) []) { g with nameStack := N :: g.nameStack } =
      .done (true,
        bodyContext d (28 + 2 * N.length + 2 * V.length) P idx cd cdl
          (0 + 1 + 20 + 2 * N.length + 1 + 1 + 3 + 2 * V.length) V,
        { g with
          nameStack := N :: g.nameStack
          templates := g.templates.set idx
            { t with fixedRoot := { key := N, value := V } :: t.fixedRoot } }) :=
    ParseValueText_single buf _ _ t N V hVc hVl
      (BytesAt_cast a4 (by simp only [bodyContext]; omega)) (by simp only [bodyContext]; omega)
      (by simp only [hstack]) rfl ht
  have s3 := ParseBinXmlLoop_step env buf (k + 3)
    (bodyContext d (28 + 2 * N.length + 2 * V.length) P idx cd cdl
      (0 + 1 + 20 + 2 * N.length + 1) []) _ _ _ 5
    (by simp only [bodyContext]; omega)
    (BytesAt_single (BytesAt_cast a3 (by simp only [bodyContext]; omega))) t3
  -- token 4: CloseElement
  have s4 := ParseBinXmlLoop_step env buf (k + 2)
    (bodyContext d (28 + 2 * N.length + 2 * V.length) P idx cd cdl
      (0 + 1 + 20 + 2 * N.length + 1 + 1 + 3 + 2 * V.length) V)
    (bodyContext d (28 + 2 * N.length + 2 * V.length) P idx cd cdl
      (0 + 1 + 20 + 2 * N.length + 1 + 1 + 3 + 2 * V.length + 1) V)
    { g with
      nameStack := N :: g.nameStack
      templates := g.templates.set idx
        { t with fixedRoot := { key := N, value := V } :: t.fixedRoot } }
    { g with
      templates := g.templates.set idx
        { t with fixedRoot := { key := N, value := V } :: t.fixedRoot } } 4
    (by simp only [bodyContext]; omega)
    (BytesAt_single (BytesAt_cast a5 (by simp only [bodyContext]; omega))) rfl
  -- token 5: EOF
  have s5 := ParseBinXmlLoop_step env buf (k + 1)
    (bodyContext d (28 + 2 * N.length + 2 * V.length) P idx cd cdl
      (0 + 1 + 20 + 2 * N.length + 1 + 1 + 3 + 2 * V.length + 1) V)
    (bodyContext d (28 + 2 * N.length + 2 * V.length) P idx cd cdl
      (28 + 2 * N.length + 2 * V.length) V)
    { g with
      templates := g.templates.set idx
        { t with fixedRoot := { key := N, value := V } :: t.fixedRoot } }
    { g with
      templates := g.templates.set idx
        { t with fixedRoot := { key := N, value := V } :: t.fixedRoot } } 0
    (by simp only [bodyContext]; omega)
    (BytesAt_single (BytesAt_cast a6 (by simp only [bodyContext]; omega))) rfl
  have s6 := ParseBinXmlLoop_end env buf k
    (bodyContext d (28 + 2 * N.length + 2 * V.length) P idx cd cdl
      (28 + 2 * N.length + 2 * V.length) V)
    { g with
      templates := g.templates.set idx
        { t with fixedRoot := { key := N, value := V } :: t.fixedRoot } }
    (by simp only [bodyContext]; omega)
  rw [show k + 6 = k + 5 + 1 by rfl, s1, show k + 5 = k + 4 + 1 by rfl, s2,
    show k + 4 = k + 3 + 1 by rfl, s3, show k + 3 = k + 2 + 1 by rfl, s4,
    show k + 2 = k + 1 + 1 by rfl, s5, s6]

theorem le32_length (n : Nat) : (le32 n).length = 4 := rfl

/-- The header of a template instance whose bytes are present. -/
theorem readInstanceHeader_bytes (buf : Buffer) (ctx : ParseContext) (shortID x n : Nat)
    (hid : shortID < 4294967296) (hn : n < 4294967296)
    (hB : BytesAt buf (ctx.data + ctx.offset) ([1] ++ (le32 shortID ++ (le32 x ++ le32 n))))
    (hlen : ctx.offset + 13 ≤ ctx.dataLen) :
    readInstanceHeader buf ctx =
      .done (some (shortID, n), { ctx with offset := ctx.offset + 1 + 4 + 4 + 4 }) := by
  obtain ⟨h1, h2⟩ := BytesAt_append hB
  obtain ⟨h3, h4⟩ := BytesAt_append h2
  obtain ⟨h5, h6⟩ := BytesAt_append h4
  simp only [le32_length, List.length_cons, List.length_nil, Nat.zero_add] at h3 h5 h6
  have r1 : ReadScalar buf 1 ctx = _ := ReadScalar_bytesAt buf [1] ctx h1 (by
    simp only [List.length_cons, List.length_nil]
    omega)
  have r2 : ReadScalar buf 4 { ctx with offset := ctx.offset + 1 } = _ :=
    ReadScalar_bytesAt buf (le32 shortID) _ (BytesAt_cast h3 (by simp only; omega)) (by
      simp only [le32_length]
      omega)
  have r3 : ReadScalar buf 4 { ctx with offset := ctx.offset + 1 + 4 } = _ :=
    ReadScalar_bytesAt buf (le32 x) _ (BytesAt_cast h5 (by simp only; omega)) (by
      simp only [le32_length]
      omega)
  have r4 : ReadScalar buf 4 { ctx with offset := ctx.offset + 1 + 4 + 4 } = _ :=
    ReadScalar_bytesAt buf (le32 n) _ (BytesAt_cast h6 (by simp only; omega)) (by
      simp only [le32_length]
      omega)
  rw [leValue_le32 _ hid] at r2
  rw [leValue_le32 _ hn] at r4
  simp only [le32_length, List.length_cons, List.length_nil, Nat.zero_add, leValue] at r1 r2 r3 r4
  unfold readInstanceHeader
  rw [r1]
  simp only [Nat.one_mod, Nat.mul_zero, Nat.add_zero, ne_eq, not_true_eq_false, if_false]
  rw [r2]
  simp only
  rw [r3]
  simp only
  rw [r4]

/-- `ParseTemplateInstance` on the first instance of a template, which carries
the definition, when the instance has no arguments: the body is parsed by the
parser `P` in the context `bodyContext`, and the fixed pairs are printed. -/
theorem ParseTemplateInstance_define (env : Env) (buf : Buffer) (P : Parser)
    (ctx tc1 : ParseContext) (g g1 g2 : Globals) (t : TemplateDescription)
    (shortID B idx : Nat)
    (hid : shortID < 4294967296) (hBl : B < 4294967296)
    (hB : BytesAt buf (ctx.data + ctx.offset)
      (([1] ++ (le32 shortID ++ (le32 0 ++ le32 0))) ++ (List.replicate 16 0 ++ le32 B)))
    (hB2 : BytesAt buf (ctx.data + (ctx.offset + 1 + 4 + 4 + 4 + 16 + 4 + B)) (le32 0))
    (hlen : ctx.offset + 37 + B ≤ ctx.dataLen)
    (hunknown : IsKnownID shortID g = none)
    (hreg : RegisterID shortID g = (some idx, g1))
    (hP : P (bodyContext (ctx.data + (ctx.offset + 1 + 4 + 4 + 4 + 16 + 4)) B
        (ctx.offset + 1 + 4 + 4 + 4 + 16 + 4 + ctx.offsetFromChunkStart) idx ctx.data ctx.dataLen
        0 []) g1 = .done (true, tc1, g2))
    (ht : g2.templates.get? tc1.currentTemplateIdx = some t) :
    ParseTemplateInstance env buf P ctx g =
      .done (true,
        { ctx with
          offset := ctx.offset + 1 + 4 + 4 + 4 + 16 + 4 + B + 4
          currentTemplateIdx := tc1.currentTemplateIdx },
        printf (printFixedPairs env t.fixedRoot) g2) := by
  obtain ⟨h1, h2⟩ := BytesAt_append hB
  obtain ⟨h3, h4⟩ := BytesAt_append h2
  have l1 : ([1] ++ (le32 shortID ++ (le32 0 ++ le32 0))).length = 13 := rfl
  rw [l1] at h2 h3 h4
  simp only [List.length_replicate] at h4
  have r0 := readInstanceHeader_bytes buf ctx shortID 0 0 hid (by decide) h1 (by omega)
  have r1 := ReadData_bytes buf (List.replicate 16 0) { ctx with offset := ctx.offset + 1 + 4 + 4 + 4 }
    (by decide) (BytesAt_cast h3 (by simp only; omega)) (by
      simp only [List.length_replicate]
      omega)
  have r2 : ReadScalar buf 4 { ctx with offset := ctx.offset + 1 + 4 + 4 + 4 + 16 } = _ :=
    ReadScalar_bytesAt buf (le32 B) _ (BytesAt_cast h4 (by simp only; omega)) (by
      simp only [le32_length]
      omega)
  have r3 : ReadScalar buf 4
      { ctx with offset := ctx.offset + 1 + 4 + 4 + 4 + 16 + 4 + B } = _ :=
    ReadScalar_bytesAt buf (le32 0) _ hB2 (by
      simp only [le32_length]
      omega)
  rw [leValue_le32 _ hBl] at r2
  rw [leValue_le32 _ (by decide)] at r3
  simp only [List.length_replicate, le32_length] at r1 r2 r3
  unfold ParseTemplateInstance
  rw [r0]
  simp only
  rw [hunknown]
  simp only
  unfold parseTemplateDefinition
  rw [r1]
  simp only
  rw [r2]
  simp only
  rw [hreg]
  simp only
  have hP1 : P
      { chunkData := ctx.data, chunkDataLen := ctx.dataLen,
        data := ctx.data + (ctx.offset + 1 + 4 + 4 + 4 + 16 + 4), dataLen := B, offset := 0,
        offsetFromChunkStart := ctx.offset + 1 + 4 + 4 + 4 + 16 + 4 + ctx.offsetFromChunkStart,
        state := .StateNormal, currentTemplateIdx := idx, cachedValue := [] } g1 =
      .done (true, tc1, g2) := hP
  rw [hP1]
  simp only [SkipBytes]
  rw [r3]
  simp only
  unfold emitInstance
  simp only
  rw [ht]
  simp only
  have r4 : ReadData buf 2 (0 * 2 % 2 ^ 32)
      { ctx with
        offset := ctx.offset + 1 + 4 + 4 + 4 + 16 + 4 + B + 4
        currentTemplateIdx := tc1.currentTemplateIdx } =
      .done (some [],
        { ctx with
          offset := ctx.offset + 1 + 4 + 4 + 4 + 16 + 4 + B + 4
          currentTemplateIdx := tc1.currentTemplateIdx }) := by
    unfold ReadData HaveEnoughData
    rw [if_pos (by
      simp only [decide_eq_true_eq]
      omega)]
    rfl
  rw [r4]
  rfl

theorem fixedPairInstance_length (shortID : Nat) (N V : List Nat) :
    (fixedPairInstance shortID N V).length = 66 + 2 * N.length + 2 * V.length := by
  unfold fixedPairInstance instanceWithBody
  simp only [List.length_append, fixedPairBody_length, le32_length, List.length_replicate,
    List.length_cons, List.length_nil, List.map_nil, List.flatten_nil]
  omega

/-- Decoding `fixedPairInstance` from the initial state, over any buffer that
holds its bytes from index 0. -/
theorem fixedPairInstance_run (env : Env) (buf : Buffer) (k shortID : Nat) (N V : List Nat)
    (hN : IsAsciiText N) (hV : IsAsciiText V) (hne : N ≠ ascii "EventID")
    (hid : shortID < 4294967296)
    (hbuf : BytesAt buf 0 (fixedPairInstance shortID N V)) :
    ParseBinXmlPre env buf (k + 7) (66 + 2 * N.length + 2 * V.length) 0 initialGlobals =
      .done (true,
        contextAt (66 + 2 * N.length + 2 * V.length) (66 + 2 * N.length + 2 * V.length) 0
          .StateNormal,
        afterFixedPair shortID N V
          (fmtKey N ++ apostrophe ++ V ++ apostrophe ++ ascii ", ")) := by
  have hNl := hN.2
  have hVl := hV.2
  have hS : fixedPairInstance shortID N V =
      [12] ++ ((([1] ++ (le32 shortID ++ (le32 0 ++ le32 0))) ++
        (List.replicate 16 0 ++ le32 (28 + 2 * N.length + 2 * V.length))) ++
        (fixedPairBody 34 N V ++ le32 0)) := by
    unfold fixedPairInstance instanceWithBody
    rw [fixedPairBody_length]
    simp only [List.map_nil, List.flatten_nil, List.append_nil, List.append_assoc,
      List.cons_append, List.nil_append]
  rw [hS] at hbuf
  obtain ⟨a0, r0⟩ := BytesAt_append hbuf
  obtain ⟨aH, r1⟩ := BytesAt_append r0
  obtain ⟨aB, aE⟩ := BytesAt_append r1
  have lH : (([1] ++ (le32 shortID ++ (le32 0 ++ le32 0))) ++
      (List.replicate 16 0 ++ le32 (28 + 2 * N.length + 2 * V.length))).length = 33 := rfl
  rw [lH] at aB aE
  rw [fixedPairBody_length] at aE
  simp only [List.length_cons, List.length_nil, Nat.zero_add] at aH aB aE
  have hrun := fixedPairBody_run env buf k 34 34 0 0 (66 + 2 * N.length + 2 * V.length)
    (RegisterID shortID initialGlobals).2
    { shortID := shortID, fixedRoot := [], argsRoot := [] } N V hN hV (by decide) aB rfl rfl
  have hdef := ParseTemplateInstance_define env buf
    (fun c g0 => ParseBinXmlLoop env buf (k + 6) { c with state := .StateNormal } g0)
    (contextAt (66 + 2 * N.length + 2 * V.length) (0 + 1) INVALID_TEMPLATE_IDX .StateNormal)
    _ initialGlobals (RegisterID shortID initialGlobals).2 _
    { shortID := shortID, fixedRoot := [{ key := N, value := V }], argsRoot := [] }
    shortID (28 + 2 * N.length + 2 * V.length) 0 hid (by omega)
    (BytesAt_cast aH (by simp only [contextAt]))
    (BytesAt_cast aE (by simp only [contextAt]; omega))
    (by simp only [contextAt]; omega) rfl rfl hrun rfl
  have s1 := ParseBinXmlLoop_step env buf (k + 6)
    (contextAt (66 + 2 * N.length + 2 * V.length) 0 INVALID_TEMPLATE_IDX .StateNormal) _
    initialGlobals _ 12 (by simp only [contextAt]; omega) (BytesAt_single a0) hdef
  unfold ParseBinXmlPre ParseBinXml
  show ParseBinXmlLoop env buf (k + 6 + 1)
    (contextAt (66 + 2 * N.length + 2 * V.length) 0 INVALID_TEMPLATE_IDX .StateNormal)
    initialGlobals = _
  rw [s1, show k + 6 = k + 5 + 1 by rfl,
    ParseBinXmlLoop_end _ _ _ _ _ (by simp only [contextAt, bodyContext]; omega)]
  simp only [contextAt, bodyContext, afterFixedPair, printf, printFixedPairs, printFixedPair,
    List.map_cons, List.map_nil, List.flatten_cons, List.flatten_nil, List.append_nil,
    if_neg hne, Run.done.injEq, Prod.mk.injEq, true_and, ParseContext.mk.injEq,
    Globals.mk.injEq, and_true]
  exact ⟨by omega, rfl, rfl, rfl, rfl, rfl⟩

theorem BytesAt_whole (bytes : List Nat) : BytesAt (bufferOf bytes) 0 bytes := by
  intro i _
  rw [Nat.zero_add]
  rfl

/-- Claim C13.  Let `N` and `V` be texts of at most 127 ASCII characters other
than NUL, `N` not `EventID`.  From the initial state (empty name stack, empty
registry), decoding the template instance whose body is OpenStartElement with
the name `N` stored in place, CloseStartElement, ValueText `V`, CloseElement,
EOF, and whose argument count is 0, returns `true` with any fuel of 7 or more,
at the end of the stream; template 0 then holds exactly the fixed pair
`(N, V)` and no argument pair, every other template is as before, the name
stack is empty, and the text printed is exactly `'N':'V'` followed by a comma
and a space.  For `Computer` and `HOST` that text contains
`'Computer':'HOST'`. -/
theorem C13_single_fixed_pair (env : Env) (k shortID : Nat) (N V : List Nat)
    (hN : IsAsciiText N) (hV : IsAsciiText V) (hne : N ≠ ascii "EventID")
    (hid : shortID < 4294967296) :
    ParseBinXmlPre env (bufferOf (fixedPairInstance shortID N V)) (k + 7)
        (fixedPairInstance shortID N V).length 0 initialGlobals =
      .done (true,
        contextAt (fixedPairInstance shortID N V).length (fixedPairInstance shortID N V).length 0
          .StateNormal,
        afterFixedPair shortID N V (ascii "'" ++ N ++ ascii "':'" ++ V ++ ascii "', ")) ∧
    ascii "'Computer':'HOST'" <:+:
      ascii "'" ++ ascii "Computer" ++ ascii "':'" ++ ascii "HOST" ++ ascii "', " := by
  refine ⟨?_, by decide⟩
  have e1 : ascii "'" = [39] := by decide
  have e2 : ascii "':'" = [39, 58, 39] := by decide
  have e3 : ascii "', " = [39, 44, 32] := by decide
  have e4 : ascii ", " = [44, 32] := by decide
  have et : ascii "'" ++ N ++ ascii "':'" ++ V ++ ascii "', " =
      fmtKey N ++ apostrophe ++ V ++ apostrophe ++ ascii ", " := by
    rw [e1, e2, e3, e4]
    simp [fmtKey, apostrophe]
  rw [fixedPairInstance_length, et]
  exact fixedPairInstance_run env _ k shortID N V hN hV hne hid (BytesAt_whole _)

/-- Witness of C13: the element `Computer` with the text `HOST`, template 7. -/
theorem C13_single_fixed_pair_witness :
    IsAsciiText (ascii "Computer") ∧ IsAsciiText (ascii "HOST") ∧
    ascii "Computer" ≠ ascii "EventID" ∧ 7 < 4294967296 ∧
    stdoutOf (ParseBinXmlPre (envWith 0)
      (bufferOf (fixedPairInstance 7 (ascii "Computer") (ascii "HOST"))) 7
      (fixedPairInstance 7 (ascii "Computer") (ascii "HOST")).length 0 initialGlobals) =
      some (ascii "'Computer':'HOST', ") := by
  have h1 : IsAsciiText (ascii "Computer") := by
    unfold IsAsciiText
    decide
  have h2 : IsAsciiText (ascii "HOST") := by
    unfold IsAsciiText
    decide
  refine ⟨h1, h2, by decide, by decide, ?_⟩
  rw [(C13_single_fixed_pair (envWith 0) 0 7 (ascii "Computer") (ascii "HOST") h1 h2
    (by decide) (by decide)).1]
  decide

/-! ## C23: the bounds-checked read -/

theorem bytesFrom_length (buf : Buffer) (addr n : Nat) : (bytesFrom buf addr n).length = n := by
  simp [bytesFrom]

theorem BytesAt_bytesFrom (buf : Buffer) (addr n : Nat)
    (h : ∀ i, i < n → ∃ b, buf (addr + i) = some b) : BytesAt buf addr (bytesFrom buf addr n) := by
  intro i hi
  rw [bytesFrom_length] at hi
  obtain ⟨b, hb⟩ := h i hi
  simp only [bytesFrom, List.get?_eq_getElem?, List.getElem?_map, List.getElem?_range hi,
    Option.map_some', hb, Option.getD_some]

theorem ReadDataLoop_valid (buf : Buffer) (s : Nat) :
    ∀ (c : Nat) (ctx : ParseContext),
      (∀ i, i < s * c → ∃ b, buf (ctx.data + ctx.offset + i) = some b) →
      ReadDataLoop buf s c ctx =
        .done ((List.range c).map
            (fun i => leValue (bytesFrom buf (ctx.data + ctx.offset + s * i) s)),
          { ctx with offset := ctx.offset + s * c }) := by
  intro c
  induction c with
  | zero => intro ctx _; simp [ReadDataLoop]
  | succ n ih =>
    intro ctx h
    have h0 : BytesAt buf (ctx.data + ctx.offset) (bytesFrom buf (ctx.data + ctx.offset) s) :=
      BytesAt_bytesFrom buf _ s (fun i hi => h i (by
        have : s ≤ s * (n + 1) := Nat.le_mul_of_pos_right s (by omega)
        omega))
    have hl := loadLE_bytesAt buf _ _ h0
    rw [bytesFrom_length] at hl
    have ht := ih { ctx with offset := ctx.offset + s } (fun i hi => by
      obtain ⟨b, hb⟩ := h (s + i) (by rw [Nat.mul_succ]; omega)
      exact ⟨b, by rw [← hb]; congr 1; simp only; omega⟩)
    rw [ReadDataLoop, hl]
    simp only
    rw [ht, List.range_succ_eq_map, List.map_cons, List.map_map]
    simp only [Nat.mul_zero, Nat.add_zero, Run.done.injEq, Prod.mk.injEq, List.cons.injEq,
      true_and, ParseContext.mk.injEq, and_true]
    constructor
    · apply List.map_congr_left
      intro i _
      simp only [Function.comp, Nat.mul_succ]
      congr 2
      omega
    · rw [Nat.mul_succ]
      omega

/-- Claim C23.  For a context whose byte range lies inside the buffer, every
element width `s` (1, 2, 4 and 8 among them) and every count `c`: `ReadData`
returns `true` if and only if `offset + s * c ≤ dataLen`.  It then
stores `c` elements, element `i` being the little-endian value of the `s` bytes
at `offset + s * i`, and adds `s * c` to the offset.  Otherwise it returns
`false`, stores nothing and leaves the context as it was. -/
theorem C23_ReadData_bounds (buf : Buffer) (ctx : ParseContext) (s c : Nat)
    (hin : InBuffer buf ctx) :
    (ctx.offset + s * c ≤ ctx.dataLen →
      ReadData buf s c ctx =
        .done (some ((List.range c).map
            (fun i => leValue (bytesFrom buf (ctx.data + ctx.offset + s * i) s))),
          { ctx with offset := ctx.offset + s * c }) ∧
      ∀ i, i < c → BytesAt buf (ctx.data + ctx.offset + s * i)
        (bytesFrom buf (ctx.data + ctx.offset + s * i) s)) ∧
    (¬ ctx.offset + s * c ≤ ctx.dataLen → ReadData buf s c ctx = .done (none, ctx)) ∧
    ((∃ vs ctx1, ReadData buf s c ctx = .done (some vs, ctx1)) ↔
      ctx.offset + s * c ≤ ctx.dataLen) := by
  have hvalid : ctx.offset + s * c ≤ ctx.dataLen →
      ∀ i, i < s * c → ∃ b, buf (ctx.data + ctx.offset + i) = some b := by
    intro hle i hi
    obtain ⟨b, hb⟩ := hin (ctx.offset + i) (by omega)
    exact ⟨b, by rw [← hb, Nat.add_assoc]⟩
  have hyes : ctx.offset + s * c ≤ ctx.dataLen →
      ReadData buf s c ctx =
        .done (some ((List.range c).map
            (fun i => leValue (bytesFrom buf (ctx.data + ctx.offset + s * i) s))),
          { ctx with offset := ctx.offset + s * c }) := by
    intro hle
    unfold ReadData HaveEnoughData
    rw [if_pos (by simpa using hle), ReadDataLoop_valid buf s c ctx (hvalid hle)]
  have hno : ¬ ctx.offset + s * c ≤ ctx.dataLen → ReadData buf s c ctx = .done (none, ctx) := by
    intro hle
    unfold ReadData HaveEnoughData
    rw [if_neg (by simpa using hle)]
  refine ⟨fun hle => ⟨hyes hle, ?_⟩, hno, ?_⟩
  · intro i hi
    apply BytesAt_bytesFrom
    intro j hj
    have h1 : s * i + s ≤ s * c := by
      rw [← Nat.mul_succ]
      exact Nat.mul_le_mul_left s hi
    obtain ⟨b, hb⟩ := hvalid hle (s * i + j) (by omega)
    exact ⟨b, by rw [← hb, Nat.add_assoc]⟩
  · constructor
    · rintro ⟨vs, ctx1, h⟩
      by_contra hle
      rw [hno hle] at h
      simp at h
    · intro hle
      exact ⟨_, _, hyes hle⟩

/-- Witness of C23: two 16-bit elements read from four bytes. -/
theorem C23_ReadData_bounds_witness :
    InBuffer (bufferOf [1, 2, 3, 4]) (contextAt 4 0 0 .StateNormal) ∧
    ReadData (bufferOf [1, 2, 3, 4]) 2 2 (contextAt 4 0 0 .StateNormal) =
      .done (some [513, 1027], contextAt 4 4 0 .StateNormal) ∧
    ReadData (bufferOf [1, 2, 3, 4]) 2 3 (contextAt 4 0 0 .StateNormal) =
      .done (none, contextAt 4 0 0 .StateNormal) := by
  have hin : InBuffer (bufferOf [1, 2, 3, 4]) (contextAt 4 0 0 .StateNormal) := by
    intro i hi
    have h4 : i < 4 := hi
    have : i = 0 ∨ i = 1 ∨ i = 2 ∨ i = 3 := by omega
    rcases this with h | h | h | h <;> subst h <;> exact ⟨_, rfl⟩
  have h1 := C23_ReadData_bounds (bufferOf [1, 2, 3, 4]) (contextAt 4 0 0 .StateNormal) 2 2 hin
  have h2 := C23_ReadData_bounds (bufferOf [1, 2, 3, 4]) (contextAt 4 0 0 .StateNormal) 2 3 hin
  refine ⟨hin, ?_, ?_⟩
  · rw [(h1.1 (by decide)).1]
    decide
  · rw [h2.2.1 (by decide)]

/-! ## C22: the cursor after `ReadName` -/

theorem readCharsLoop_count (buf : Buffer) (size : Nat) :
    ∀ (remaining idx : Nat) (ctx : ParseContext) (nb : List Nat) (idx1 : Nat) (b : List Nat)
      (ctx1 : ParseContext),
      readCharsLoop buf size remaining idx ctx nb = .done (some (idx1, b), ctx1) →
      idx ≤ idx1 ∧ idx1 ≤ idx + remaining ∧
        ctx1 = { ctx with offset := ctx.offset + 2 * (idx1 - idx) } := by
  intro remaining
  induction remaining with
  | zero =>
    intro idx ctx nb idx1 b ctx1 h
    simp only [readCharsLoop, Run.done.injEq, Prod.mk.injEq, Option.some.injEq] at h
    obtain ⟨⟨rfl, -⟩, rfl⟩ := h
    simp
  | succ k ih =>
    intro idx ctx nb idx1 b ctx1 h
    unfold readCharsLoop at h
    split at h
    · split at h
      · rename_i w c1 h1
        have e1 := (ReadScalar_some _ _ _ _ _ h1).1
        obtain ⟨a1, a2, a3⟩ := ih _ _ _ _ _ _ h
        refine ⟨by omega, by omega, ?_⟩
        rw [a3, e1]
        simp only [ParseContext.mk.injEq, and_true, true_and]
        omega
      · simp at h
      · simp at h
      · simp at h
    · simp only [Run.done.injEq, Prod.mk.injEq, Option.some.injEq] at h
      obtain ⟨⟨rfl, -⟩, rfl⟩ := h
      simp

/-- A successful `ReadPrefixedUnicodeString` moves the cursor over the count,
all the characters that the count announces and the terminator, whatever the
size of the output buffer. -/
theorem ReadPrefixedUnicodeString_cursor (buf : Buffer) (ctx ctx1 : ParseContext) (size : Nat)
    (isNullTerminated : Bool) (text : List Nat)
    (h : ReadPrefixedUnicodeString buf ctx size isNullTerminated = .done (some text, ctx1)) :
    ∃ n, ReadScalar buf 2 ctx = .done (some n, { ctx with offset := ctx.offset + 2 }) ∧
      ctx1 = { ctx with
        offset := ctx.offset + 2 + 2 * n + (if isNullTerminated then 2 else 0) } := by
  unfold ReadPrefixedUnicodeString at h
  split at h
  · rename_i n c1 h1
    have e1 := (ReadScalar_some _ _ _ _ _ h1).1
    split at h
    · rename_i idx nb c2 h2
      obtain ⟨-, a2, a3⟩ := readCharsLoop_count _ _ _ _ _ _ _ _ _ h2
      simp only [Run.done.injEq, Prod.mk.injEq, Option.some.injEq] at h
      obtain ⟨-, rfl⟩ := h
      refine ⟨n, by rw [h1, e1], ?_⟩
      rw [a3, e1]
      unfold SkipBytes
      simp only [Nat.zero_add, Nat.sub_zero, ParseContext.mk.injEq, and_true, true_and]
      rw [Nat.zero_add] at a2
      cases isNullTerminated
      · simp only [Bool.false_eq_true, if_false, Nat.add_zero]
        rw [Nat.sub_mul]
        have : idx * 2 ≤ n * 2 := Nat.mul_le_mul_right 2 a2
        omega
      · simp only [if_true]
        rw [Nat.add_mul, Nat.sub_mul]
        have : idx * 2 ≤ n * 2 := Nat.mul_le_mul_right 2 a2
        omega
    · simp at h
    · simp at h
    · simp at h
  · simp at h
  · simp at h
  · simp at h

/-- Claim C22.  For every successful `ReadName`, with `chunkOffset` the 32-bit
value read first: when `chunkOffset` differs from the cursor position in chunk
coordinates right after that read, the context returned is the context before
the call with 4 added to its offset; when it is equal, the context returned is
the context before the call with `14 + 2 * n` added to its offset, `n` being
the 16-bit character count stored 10 bytes after the start of the name.  This
holds for every size of the output buffer, so also when the name is cut. -/
theorem C22_ReadName_cursor (buf : Buffer) (ctx ctx1 : ParseContext) (size : Nat)
    (name : List Nat) (h : ReadName buf ctx size = .done (some name, ctx1)) :
    ∃ chunkOffset,
      ReadScalar buf 4 ctx = .done (some chunkOffset, { ctx with offset := ctx.offset + 4 }) ∧
      (ctx.offset + 4 + ctx.offsetFromChunkStart ≠ chunkOffset →
        ctx1 = { ctx with offset := ctx.offset + 4 }) ∧
      (ctx.offset + 4 + ctx.offsetFromChunkStart = chunkOffset →
        ∃ n, ReadScalar buf 2 { ctx with offset := ctx.offset + 10 } =
            .done (some n, { ctx with offset := ctx.offset + 12 }) ∧
          ctx1 = { ctx with offset := ctx.offset + 14 + 2 * n }) := by
  unfold ReadName at h
  split at h
  · simp at h
  · split at h
    · rename_i chunkOffset c1 h1
      have e1 := (ReadScalar_some _ _ _ _ _ h1).1
      subst e1
      refine ⟨chunkOffset, h1, ?_, ?_⟩
      · intro hne
        rw [if_pos hne] at h
        simp only at h
        split at h
        · simp only [Run.done.injEq, Prod.mk.injEq] at h
          exact h.2.symm
        · simp at h
        · simp at h
      · intro heq
        rw [if_neg (by simpa using heq)] at h
        unfold readNameBody at h
        split at h
        · rename_i d c2 h2
          have e2 := (ReadScalar_some _ _ _ _ _ h2).1
          subst e2
          split at h
          · rename_i hash c3 h3
            have e3 := (ReadScalar_some _ _ _ _ _ h3).1
            subst e3
            obtain ⟨n, hn, hc⟩ := ReadPrefixedUnicodeString_cursor _ _ _ _ _ _ h
            refine ⟨n, ?_, ?_⟩
            · rw [← hn]
            · rw [hc]
              simp only [if_true, ParseContext.mk.injEq, and_true, true_and]
              omega
          · simp at h
          · simp at h
          · simp at h
        · simp at h
        · simp at h
        · simp at h
    · simp at h
    · simp at h
    · simp at h

/-- Witness of C22: the name `AB` stored in place and read into a buffer of two
bytes, which has room for one character: the cursor moves by `14 + 2 * 2`. -/
theorem C22_ReadName_cursor_witness :
    ReadName (bufferOf (attributeToken 0 (ascii "AB"))) (contextAt 19 1 0 .StateNormal) 2 =
      .done (some (ascii "A"), contextAt 19 19 0 .StateNormal) ∧
    ∃ chunkOffset,
      ReadScalar (bufferOf (attributeToken 0 (ascii "AB"))) 4 (contextAt 19 1 0 .StateNormal) =
        .done (some chunkOffset, contextAt 19 5 0 .StateNormal) ∧
      (1 + 4 + 0 = chunkOffset →
        ∃ n, ReadScalar (bufferOf (attributeToken 0 (ascii "AB"))) 2
            (contextAt 19 11 0 .StateNormal) = .done (some n, contextAt 19 13 0 .StateNormal) ∧
          contextAt 19 19 0 .StateNormal = contextAt 19 (1 + 14 + 2 * n) 0 .StateNormal) := by
  have hr : ReadName (bufferOf (attributeToken 0 (ascii "AB"))) (contextAt 19 1 0 .StateNormal) 2 =
      .done (some (ascii "A"), contextAt 19 19 0 .StateNormal) := by decide
  obtain ⟨chunkOffset, h1, -, h3⟩ := C22_ReadName_cursor _ _ _ _ _ hr
  exact ⟨hr, chunkOffset, h1, h3⟩

/-! ## C21: a name that cannot be read -/

/-- Claim C21, counterexample.  The name reference of the first token of each
stream points past the end of the stream, so `ReadName` returns `false`.  The
handler returns `false` too, no name is pushed, and `ParseBinXml` returns
`false` with the cursor right after the reference: the EOF token that follows
is not reached. -/
theorem C21_counterexample :
    resultAndOffset (ParseBinXmlPre (envWith 0) (bufferOf elementWithLostName) 3
      elementWithLostName.length 0 initialGlobals) = some (false, 11) ∧
    nameStackOf (ParseBinXmlPre (envWith 0) (bufferOf elementWithLostName) 3
      elementWithLostName.length 0 initialGlobals) = some [] ∧
    resultAndOffset (ParseBinXmlPre (envWith 0) (bufferOf attributeWithLostName) 3
      attributeWithLostName.length 0 initialGlobals) = some (false, 5) ∧
    nameStackOf (ParseBinXmlPre (envWith 0) (bufferOf attributeWithLostName) 3
      attributeWithLostName.length 0 initialGlobals) = some [] := by
  decide

/-- Claim C21, amended.  When the name read inside an Attribute token or an
OpenStartElement token returns `false`, the token loop of `ParseBinXml` stops at
that token and returns `false`; no name is pushed and the decoder variables are
as before the token. -/
theorem C21_name_failure_aborts (env : Env) (buf : Buffer) (fuel : Nat) (ctx : ParseContext)
    (g : Globals) (b : Nat)
    (hlt : ctx.offset < ctx.dataLen) (hb : buf (ctx.data + ctx.offset) = some b) :
    (b % 256 = 6 ∨ b % 256 = 70 → ∀ c1 : ParseContext,
      ReadName buf { ctx with offset := ctx.offset + 1 } 256 = .done (none, c1) →
      ParseAttributes buf { ctx with offset := ctx.offset + 1 } g = .done (false, c1, g) ∧
      ParseBinXmlLoop env buf (fuel + 1) ctx g = .done (false, c1, g)) ∧
    (b % 256 = 1 ∨ b % 256 = 65 → ∀ (w len : Nat) (c1 c2 c3 : ParseContext),
      ReadScalar buf 2 { ctx with offset := ctx.offset + 1 } = .done (some w, c1) →
      ReadScalar buf 4 c1 = .done (some len, c2) →
      ReadName buf c2 256 = .done (none, c3) →
      ParseOpenStartElement buf { ctx with offset := ctx.offset + 1 } (decide (b % 256 = 65)) g =
        .done (false, c3, g) ∧
      ParseBinXmlLoop env buf (fuel + 1) ctx g = .done (false, c3, g)) := by
  constructor
  · intro ht c1 hn
    have ha : ParseAttributes buf { ctx with offset := ctx.offset + 1 } g = .done (false, c1, g) := by
      unfold ParseAttributes
      rw [hn]
    refine ⟨ha, ?_⟩
    rw [ParseBinXmlLoop, if_pos hlt, hb]
    simp only
    have hd : dispatchToken env buf
        (fun c g0 => ParseBinXmlLoop env buf fuel { c with state := .StateNormal } g0)
        (b % 256) { ctx with offset := ctx.offset + 1 } g = .done (false, c1, g) := by
      rw [← ha]
      rcases ht with ht | ht <;> rw [ht] <;> rfl
    rw [hd]
  · intro ht w len c1 c2 c3 h1 h2 hn
    have ha : ∀ hasAttributes : Bool,
        ParseOpenStartElement buf { ctx with offset := ctx.offset + 1 } hasAttributes g =
          .done (false, c3, g) := by
      intro hasAttributes
      unfold ParseOpenStartElement
      rw [h1]
      simp only
      rw [h2]
      simp only
      rw [hn]
    refine ⟨ha _, ?_⟩
    rw [ParseBinXmlLoop, if_pos hlt, hb]
    simp only
    have hd : dispatchToken env buf
        (fun c g0 => ParseBinXmlLoop env buf fuel { c with state := .StateNormal } g0)
        (b % 256) { ctx with offset := ctx.offset + 1 } g = .done (false, c3, g) := by
      rcases ht with ht | ht
      · rw [ht, ← ha false]
        rfl
      · rw [ht, ← ha true]
        rfl
    rw [hd]

/-- Witness of C21: the Attribute token of `attributeWithLostName`. -/
theorem C21_name_failure_aborts_witness :
    (contextAt 6 0 0 .StateNormal).offset < (contextAt 6 0 0 .StateNormal).dataLen ∧
    bufferOf attributeWithLostName 0 = some 6 ∧
    ReadName (bufferOf attributeWithLostName) (contextAt 6 1 0 .StateNormal) 256 =
      .done (none, contextAt 6 5 0 .StateNormal) ∧
    ParseBinXmlLoop (envWith 0) (bufferOf attributeWithLostName) 1 (contextAt 6 0 0 .StateNormal)
      initialGlobals = .done (false, contextAt 6 5 0 .StateNormal, initialGlobals) := by
  have hn : ReadName (bufferOf attributeWithLostName) (contextAt 6 1 0 .StateNormal) 256 =
      .done (none, contextAt 6 5 0 .StateNormal) := by decide
  exact ⟨by decide, rfl, hn,
    ((C21_name_failure_aborts (envWith 0) (bufferOf attributeWithLostName) 0
      (contextAt 6 0 0 .StateNormal) initialGlobals 6 (by decide) rfl).1 (Or.inl rfl) _ hn).2⟩

/-! ## C25: truncation of strings -/

/-- Claim C25, counterexample.  With a capacity of 4 bytes the ASCII string
`abc` (3 code units, 3 bytes of UTF-8, which fit in `cap - 1` bytes) comes back
as `ab`: the loop converts at most `cap / 2` code units.  With a capacity of 6
bytes the units `20AC 20AC 0041` come back as `E2 82 AC 41`: the second unit
does not fit and is left out, the third one fits and is kept, so the text is
not the conversion of a prefix. -/
theorem C25_counterexample :
    ReadPrefixedUnicodeString (bufferOf (prefixedString (ascii "abc")))
      (contextAt 8 0 0 .StateNormal) 4 false =
      .done (some (ascii "ab"), contextAt 8 8 0 .StateNormal) ∧
    (ascii "abc").length ≤ 4 - 1 ∧
    ReadPrefixedUnicodeString (bufferOf (prefixedString [0x20AC, 0x20AC, 0x41]))
      (contextAt 8 0 0 .StateNormal) 6 false =
      .done (some [0xE2, 0x82, 0xAC, 0x41], contextAt 8 8 0 .StateNormal) := by
  decide

theorem keepFitting_length (cap : Nat) :
    ∀ (ws acc : List Nat), acc.length < cap → (keepFitting cap ws acc).length < cap := by
  intro ws
  induction ws with
  | nil => intro acc h; exact h
  | cons w t ih =>
    intro acc h
    unfold keepFitting
    apply ih
    split
    · rename_i hf
      rw [List.length_append]
      exact hf
    · exact h

theorem keepFitting_ascii (cap : Nat) :
    ∀ (ws acc : List Nat), (∀ w ∈ ws, w ≤ 127) → acc.length + ws.length < cap →
      keepFitting cap ws acc = acc ++ ws := by
  intro ws
  induction ws with
  | nil => intro acc _ _; simp [keepFitting]
  | cons w t ih =>
    intro acc hw hl
    have h1 : utf8Canonical w = [w] := by
      unfold utf8Canonical
      rw [if_pos (by have := hw w (by simp); omega)]
    rw [List.length_cons] at hl
    unfold keepFitting
    rw [h1, if_pos (by simp only [List.length_singleton]; omega),
      ih _ (fun x hx => hw x (by simp [hx])) (by
        rw [List.length_append, List.length_singleton]
        omega)]
    simp

theorem readCharsLoop_fitting (buf : Buffer) (cap : Nat) (hcap : 1 ≤ cap) :
    ∀ (rest : List Nat) (idx : Nat) (ctx : ParseContext) (acc : List Nat),
      (∀ w ∈ rest, w ≤ 0xFFFF) →
      BytesAt buf (ctx.data + ctx.offset) (rest.map le16).flatten →
      ctx.offset + 2 * rest.length ≤ ctx.dataLen →
      readCharsLoop buf cap rest.length idx ctx acc =
        .done (some (idx + min rest.length (cap / 2 - idx),
            keepFitting cap (rest.take (cap / 2 - idx)) acc),
          { ctx with offset := ctx.offset + 2 * min rest.length (cap / 2 - idx) }) := by
  intro rest
  induction rest with
  | nil =>
    intro idx ctx acc _ _ _
    simp [readCharsLoop, keepFitting]
  | cons w t ih =>
    intro idx ctx acc hw hB hlen
    rw [List.map_cons, List.flatten_cons] at hB
    obtain ⟨h1, h2⟩ := BytesAt_append hB
    rw [List.length_cons] at hlen
    rw [List.length_cons]
    unfold readCharsLoop
    by_cases hi : idx * 2 < cap - 1
    · have hi2 : idx < cap / 2 := by omega
      obtain ⟨m, hm⟩ : ∃ m, cap / 2 - idx = m + 1 := ⟨cap / 2 - idx - 1, by omega⟩
      have hlen1 : ctx.offset + (le16 w).length ≤ ctx.dataLen := by
        simp only [le16, List.length_cons, List.length_nil]
        omega
      have r : ReadScalar buf 2 ctx = _ := ReadScalar_bytesAt buf (le16 w) ctx h1 hlen1
      have hw1 : w ≤ 0xFFFF := hw w (by simp)
      rw [leValue_le16 w (by omega)] at r
      have ht := ih (idx + 1) { ctx with offset := ctx.offset + (le16 w).length }
        (UTF16ToUTF8 w acc cap) (fun x hx => hw x (by simp [hx]))
        (by simpa [Nat.add_assoc] using h2)
        (by
          simp only [le16, List.length_cons, List.length_nil]
          omega)
      have hm1 : cap / 2 - (idx + 1) = m := by omega
      rw [if_pos hi, r]
      simp only
      rw [ht, hm, hm1, List.take_succ_cons, keepFitting, UTF16ToUTF8_eq w acc cap hw1]
      simp only [le16, List.length_cons, List.length_nil, Run.done.injEq, Prod.mk.injEq,
        Option.some.injEq, ParseContext.mk.injEq, and_true, true_and]
      omega
    · have hz : cap / 2 - idx = 0 := by omega
      rw [if_neg hi, hz]
      simp [keepFitting]

/-- Claim C25, amended.  For a length-prefixed string of 16-bit code units `ws`
whose bytes are available and a capacity `cap ≥ 2`, `ReadPrefixedUnicodeString`
returns `true`, moves the cursor over the whole string, and its text has fewer
than `cap` bytes: it is made of the first `cap / 2` code units at most, each
appended in its canonical UTF-8 encoding when a byte then stays free for the
terminator, and left out otherwise.  An all-ASCII string with `2 * n ≤ cap` is
returned whole. -/
theorem C25_truncation_policy (buf : Buffer) (ctx : ParseContext) (ws : List Nat) (cap : Nat)
    (isNullTerminated : Bool)
    (hcap : 2 ≤ cap) (hw : ∀ w ∈ ws, w ≤ 0xFFFF) (hn : ws.length ≤ 0xFFFF)
    (hB : BytesAt buf (ctx.data + ctx.offset) (prefixedString ws))
    (hlen : ctx.offset + 2 + 2 * ws.length ≤ ctx.dataLen) :
    ReadPrefixedUnicodeString buf ctx cap isNullTerminated =
      .done (some (keepFitting cap (ws.take (cap / 2)) []),
        { ctx with offset := ctx.offset + 2 + 2 * ws.length +
            (if isNullTerminated then 2 else 0) }) ∧
    (keepFitting cap (ws.take (cap / 2)) []).length < cap ∧
    ((∀ w ∈ ws, w ≤ 127) → 2 * ws.length ≤ cap →
      keepFitting cap (ws.take (cap / 2)) [] = ws) := by
  have hk : (keepFitting cap (ws.take (cap / 2)) []).length < cap :=
    keepFitting_length cap _ [] (by rw [List.length_nil]; omega)
  refine ⟨?_, hk, ?_⟩
  · unfold prefixedString at hB
    obtain ⟨h1, h2⟩ := BytesAt_append hB
    have hlen1 : ctx.offset + (le16 ws.length).length ≤ ctx.dataLen := by
      simp only [le16, List.length_cons, List.length_nil]
      omega
    have r : ReadScalar buf 2 ctx = _ := ReadScalar_bytesAt buf (le16 ws.length) ctx h1 hlen1
    rw [leValue_le16 _ (by omega)] at r
    have hl := readCharsLoop_fitting buf cap (by omega) ws 0
      { ctx with offset := ctx.offset + (le16 ws.length).length } [] hw
      (by simpa [Nat.add_assoc] using h2)
      (by
        simp only [le16, List.length_cons, List.length_nil]
        omega)
    rw [Nat.sub_zero, Nat.zero_add] at hl
    unfold ReadPrefixedUnicodeString
    rw [r]
    simp only
    rw [hl]
    simp only
    rw [if_neg (by omega), List.take_length]
    unfold SkipBytes
    simp only [le16, List.length_cons, List.length_nil, Nat.zero_add, Run.done.injEq,
      Prod.mk.injEq, true_and, ParseContext.mk.injEq, and_true]
    cases isNullTerminated
    · simp only [Bool.false_eq_true, if_false, Nat.add_zero]
      rw [Nat.sub_mul]
      have := Nat.min_le_left ws.length (cap / 2)
      omega
    · simp only [if_true]
      rw [Nat.add_mul, Nat.sub_mul]
      have := Nat.min_le_left ws.length (cap / 2)
      omega
  · intro ha hl
    rw [List.take_of_length_le (by omega), keepFitting_ascii cap ws [] ha (by
      rw [List.length_nil]
      omega)]
    rfl

/-- Witness of C25: the string `abc` and a capacity of 6 bytes. -/
theorem C25_truncation_policy_witness :
    (2 ≤ 6) ∧ (∀ w ∈ ascii "abc", w ≤ 0xFFFF) ∧ (ascii "abc").length ≤ 0xFFFF ∧
    BytesAt (bufferOf (prefixedString (ascii "abc"))) 0 (prefixedString (ascii "abc")) ∧
    ReadPrefixedUnicodeString (bufferOf (prefixedString (ascii "abc")))
      (contextAt 8 0 0 .StateNormal) 6 true =
      .done (some (ascii "abc"), contextAt 8 10 0 .StateNormal) := by
  have hB := BytesAt_whole (prefixedString (ascii "abc"))
  have h := C25_truncation_policy (bufferOf (prefixedString (ascii "abc")))
    (contextAt 8 0 0 .StateNormal) (ascii "abc") 6 true (by decide) (by decide) (by decide) hB
    (by decide)
  refine ⟨by decide, by decide, by decide, hB, ?_⟩
  rw [h.1]
  decide

/-! ## C24: the base of a name reference -/

/-- Claim C24, the divergence.  The chunk `nestedBodiesChunk` stores the name
`A` at chunk offset 57.  The element at the top level of the stream, whose name
is the reference 57, gets the name `A`.  The element in the body of template 8,
which is defined inside the body of template 7, has the same reference 57 and
gets the name `B`: `ReadName` there copies `*ctx->chunkContext`, the context of
the body of template 7, whose `data` is the start of that body (chunk offset
114), and reads the name at chunk offset `114 + 57`.  At the end of the run
the name stack holds `B` on top of `A`, and the pair printed is `'B':'v'`. -/
theorem C24_reference_read_in_enclosing_body :
    BytesAt (bufferOf nestedBodiesChunk) 57 (nameRecord (ascii "A")) ∧
    BytesAt (bufferOf nestedBodiesChunk) (114 + 57) (nameRecord (ascii "B")) ∧
    ReadName (bufferOf nestedBodiesChunk)
      (contextAt nestedBodiesChunk.length 76 INVALID_TEMPLATE_IDX .StateNormal) 256 =
      .done (some (ascii "A"),
        contextAt nestedBodiesChunk.length 80 INVALID_TEMPLATE_IDX .StateNormal) ∧
    ReadName (bufferOf nestedBodiesChunk)
      (bodyContext 148 innerBody.length 148 1 114 outerBody.length 7 []) 256 =
      .done (some (ascii "B"), bodyContext 148 innerBody.length 148 1 114 outerBody.length 11 []) ∧
    nameStackOf (ParseBinXmlPre (envWith 0) (bufferOf nestedBodiesChunk) 8
      nestedBodiesChunk.length 69 initialGlobals) = some [ascii "B", ascii "A"] ∧
    stdoutOf (ParseBinXmlPre (envWith 0) (bufferOf nestedBodiesChunk) 8
      nestedBodiesChunk.length 69 initialGlobals) = some (ascii "'B':'v', 'B':'v', ") := by
  refine ⟨?_, ?_, by decide, by decide, by decide, by decide⟩
  · unfold BytesAt
    decide
  · unfold BytesAt
    decide

/-! ## C26: a template whose definition fails -/

theorem RegistryKept_same (g : Globals) : RegistryKept g g :=
  ⟨Nat.le_refl _, rfl, fun _ _ => rfl,
    fun _ t h => ⟨t, h, List.suffix_refl _, List.suffix_refl _⟩⟩

theorem RegistryKept_templates (g : Globals) (idx : Nat) (t t1 : TemplateDescription)
    (ht : g.templates.get? idx = some t) (hf : t.fixedRoot <:+ t1.fixedRoot)
    (ha : t.argsRoot <:+ t1.argsRoot) :
    RegistryKept g { g with templates := g.templates.set idx t1 } := by
  refine ⟨Nat.le_refl _, rfl, fun _ _ => rfl, ?_⟩
  intro i u hu
  by_cases hi : idx = i
  · subst hi
    rw [ht] at hu
    simp only [Option.some.injEq] at hu
    subst hu
    have hlt : idx < g.templates.length := by
      simp only [List.get?_eq_getElem?] at ht
      exact (List.getElem?_eq_some_iff.mp ht).1
    exact ⟨t1, by simp [List.get?_eq_getElem?, hlt], hf, ha⟩
  · refine ⟨u, ?_, List.suffix_refl _, List.suffix_refl _⟩
    simp only [List.get?_eq_getElem?] at hu ⊢
    rw [List.getElem?_set_ne hi]
    exact hu

theorem GlobalsStep_registry : GlobalsStep RegistryKept where
  refl := RegistryKept_same
  trans := by
    rintro a b c ⟨h1, h2, h3, h4⟩ ⟨k1, k2, k3, k4⟩
    refine ⟨Nat.le_trans h1 k1, h2.trans k2, ?_, ?_⟩
    · intro i hi
      rw [k3 i (by omega), h3 i hi]
    · intro i t ht
      obtain ⟨t1, e1, f1, a1⟩ := h4 i t ht
      obtain ⟨t2, e2, f2, a2⟩ := k4 i t1 e1
      exact ⟨t2, e2, f1.trans f2, a1.trans a2⟩
  registerFixed := by
    intro idx k v g g1 h
    unfold RegisterFixedPair at h
    split at h
    · simp at h
    · rename_i t ht
      simp only [Run.done.injEq] at h
      subst h
      exact RegistryKept_templates g idx t _ ht (List.suffix_cons _ _) (List.suffix_refl _)
  registerArg := by
    intro idx k ty ai g g1 h
    unfold RegisterArgPair at h
    split at h
    · simp at h
    · rename_i t ht
      simp only [Run.done.injEq] at h
      subst h
      exact RegistryKept_templates g idx t _ ht (List.suffix_refl _) (List.suffix_cons _ _)
  pushName := by
    intro n g g1 h
    unfold PushName at h
    split at h
    · simp only [Run.done.injEq] at h
      subst h
      exact RegistryKept_same _
    · split at h
      · simp at h
      · simp only [Run.done.injEq] at h
        subst h
        exact ⟨Nat.le_refl _, rfl, fun _ _ => rfl,
          fun _ t h => ⟨t, h, List.suffix_refl _, List.suffix_refl _⟩⟩
  popName := fun g => ⟨Nat.le_refl _, rfl, fun _ _ => rfl,
    fun _ t h => ⟨t, h, List.suffix_refl _, List.suffix_refl _⟩⟩
  registerID := by
    intro id g
    unfold RegisterID
    split
    · exact RegistryKept_same _
    · refine ⟨Nat.le_succ _, by simp, ?_, ?_⟩
      · intro i hi
        simp only [List.get?_eq_getElem?]
        rw [List.getElem?_set_ne (by omega)]
      · intro i t ht
        by_cases hi : g.numIDs = i
        · subst hi
          have hlt : g.numIDs < g.templates.length := by
            simp only [List.get?_eq_getElem?] at ht
            exact (List.getElem?_eq_some_iff.mp ht).1
          have hd : g.templates.getD g.numIDs InitTemplateDescription = t := by
            simp only [List.get?_eq_getElem?] at ht
            simp [List.getD_eq_getElem?_getD, ht]
          refine ⟨{ t with shortID := id }, ?_, List.suffix_refl _, List.suffix_refl _⟩
          simp only [hd, List.get?_eq_getElem?]
          rw [List.getElem?_set_self hlt]
        · refine ⟨t, ?_, List.suffix_refl _, List.suffix_refl _⟩
          simp only [List.get?_eq_getElem?] at ht ⊢
          rw [List.getElem?_set_ne hi]
          exact ht
  print := fun t g => ⟨Nat.le_refl _, rfl, fun _ _ => rfl,
    fun _ t h => ⟨t, h, List.suffix_refl _, List.suffix_refl _⟩⟩

theorem IsKnownIDFrom_kept (ks ks1 : List Nat) (id : Nat) :
    ∀ (n s idx m : Nat), IsKnownIDFrom ks id n s = some idx →
      (∀ i, i < s + n → ks1.get? i = ks.get? i) →
      IsKnownIDFrom ks1 id (n + m) s = some idx := by
  intro n
  induction n with
  | zero => intro s idx m h; simp [IsKnownIDFrom] at h
  | succ k ih =>
    intro s idx m h hk
    rw [show k + 1 + m = (k + m) + 1 by omega]
    unfold IsKnownIDFrom at h ⊢
    rw [hk s (by omega)]
    split at h
    · rename_i hc
      rw [if_pos hc]
      exact h
    · rename_i hc
      rw [if_neg hc]
      exact ih (s + 1) idx m h (fun i hi => hk i (by omega))

theorem IsKnownIDFrom_new (ks ks1 : List Nat) (id : Nat) :
    ∀ (n s : Nat), IsKnownIDFrom ks id n s = none →
      (∀ i, i < s + n → ks1.get? i = ks.get? i) → ks1.get? (s + n) = some id →
      IsKnownIDFrom ks1 id (n + 1) s = some (s + n) := by
  intro n
  induction n with
  | zero =>
    intro s _ _ h1
    unfold IsKnownIDFrom
    simp only [Nat.add_zero] at h1 ⊢
    rw [if_pos h1]
  | succ k ih =>
    intro s h hk h1
    unfold IsKnownIDFrom at h ⊢
    rw [hk s (by omega)]
    split at h
    · simp at h
    · rename_i hc
      rw [if_neg hc]
      rw [show s + (k + 1) = s + 1 + k by omega]
      exact ih (s + 1) h (fun i hi => hk i (by omega)) (by
        rw [show s + 1 + k = s + (k + 1) by omega]
        exact h1)

theorem IsKnownID_kept (g g1 : Globals) (id idx : Nat) (hk : RegistryKept g g1)
    (h : IsKnownID id g = some idx) : IsKnownID id g1 = some idx := by
  obtain ⟨h1, -, h3, -⟩ := hk
  unfold IsKnownID at h ⊢
  obtain ⟨m, hm⟩ : ∃ m, g1.numIDs = g.numIDs + m := ⟨g1.numIDs - g.numIDs, by omega⟩
  rw [hm]
  exact IsKnownIDFrom_kept _ _ id _ 0 idx m h (fun i hi => h3 i (by omega))

theorem RegisterID_known (g : Globals) (id : Nat) (hroom : g.numIDs < MAX_IDS)
    (hslots : g.knownIDs.length = MAX_IDS) (hunknown : IsKnownID id g = none) :
    RegisterID id g = (some g.numIDs, (RegisterID id g).2) ∧
      IsKnownID id (RegisterID id g).2 = some g.numIDs := by
  unfold RegisterID
  rw [if_neg (by omega)]
  refine ⟨rfl, ?_⟩
  unfold IsKnownID at hunknown ⊢
  have h := IsKnownIDFrom_new g.knownIDs (g.knownIDs.set g.numIDs id) id g.numIDs 0 hunknown
    (fun i hi => by
      simp only [List.get?_eq_getElem?]
      rw [List.getElem?_set_ne (by omega)])
    (by
      simp only [List.get?_eq_getElem?, Nat.zero_add]
      rw [List.getElem?_set_self (by omega)])
  rw [Nat.zero_add] at h
  exact h

/-- Claim C26.  Take a template-instance token whose identifier `shortID` is
not known while fewer than 256 identifiers are registered, and whose header,
long identifier and body length are read.  When `ParseBinXml` returns `false`
on the body, `ParseTemplateInstance` returns `false` and hands back the decoder
variables exactly as the body left them: nothing is rolled back.  `shortID` is
then known at the index it was given; it stays known at that index, and the
template keeps every pair it has, through any further run of `ParseBinXml`;
and on any later instance token of `shortID`, `ParseTemplateInstance` takes the
branch of a known template (`emitInstance` at that index) without reading a
definition. -/
theorem C26_failed_definition_stays (env : Env) (buf : Buffer) (fuel : Nat)
    (ctx ctx1 ctx1a ctx2 tc : ParseContext) (g g2 : Globals)
    (shortID numArguments templateBodyLen : Nat) (longID : List Nat)
    (hhead : readInstanceHeader buf ctx = .done (some (shortID, numArguments), ctx1))
    (hunknown : IsKnownID shortID g = none)
    (hroom : g.numIDs < MAX_IDS) (hslots : g.knownIDs.length = MAX_IDS)
    (hlong : ReadData buf 1 16 ctx1 = .done (some longID, ctx1a))
    (hlen : ReadScalar buf 4 ctx1a = .done (some templateBodyLen, ctx2))
    (hbody : ParseBinXml env buf fuel
        (bodyContext (ctx2.data + ctx2.offset) templateBodyLen
          (ctx2.offset + ctx2.offsetFromChunkStart) g.numIDs ctx2.data ctx2.dataLen 0 [])
        (RegisterID shortID g).2 = .done (false, tc, g2)) :
    ParseTemplateInstance env buf (ParseBinXml env buf fuel) ctx g = .done (false, ctx2, g2) ∧
    IsKnownID shortID g2 = some g.numIDs ∧
    (∀ (fuel1 : Nat) (c c1 : ParseContext) (b : Bool) (g3 : Globals),
      ParseBinXml env buf fuel1 c g2 = .done (b, c1, g3) →
      IsKnownID shortID g3 = some g.numIDs ∧
      ∀ t, g2.templates.get? g.numIDs = some t →
        ∃ t3, g3.templates.get? g.numIDs = some t3 ∧ t.fixedRoot <:+ t3.fixedRoot ∧
          t.argsRoot <:+ t3.argsRoot) ∧
    (∀ (P : Parser) (g3 : Globals) (cL cL1 : ParseContext) (n : Nat),
      IsKnownID shortID g3 = some g.numIDs →
      readInstanceHeader buf cL = .done (some (shortID, n), cL1) →
      ParseTemplateInstance env buf P cL g3 =
        emitInstance env buf P n { cL1 with currentTemplateIdx := g.numIDs } g3) := by
  obtain ⟨hreg, hknown⟩ := RegisterID_known g shortID hroom hslots hunknown
  have hkept : RegistryKept (RegisterID shortID g).2 g2 :=
    (ParseBinXml_frame GlobalsStep_registry env buf fuel _ _ _ _ _ hbody).2.1
  have hk2 : IsKnownID shortID g2 = some g.numIDs := IsKnownID_kept _ _ _ _ hkept hknown
  refine ⟨?_, hk2, ?_, ?_⟩
  · unfold ParseTemplateInstance
    rw [hhead]
    simp only
    rw [hunknown]
    simp only
    unfold parseTemplateDefinition
    rw [hlong]
    simp only
    rw [hlen]
    simp only
    rw [hreg]
    simp only
    have hb : ParseBinXml env buf fuel
        { data := ctx2.data + ctx2.offset, dataLen := templateBodyLen, offset := 0,
          chunkData := ctx2.data, chunkDataLen := ctx2.dataLen,
          offsetFromChunkStart := ctx2.offset + ctx2.offsetFromChunkStart, cachedValue := [],
          state := .StateNormal, currentTemplateIdx := g.numIDs }
        (RegisterID shortID g).2 = .done (false, tc, g2) := hbody
    rw [hb]
  · intro fuel1 c c1 b g3 h
    have hk3 : RegistryKept g2 g3 :=
      (ParseBinXml_frame GlobalsStep_registry env buf fuel1 _ _ _ _ _ h).2.1
    exact ⟨IsKnownID_kept _ _ _ _ hk3 hk2, fun t ht => hk3.2.2.2 _ t ht⟩
  · intro P g3 cL cL1 n hk hh
    unfold ParseTemplateInstance
    rw [hh]
    simp only
    rw [hk]

/-- Witness of C26: the stream `failingDefinition` from the initial state.  The
body fails at the byte `FF`; template 9 is known afterwards at index 0 with the
pair `('K', 'v')`.  In `failedThenLater` the failure happens inside a `0x21`
argument and the later instance of template 9 prints the pair of the failed
definition. -/
theorem C26_failed_definition_stays_witness :
    readInstanceHeader (bufferOf failingDefinition)
      (contextAt failingDefinition.length 1 INVALID_TEMPLATE_IDX .StateNormal) =
      .done (some (9, 0),
        contextAt failingDefinition.length 14 INVALID_TEMPLATE_IDX .StateNormal) ∧
    IsKnownID 9 initialGlobals = none ∧
    resultAndOffset (ParseTemplateInstance (envWith 0) (bufferOf failingDefinition)
      (ParseBinXml (envWith 0) (bufferOf failingDefinition) 5)
      (contextAt failingDefinition.length 1 INVALID_TEMPLATE_IDX .StateNormal)
      initialGlobals) = some (false, 34) ∧
    fixedPairsOf (ParseTemplateInstance (envWith 0) (bufferOf failingDefinition)
      (ParseBinXml (envWith 0) (bufferOf failingDefinition) 5)
      (contextAt failingDefinition.length 1 INVALID_TEMPLATE_IDX .StateNormal)
      initialGlobals) = some [{ key := ascii "K", value := ascii "v" }] ∧
    stdoutOf (ParseBinXmlPre (envWith 0) (bufferOf failedThenLater) 6 failedThenLater.length 0
      initialGlobals) = some (ascii "'K':'v', ") := by
  have hhead : readInstanceHeader (bufferOf failingDefinition)
      (contextAt failingDefinition.length 1 INVALID_TEMPLATE_IDX .StateNormal) =
      .done (some (9, 0),
        contextAt failingDefinition.length 14 INVALID_TEMPLATE_IDX .StateNormal) := by decide
  have hu : IsKnownID 9 initialGlobals = none := by decide
  have h := C26_failed_definition_stays (envWith 0) (bufferOf failingDefinition) 5
    (contextAt failingDefinition.length 1 INVALID_TEMPLATE_IDX .StateNormal)
    (contextAt failingDefinition.length 14 INVALID_TEMPLATE_IDX .StateNormal)
    (contextAt failingDefinition.length 30 INVALID_TEMPLATE_IDX .StateNormal)
    (contextAt failingDefinition.length 34 INVALID_TEMPLATE_IDX .StateNormal)
    (bodyContext 34 30 34 0 0 failingDefinition.length 30 (ascii "v"))
    initialGlobals
    { knownIDs := initialGlobals.knownIDs.set 0 9
      templates := initialGlobals.templates.set 0
        { shortID := 9, fixedRoot := [{ key := ascii "K", value := ascii "v" }], argsRoot := [] }
      numIDs := 1
      nameStack := [ascii "K"]
      stdout := [] }
    9 0 30 (List.replicate 16 0) hhead hu (by decide) (by decide) (by decide) (by decide)
    (by decide)
  refine ⟨hhead, hu, ?_, ?_, by decide⟩
  · rw [h.1]
    rfl
  · rw [h.1]
    rfl

/-! ## C27: termination of the token loop

Nothing but the token loop spends fuel: every other function of the embedding
returns or faults. -/

theorem loadLE_returns (buf : Buffer) : ∀ (size addr : Nat), loadLE buf addr size ≠ .outOfFuel := by
  intro size
  induction size with
  | zero => intro addr h; simp [loadLE] at h
  | succ n ih =>
    intro addr h
    unfold loadLE at h
    split at h
    · simp at h
    · split at h
      · simp at h
      · simp at h
      · rename_i h1
        exact ih _ h1

theorem ReadDataLoop_returns (buf : Buffer) (size : Nat) :
    ∀ (count : Nat) (ctx : ParseContext), ReadDataLoop buf size count ctx ≠ .outOfFuel := by
  intro count
  induction count with
  | zero => intro ctx h; simp [ReadDataLoop] at h
  | succ n ih =>
    intro ctx h
    unfold ReadDataLoop at h
    split at h
    · split at h
      · simp at h
      · simp at h
      · rename_i h1
        exact ih _ h1
    · simp at h
    · rename_i h1
      exact loadLE_returns _ _ _ h1

theorem ReadData_returns (buf : Buffer) (size count : Nat) (ctx : ParseContext) :
    ReadData buf size count ctx ≠ .outOfFuel := by
  intro h
  unfold ReadData at h
  split at h
  · split at h
    · simp at h
    · simp at h
    · rename_i h1
      exact ReadDataLoop_returns _ _ _ _ h1
  · simp at h

theorem ReadScalar_returns (buf : Buffer) (size : Nat) (ctx : ParseContext) :
    ReadScalar buf size ctx ≠ .outOfFuel := by
  intro h
  unfold ReadScalar at h
  split at h
  · simp at h
  · simp at h
  · simp at h
  · rename_i h1
    exact ReadData_returns _ _ _ _ h1

theorem RegisterFixedPair_returns (idx : Nat) (k v : List Nat) (g : Globals) :
    RegisterFixedPair idx k v g ≠ .outOfFuel := by
  intro h
  unfold RegisterFixedPair at h
  split at h <;> simp at h

theorem RegisterArgPair_returns (idx : Nat) (k : Option (List Nat)) (ty ai : Nat) (g : Globals) :
    RegisterArgPair idx k ty ai g ≠ .outOfFuel := by
  intro h
  unfold RegisterArgPair at h
  split at h <;> simp at h

theorem PushName_returns (name : List Nat) (g : Globals) : PushName name g ≠ .outOfFuel := by
  intro h
  unfold PushName at h
  split at h
  · simp at h
  · split at h <;> simp at h

theorem readCharsLoop_returns (buf : Buffer) (size : Nat) :
    ∀ (remaining idx : Nat) (ctx : ParseContext) (nb : List Nat),
      readCharsLoop buf size remaining idx ctx nb ≠ .outOfFuel := by
  intro remaining
  induction remaining with
  | zero => intro idx ctx nb h; simp [readCharsLoop] at h
  | succ n ih =>
    intro idx ctx nb h
    unfold readCharsLoop at h
    split at h
    · split at h
      · exact ih _ _ _ h
      · simp at h
      · simp at h
      · rename_i h1
        exact ReadScalar_returns _ _ _ h1
    · simp at h

theorem ReadPrefixedUnicodeString_returns (buf : Buffer) (ctx : ParseContext) (size : Nat)
    (nt : Bool) : ReadPrefixedUnicodeString buf ctx size nt ≠ .outOfFuel := by
  intro h
  unfold ReadPrefixedUnicodeString at h
  split at h
  · split at h
    · simp at h
    · simp at h
    · simp at h
    · rename_i h1
      exact readCharsLoop_returns _ _ _ _ _ _ h1
  · simp at h
  · simp at h
  · rename_i h1
    exact ReadScalar_returns _ _ _ h1

theorem readNameBody_returns (buf : Buffer) (ctx : ParseContext) (size : Nat) :
    readNameBody buf ctx size ≠ .outOfFuel := by
  intro h
  unfold readNameBody at h
  split at h
  · split at h
    · exact ReadPrefixedUnicodeString_returns _ _ _ _ h
    · simp at h
    · simp at h
    · rename_i h1
      exact ReadScalar_returns _ _ _ h1
  · simp at h
  · simp at h
  · rename_i h1
    exact ReadScalar_returns _ _ _ h1

theorem ReadName_returns (buf : Buffer) (ctx : ParseContext) (size : Nat) :
    ReadName buf ctx size ≠ .outOfFuel := by
  intro h
  unfold ReadName at h
  split at h
  · simp at h
  · split at h
    · split at h
      · simp only at h
        split at h
        · simp at h
        · simp at h
        · rename_i h1
          exact readNameBody_returns _ _ _ h1
      · exact readNameBody_returns _ _ _ h
    · simp at h
    · simp at h
    · rename_i h1
      exact ReadScalar_returns _ _ _ h1

theorem ParseValueText_returns (buf : Buffer) (ctx : ParseContext) (g : Globals) :
    ParseValueText buf ctx g ≠ .outOfFuel := by
  intro h
  unfold ParseValueText at h
  split at h
  · split at h
    · simp only at h
      split at h
      · simp at h
      · simp at h
      · rename_i h1
        split at h1
        · split at h1
          · exact RegisterFixedPair_returns _ _ _ _ h1
          · simp at h1
        · simp at h1
    · simp at h
    · simp at h
    · rename_i h1
      exact ReadPrefixedUnicodeString_returns _ _ _ _ h1
  · simp at h
  · simp at h
  · rename_i h1
    exact ReadScalar_returns _ _ _ h1

theorem ParseAttributes_returns (buf : Buffer) (ctx : ParseContext) (g : Globals) :
    ParseAttributes buf ctx g ≠ .outOfFuel := by
  intro h
  unfold ParseAttributes at h
  split at h
  · split at h
    · simp at h
    · simp at h
    · rename_i h1
      exact PushName_returns _ _ h1
  · simp at h
  · simp at h
  · rename_i h1
    exact ReadName_returns _ _ _ h1

theorem readAttributeListLength_returns (buf : Buffer) (hasAttributes : Bool)
    (ctx : ParseContext) : readAttributeListLength buf hasAttributes ctx ≠ .outOfFuel := by
  intro h
  unfold readAttributeListLength at h
  split at h
  · split at h
    · simp at h
    · simp at h
    · simp at h
    · rename_i h1
      exact ReadScalar_returns _ _ _ h1
  · simp at h

theorem ParseOpenStartElement_returns (buf : Buffer) (ctx : ParseContext) (hasAttributes : Bool)
    (g : Globals) : ParseOpenStartElement buf ctx hasAttributes g ≠ .outOfFuel := by
  intro h
  unfold ParseOpenStartElement at h
  split at h
  · split at h
    · split at h
      · split at h
        · split at h
          · simp at h
          · simp at h
          · rename_i h1
            exact PushName_returns _ _ h1
        · simp at h
        · simp at h
        · rename_i h1
          exact readAttributeListLength_returns _ _ _ h1
      · simp at h
      · simp at h
      · rename_i h1
        exact ReadName_returns _ _ _ h1
    · simp at h
    · simp at h
    · rename_i h1
      exact ReadScalar_returns _ _ _ h1
  · simp at h
  · simp at h
  · rename_i h1
    exact ReadScalar_returns _ _ _ h1

theorem readSubstitution_returns (buf : Buffer) (ctx : ParseContext) :
    readSubstitution buf ctx ≠ .outOfFuel := by
  intro h
  unfold readSubstitution at h
  split at h
  · split at h
    · split at h
      · split at h
        · simp at h
        · simp at h
        · simp at h
        · rename_i h1
          exact ReadScalar_returns _ _ _ h1
      · simp at h
    · simp at h
    · simp at h
    · rename_i h1
      exact ReadScalar_returns _ _ _ h1
  · simp at h
  · simp at h
  · rename_i h1
    exact ReadScalar_returns _ _ _ h1

theorem ParseOptionalSubstitution_returns (buf : Buffer) (ctx : ParseContext) (g : Globals) :
    ParseOptionalSubstitution buf ctx g ≠ .outOfFuel := by
  intro h
  unfold ParseOptionalSubstitution at h
  split at h
  · split at h
    · simp at h
    · simp at h
    · rename_i h1
      exact RegisterArgPair_returns _ _ _ _ _ h1
  · simp at h
  · simp at h
  · rename_i h1
    exact readSubstitution_returns _ _ h1

theorem readStringLoop_returns (buf : Buffer) (size : Nat) :
    ∀ (n : Nat) (ctx : ParseContext) (sb : List Nat),
      readStringLoop buf size n ctx sb ≠ .outOfFuel := by
  intro n
  induction n with
  | zero => intro ctx sb h; simp [readStringLoop] at h
  | succ k ih =>
    intro ctx sb h
    unfold readStringLoop at h
    split at h
    · exact ih _ _ h
    · simp at h
    · simp at h
    · rename_i h1
      exact ReadScalar_returns _ _ _ h1

theorem readBinaryLoop_returns (buf : Buffer) :
    ∀ (n : Nat) (ctx : ParseContext) (out : List Nat),
      readBinaryLoop buf n ctx out ≠ .outOfFuel := by
  intro n
  induction n with
  | zero => intro ctx out h; simp [readBinaryLoop] at h
  | succ k ih =>
    intro ctx out h
    unfold readBinaryLoop at h
    split at h
    · exact ih _ _ h
    · simp at h
    · simp at h
    · rename_i h1
      exact ReadScalar_returns _ _ _ h1

theorem readSubAuthorities_returns (buf : Buffer) :
    ∀ (n : Nat) (ctx : ParseContext) (out : List Nat),
      readSubAuthorities buf n ctx out ≠ .outOfFuel := by
  intro n
  induction n with
  | zero => intro ctx out h; simp [readSubAuthorities] at h
  | succ k ih =>
    intro ctx out h
    unfold readSubAuthorities at h
    split at h
    · exact ih _ _ h
    · simp at h
    · simp at h
    · rename_i h1
      exact ReadScalar_returns _ _ _ h1

theorem readAndPrint_returns (buf : Buffer) (size : Nat) (key : List Nat)
    (render : Nat → List Nat) (ctx : ParseContext) (g : Globals) :
    readAndPrint buf size key render ctx g ≠ .outOfFuel := by
  intro h
  unfold readAndPrint at h
  split at h
  · simp at h
  · simp at h
  · simp at h
  · rename_i h1
    exact ReadScalar_returns _ _ _ h1

theorem readInstanceHeader_returns (buf : Buffer) (ctx : ParseContext) :
    readInstanceHeader buf ctx ≠ .outOfFuel := by
  intro h
  unfold readInstanceHeader at h
  split at h
  · split at h
    · simp at h
    · split at h
      · split at h
        · split at h
          · simp at h
          · simp at h
          · simp at h
          · rename_i h1
            exact ReadScalar_returns _ _ _ h1
        · simp at h
        · simp at h
        · rename_i h1
          exact ReadScalar_returns _ _ _ h1
      · simp at h
      · simp at h
      · rename_i h1
        exact ReadScalar_returns _ _ _ h1
  · simp at h
  · simp at h
  · rename_i h1
    exact ReadScalar_returns _ _ _ h1

theorem SameRegion.startOf_le {ctx ctx1 : ParseContext} (h : SameRegion ctx ctx1) :
    startOf ctx ≤ startOf ctx1 := by
  unfold startOf
  rw [h.1]
  have := h.2.2.2.2.2
  omega

theorem ParserRespects_trivial (P : Parser) : ParserRespects (fun _ _ => True) P :=
  fun _ _ _ _ _ _ => trivial

theorem decodeArgument_returns (env : Env) (buf : Buffer) (P : Parser) (q : Nat)
    (argPair : TemplateArgPair) (argLen argType : Nat) (ctx : ParseContext) (g : Globals)
    (hP : ReturnsAbove q P) (hq : q ≤ startOf ctx) :
    decodeArgument env buf P argPair argLen argType ctx g ≠ .outOfFuel := by
  intro h
  unfold decodeArgument at h
  by_cases c1 : argType = 1
  · rw [if_pos c1] at h
    simp only at h
    split at h
    · simp at h
    · simp at h
    · simp at h
    · rename_i h1
      exact readStringLoop_returns _ _ _ _ _ h1
  rw [if_neg c1] at h
  by_cases c4 : argType = 4
  · rw [if_pos c4] at h
    exact readAndPrint_returns _ _ _ _ _ _ h
  rw [if_neg c4] at h
  by_cases c6 : argType = 6
  · rw [if_pos c6] at h
    exact readAndPrint_returns _ _ _ _ _ _ h
  rw [if_neg c6] at h
  by_cases c8 : argType = 8
  · rw [if_pos c8] at h
    exact readAndPrint_returns _ _ _ _ _ _ h
  rw [if_neg c8] at h
  by_cases c10 : argType = 10
  · rw [if_pos c10] at h
    exact readAndPrint_returns _ _ _ _ _ _ h
  rw [if_neg c10] at h
  by_cases c14 : argType = 14
  · rw [if_pos c14] at h
    split at h
    · simp at h
    · simp at h
    · simp at h
    · rename_i h1
      exact readBinaryLoop_returns _ _ _ _ h1
  rw [if_neg c14] at h
  by_cases c15 : argType = 15
  · rw [if_pos c15] at h
    exact readAndPrint_returns _ _ _ _ _ _ h
  rw [if_neg c15] at h
  by_cases c20 : argType = 20
  · rw [if_pos c20] at h
    exact readAndPrint_returns _ _ _ _ _ _ h
  rw [if_neg c20] at h
  by_cases c21 : argType = 21
  · rw [if_pos c21] at h
    exact readAndPrint_returns _ _ _ _ _ _ h
  rw [if_neg c21] at h
  by_cases c17 : argType = 17
  · rw [if_pos c17] at h
    exact readAndPrint_returns _ _ _ _ _ _ h
  rw [if_neg c17] at h
  by_cases c19 : argType = 19
  · rw [if_pos c19] at h
    split at h
    · simp at h
    · split at h
      · simp only at h
        split at h
        · simp at h
        · simp at h
        · simp at h
        · rename_i h1
          exact readSubAuthorities_returns _ _ _ _ h1
      · simp at h
      · simp at h
      · rename_i h1
        exact ReadData_returns _ _ _ _ h1
  rw [if_neg c19] at h
  by_cases c33 : argType = 33
  · rw [if_pos c33] at h
    simp only at h
    split at h
    · simp at h
    · simp at h
    · rename_i h1
      exact hP { ctx with dataLen := ctx.offset + argLen } _ hq h1
  rw [if_neg c33] at h
  simp at h

theorem bindArgument_returns (env : Env) (buf : Buffer) (P : Parser) (q : Nat)
    (argLen argType argumentIdx : Nat) (ctx : ParseContext) (g : Globals)
    (hP : ReturnsAbove q P) (hq : q ≤ startOf ctx) :
    bindArgument env buf P argLen argType argumentIdx ctx g ≠ .outOfFuel := by
  intro h
  unfold bindArgument at h
  split at h
  · simp at h
  · split at h
    · simp at h
    · exact decodeArgument_returns env buf P q _ _ _ _ _ hP hq h

theorem argumentLoop_returns (env : Env) (buf : Buffer) (P : Parser) (q : Nat)
    (argumentMap : List Nat) (hP : ReturnsAbove q P) :
    ∀ (remaining argumentIdx : Nat) (ctx : ParseContext) (g : Globals), q ≤ startOf ctx →
      argumentLoop env buf P argumentMap remaining argumentIdx ctx g ≠ .outOfFuel := by
  intro remaining
  induction remaining with
  | zero => intro argumentIdx ctx g _ h; simp [argumentLoop] at h
  | succ k ih =>
    intro argumentIdx ctx g hq h
    unfold argumentLoop at h
    split at h
    · simp at h
    · split at h
      · simp at h
      · split at h
        · rename_i c1 g1 h1
          have hs := (bindArgument_frame GlobalsStep_trivial env buf P (ParserRespects_trivial P)
            _ _ _ _ _ _ _ _ h1).1
          exact ih _ _ _ (Nat.le_trans hq hs.startOf_le) h
        · simp at h
        · simp at h
        · rename_i h1
          exact bindArgument_returns env buf P q _ _ _ _ _ hP hq h1

theorem emitInstance_returns (env : Env) (buf : Buffer) (P : Parser) (q : Nat)
    (numArguments : Nat) (ctx : ParseContext) (g : Globals)
    (hP : ReturnsAbove q P) (hq : q ≤ startOf ctx) :
    emitInstance env buf P numArguments ctx g ≠ .outOfFuel := by
  intro h
  unfold emitInstance at h
  split at h
  · simp at h
  · simp only at h
    split at h
    · rename_i am c1 h1
      have e1 := (ReadData_some _ _ _ _ _ _ h1).1
      refine argumentLoop_returns env buf P q _ hP _ _ _ _ ?_ h
      rw [e1]
      unfold startOf at hq ⊢
      simp only
      omega
    · simp at h
    · simp at h
    · rename_i h1
      exact ReadData_returns _ _ _ _ h1

theorem parseTemplateDefinition_returns (env : Env) (buf : Buffer) (P : Parser) (q : Nat)
    (shortID : Nat) (ctx : ParseContext) (g : Globals)
    (hP : ReturnsAbove q P) (hq : q ≤ startOf ctx) :
    parseTemplateDefinition env buf P shortID ctx g ≠ .outOfFuel := by
  intro h
  unfold parseTemplateDefinition at h
  split at h
  · rename_i lid c1 h1
    have e1 := (ReadData_some _ _ _ _ _ _ h1).1
    split at h
    · rename_i len c2 h2
      have e2 := (ReadScalar_some _ _ _ _ _ h2).1
      simp only at h
      split at h
      · split at h
        · simp at h
        · simp at h
        · simp at h
        · rename_i h3
          exact ReadScalar_returns _ _ _ h3
      · simp at h
      · simp at h
      · rename_i h3
        refine hP _ _ ?_ h3
        rw [e2, e1]
        unfold startOf at hq ⊢
        simp only
        omega
    · simp at h
    · simp at h
    · rename_i h2
      exact ReadScalar_returns _ _ _ h2
  · simp at h
  · simp at h
  · rename_i h1
    exact ReadData_returns _ _ _ _ h1

theorem ParseTemplateInstance_returns (env : Env) (buf : Buffer) (P : Parser) (q : Nat)
    (ctx : ParseContext) (g : Globals) (hP : ReturnsAbove q P) (hq : q ≤ startOf ctx) :
    ParseTemplateInstance env buf P ctx g ≠ .outOfFuel := by
  intro h
  unfold ParseTemplateInstance at h
  split at h
  · rename_i sid na c1 h1
    have hs1 := (readInstanceHeader_frame _ _ _ _ h1)
    split at h
    · refine emitInstance_returns env buf P q _ _ _ hP ?_ h
      have := hs1.sameRegion.startOf_le
      unfold startOf at this hq ⊢
      simp only
      omega
    · split at h
      · rename_i na1 c2 g1 h2
        have hs2 := (parseTemplateDefinition_frame GlobalsStep_trivial env buf P
          (ParserRespects_trivial P) _ _ _ _ _ _ h2).1
        exact emitInstance_returns env buf P q _ _ _ hP
          (Nat.le_trans hq (Nat.le_trans hs1.sameRegion.startOf_le hs2.startOf_le)) h
      · simp at h
      · simp at h
      · rename_i h2
        exact parseTemplateDefinition_returns env buf P q _ _ _ hP
          (Nat.le_trans hq hs1.sameRegion.startOf_le) h2
  · simp at h
  · simp at h
  · rename_i h1
    exact readInstanceHeader_returns _ _ h1

theorem dispatchToken_returns (env : Env) (buf : Buffer) (P : Parser) (q tag : Nat)
    (ctx : ParseContext) (g : Globals) (hP : ReturnsAbove q P) (hq : q ≤ startOf ctx) :
    dispatchToken env buf P tag ctx g ≠ .outOfFuel := by
  intro h
  unfold dispatchToken at h
  by_cases c0 : tag = 0
  · rw [if_pos c0] at h
    simp at h
  rw [if_neg c0] at h
  by_cases c1 : tag = 1
  · rw [if_pos c1] at h
    exact ParseOpenStartElement_returns _ _ _ _ h
  rw [if_neg c1] at h
  by_cases c65 : tag = 65
  · rw [if_pos c65] at h
    exact ParseOpenStartElement_returns _ _ _ _ h
  rw [if_neg c65] at h
  by_cases c2 : tag = 2
  · rw [if_pos c2] at h
    simp [ParseCloseStartElement] at h
  rw [if_neg c2] at h
  by_cases c3 : tag = 3 ∨ tag = 4
  · rw [if_pos c3] at h
    simp [ParseCloseElement] at h
  rw [if_neg c3] at h
  by_cases c5 : tag = 5 ∨ tag = 69
  · rw [if_pos c5] at h
    exact ParseValueText_returns _ _ _ h
  rw [if_neg c5] at h
  by_cases c6 : tag = 6 ∨ tag = 70
  · rw [if_pos c6] at h
    exact ParseAttributes_returns _ _ _ h
  rw [if_neg c6] at h
  by_cases c7 : tag = 7 ∨ tag = 71 ∨ tag = 8 ∨ tag = 72 ∨ tag = 9 ∨ tag = 73 ∨ tag = 10 ∨ tag = 11
  · rw [if_pos c7] at h
    simp at h
  rw [if_neg c7] at h
  by_cases c12 : tag = 12
  · rw [if_pos c12] at h
    exact ParseTemplateInstance_returns env buf P q _ _ hP hq h
  rw [if_neg c12] at h
  by_cases c13 : tag = 13 ∨ tag = 14
  · rw [if_pos c13] at h
    exact ParseOptionalSubstitution_returns _ _ _ h
  rw [if_neg c13] at h
  by_cases c15 : tag = 15
  · rw [if_pos c15] at h
    simp at h
  rw [if_neg c15] at h
  simp at h

/-! Only the values of the parser on contexts that start at or above the cursor
are used. -/

theorem decodeArgument_congr (env : Env) (buf : Buffer) (P P1 : Parser) (q : Nat)
    (argPair : TemplateArgPair) (argLen argType : Nat) (ctx : ParseContext) (g : Globals)
    (hP : AgreeAbove q P P1) (hq : q ≤ startOf ctx) :
    decodeArgument env buf P argPair argLen argType ctx g =
      decodeArgument env buf P1 argPair argLen argType ctx g := by
  have h := hP { ctx with dataLen := ctx.offset + argLen } g hq
  unfold decodeArgument
  simp only [h]

theorem bindArgument_congr (env : Env) (buf : Buffer) (P P1 : Parser) (q : Nat)
    (argLen argType argumentIdx : Nat) (ctx : ParseContext) (g : Globals)
    (hP : AgreeAbove q P P1) (hq : q ≤ startOf ctx) :
    bindArgument env buf P argLen argType argumentIdx ctx g =
      bindArgument env buf P1 argLen argType argumentIdx ctx g := by
  unfold bindArgument
  split
  · rfl
  · split
    · rfl
    · exact decodeArgument_congr env buf P P1 q _ _ _ _ _ hP hq

theorem argumentLoop_congr (env : Env) (buf : Buffer) (P P1 : Parser) (q : Nat)
    (argumentMap : List Nat) (hP : AgreeAbove q P P1) :
    ∀ (remaining argumentIdx : Nat) (ctx : ParseContext) (g : Globals), q ≤ startOf ctx →
      argumentLoop env buf P argumentMap remaining argumentIdx ctx g =
        argumentLoop env buf P1 argumentMap remaining argumentIdx ctx g := by
  intro remaining
  induction remaining with
  | zero => intro argumentIdx ctx g _; rfl
  | succ k ih =>
    intro argumentIdx ctx g hq
    unfold argumentLoop
    split
    · rfl
    · split
      · rfl
      · rw [← bindArgument_congr env buf P P1 q _ _ argumentIdx ctx g hP hq]
        split
        · rename_i c1 g1 h1
          have hs := (bindArgument_frame GlobalsStep_trivial env buf P (ParserRespects_trivial P)
            _ _ _ _ _ _ _ _ h1).1
          exact ih _ _ _ (Nat.le_trans hq hs.startOf_le)
        · rfl
        · rfl
        · rfl

theorem emitInstance_congr (env : Env) (buf : Buffer) (P P1 : Parser) (q : Nat)
    (numArguments : Nat) (ctx : ParseContext) (g : Globals)
    (hP : AgreeAbove q P P1) (hq : q ≤ startOf ctx) :
    emitInstance env buf P numArguments ctx g = emitInstance env buf P1 numArguments ctx g := by
  unfold emitInstance
  split
  · rfl
  · simp only
    split
    · rename_i am c1 h1
      have e1 := (ReadData_some _ _ _ _ _ _ h1).1
      refine argumentLoop_congr env buf P P1 q _ hP _ _ _ _ ?_
      rw [e1]
      unfold startOf at hq ⊢
      simp only
      omega
    · rfl
    · rfl
    · rfl

theorem parseTemplateDefinition_congr (env : Env) (buf : Buffer) (P P1 : Parser) (q : Nat)
    (shortID : Nat) (ctx : ParseContext) (g : Globals)
    (hP : AgreeAbove q P P1) (hq : q ≤ startOf ctx) :
    parseTemplateDefinition env buf P shortID ctx g =
      parseTemplateDefinition env buf P1 shortID ctx g := by
  unfold parseTemplateDefinition
  split
  · rename_i lid c1 h1
    have e1 := (ReadData_some _ _ _ _ _ _ h1).1
    split
    · rename_i len c2 h2
      have e2 := (ReadScalar_some _ _ _ _ _ h2).1
      simp only
      rw [hP _ _ (by
        rw [e2, e1]
        unfold startOf at hq ⊢
        simp only
        omega)]
    · rfl
    · rfl
    · rfl
  · rfl
  · rfl
  · rfl

theorem ParseTemplateInstance_congr (env : Env) (buf : Buffer) (P P1 : Parser) (q : Nat)
    (ctx : ParseContext) (g : Globals) (hP : AgreeAbove q P P1) (hq : q ≤ startOf ctx) :
    ParseTemplateInstance env buf P ctx g = ParseTemplateInstance env buf P1 ctx g := by
  unfold ParseTemplateInstance
  split
  · rename_i sid na c1 h1
    have hs1 := (readInstanceHeader_frame _ _ _ _ h1)
    have hq1 : q ≤ startOf c1 := Nat.le_trans hq hs1.sameRegion.startOf_le
    split
    · refine emitInstance_congr env buf P P1 q _ _ _ hP ?_
      unfold startOf at hq1 ⊢
      simp only
      omega
    · rw [← parseTemplateDefinition_congr env buf P P1 q sid c1 g hP hq1]
      split
      · rename_i na1 c2 g1 h2
        have hs2 := (parseTemplateDefinition_frame GlobalsStep_trivial env buf P
          (ParserRespects_trivial P) _ _ _ _ _ _ h2).1
        exact emitInstance_congr env buf P P1 q _ _ _ hP (Nat.le_trans hq1 hs2.startOf_le)
      · rfl
      · rfl
      · rfl
  · rfl
  · rfl
  · rfl

theorem dispatchToken_congr (env : Env) (buf : Buffer) (P P1 : Parser) (q tag : Nat)
    (ctx : ParseContext) (g : Globals) (hP : AgreeAbove q P P1) (hq : q ≤ startOf ctx) :
    dispatchToken env buf P tag ctx g = dispatchToken env buf P1 tag ctx g := by
  unfold dispatchToken
  rw [ParseTemplateInstance_congr env buf P P1 q ctx g hP hq]

theorem ParseBinXmlLoop_succ (env : Env) (buf : Buffer) (fuel : Nat) (ctx : ParseContext)
    (g : Globals) :
    ParseBinXmlLoop env buf (fuel + 1) ctx g =
      if ctx.offset < ctx.dataLen then
        match buf (ctx.data + ctx.offset) with
        | none => .fault (.chunkRead (ctx.data + ctx.offset))
        | some b =>
          match dispatchToken env buf
              (fun c g0 => ParseBinXmlLoop env buf fuel { c with state := .StateNormal } g0)
              (b % 256) { ctx with offset := ctx.offset + 1 } g with
          | .done (true, ctx1, g1) => ParseBinXmlLoop env buf fuel ctx1 g1
          | .done (false, ctx1, g1) => .done (false, ctx1, g1)
          | .fault e => .fault e
          | .outOfFuel => .outOfFuel
      else .done (true, ctx, g) := rfl

/-- Over a buffer of `len` bytes, the token loop entered at the cursor position
`p` returns or faults with any fuel above `len - p`, and with the same result
for all such fuels. -/
theorem ParseBinXmlLoop_enough (env : Env) (buf : Buffer) (len : Nat)
    (hfin : ∀ i, len ≤ i → buf i = none) :
    ∀ (fuel : Nat) (ctx : ParseContext) (g : Globals), fuelFor len ctx ≤ fuel →
      ParseBinXmlLoop env buf fuel ctx g = ParseBinXmlLoop env buf (fuelFor len ctx) ctx g ∧
        ParseBinXmlLoop env buf fuel ctx g ≠ .outOfFuel := by
  intro fuel
  induction fuel using Nat.strong_induction_on with
  | _ fuel ih =>
    intro ctx g hf
    obtain ⟨f, rfl⟩ : ∃ f, fuel = f + 1 := ⟨fuel - 1, by unfold fuelFor at hf; omega⟩
    have hm : fuelFor len ctx = (len - startOf ctx) + 1 := rfl
    have hmf : len - startOf ctx ≤ f := by
      rw [hm] at hf
      omega
    rw [hm, ParseBinXmlLoop_succ env buf f, ParseBinXmlLoop_succ env buf (len - startOf ctx)]
    by_cases hlt : ctx.offset < ctx.dataLen
    · rw [if_pos hlt, if_pos hlt]
      cases hb : buf (ctx.data + ctx.offset) with
      | none => exact ⟨rfl, by simp⟩
      | some b =>
        simp only
        have hpos : startOf ctx < len := by
          by_contra hge
          have := hfin (ctx.data + ctx.offset) (by unfold startOf at hge; omega)
          rw [this] at hb
          simp at hb
        have hq : startOf ctx + 1 ≤ startOf { ctx with offset := ctx.offset + 1 } := by
          unfold startOf
          simp only
          omega
        have hbelow : ∀ c : ParseContext, startOf ctx + 1 ≤ startOf c →
            fuelFor len c ≤ len - startOf ctx := by
          intro c hc
          unfold fuelFor
          omega
        have hA : AgreeAbove (startOf ctx + 1)
            (fun c g0 => ParseBinXmlLoop env buf f { c with state := .StateNormal } g0)
            (fun c g0 => ParseBinXmlLoop env buf (len - startOf ctx)
              { c with state := .StateNormal } g0) := by
          intro c g0 hc
          have hc1 : fuelFor len { c with state := .StateNormal } ≤ len - startOf ctx :=
            hbelow c hc
          simp only
          rw [(ih f (by omega) _ g0 (Nat.le_trans hc1 hmf)).1,
            (ih (len - startOf ctx) (by omega) _ g0 hc1).1]
        have hR : ReturnsAbove (startOf ctx + 1)
            (fun c g0 => ParseBinXmlLoop env buf f { c with state := .StateNormal } g0) := by
          intro c g0 hc
          have hc1 : fuelFor len { c with state := .StateNormal } ≤ len - startOf ctx :=
            hbelow c hc
          exact (ih f (by omega) _ g0 (Nat.le_trans hc1 hmf)).2
        have hd := dispatchToken_congr env buf _ _ (startOf ctx + 1) (b % 256)
          { ctx with offset := ctx.offset + 1 } g hA hq
        have hr := dispatchToken_returns env buf _ (startOf ctx + 1) (b % 256)
          { ctx with offset := ctx.offset + 1 } g hR hq
        rw [← hd]
        cases hdis : dispatchToken env buf
            (fun c g0 => ParseBinXmlLoop env buf f { c with state := .StateNormal } g0)
            (b % 256) { ctx with offset := ctx.offset + 1 } g with
        | outOfFuel => exact absurd hdis hr
        | fault e => exact ⟨rfl, by simp⟩
        | done r =>
          obtain ⟨ok, ctx1, g1⟩ := r
          cases ok with
          | false => exact ⟨rfl, by simp⟩
          | true =>
            simp only
            have hs := (dispatchToken_frame GlobalsStep_trivial env buf _
              (ParserRespects_trivial _) _ _ _ _ _ _ (by simp only; omega) hdis).1
            have h1 : fuelFor len ctx1 ≤ len - startOf ctx :=
              hbelow ctx1 (Nat.le_trans hq hs.startOf_le)
            have i1 := ih f (by omega) ctx1 g1 (Nat.le_trans h1 hmf)
            have i2 := ih (len - startOf ctx) (by omega) ctx1 g1 h1
            exact ⟨by rw [i1.1, i2.1], i1.2⟩
    · rw [if_neg hlt, if_neg hlt]
      exact ⟨rfl, by simp⟩

theorem bufferOf_none (bytes : List Nat) (i : Nat) (h : bytes.length ≤ i) :
    bufferOf bytes i = none := by
  unfold bufferOf
  simp only [List.get?_eq_getElem?]
  exact List.getElem?_eq_none h

/-- Claim C27.  Over a buffer of `len` bytes (every index from `len` on is
outside it), `ParseBinXml` entered at the cursor position `p` returns or stops
at an access outside the buffer with any fuel above `len - p`, and gives the
same result for all such fuels; `len + 1` is enough from every position.  The
fuel bounds the number of turns of the loop plus the depth of the nested calls.
Every turn of the loop moves the cursor forward by at least one byte: the tag
is consumed and no token handler moves the cursor back.  Every nested call
starts at or above the position right after the tag, hence strictly above the
tag and above the start of the enclosing call: the result of a token does not
depend on what the parser does on contexts that start lower. -/
theorem C27_termination (env : Env) (buf : Buffer) (len : Nat)
    (hfin : ∀ i, len ≤ i → buf i = none) (ctx : ParseContext) (g : Globals) (fuel : Nat)
    (hfuel : len - startOf ctx < fuel) :
    ParseBinXml env buf fuel ctx g ≠ .outOfFuel ∧
    (∀ fuel1, len - startOf ctx < fuel1 →
      ParseBinXml env buf fuel1 ctx g = ParseBinXml env buf fuel ctx g) ∧
    ParseBinXml env buf (len + 1) ctx g ≠ .outOfFuel ∧
    (∀ (P : Parser) (tag : Nat) (c c1 : ParseContext) (g0 g1 : Globals) (b : Bool),
      c.offset < c.dataLen →
      dispatchToken env buf P tag { c with offset := c.offset + 1 } g0 = .done (b, c1, g1) →
      c1.data = c.data ∧ c.offset + 1 ≤ c1.offset) ∧
    (∀ (P P1 : Parser) (tag : Nat) (c : ParseContext) (g0 : Globals),
      AgreeAbove (startOf c + 1) P P1 →
      dispatchToken env buf P tag { c with offset := c.offset + 1 } g0 =
        dispatchToken env buf P1 tag { c with offset := c.offset + 1 } g0) := by
  have key := ParseBinXmlLoop_enough env buf len hfin
  have hs : ∀ f, len - startOf ctx < f → fuelFor len { ctx with state := .StateNormal } ≤ f := by
    intro f hf
    unfold fuelFor startOf
    unfold startOf at hf
    simp only
    omega
  refine ⟨?_, ?_, ?_, ?_, ?_⟩
  · exact (key fuel _ g (hs fuel hfuel)).2
  · intro fuel1 h1
    unfold ParseBinXml
    rw [(key fuel1 _ g (hs fuel1 h1)).1, (key fuel _ g (hs fuel hfuel)).1]
  · exact (key (len + 1) _ g (hs (len + 1) (by omega))).2
  · intro P tag c c1 g0 g1 b hlt h
    have hf := (dispatchToken_frame GlobalsStep_trivial env buf P (ParserRespects_trivial P)
      _ _ _ _ _ _ (by simp only; omega) h).1
    exact ⟨hf.1, hf.2.2.2.2.2⟩
  · intro P P1 tag c g0 hA
    exact dispatchToken_congr env buf P P1 (startOf c + 1) tag _ g0 hA (by
      unfold startOf
      simp only
      omega)

/-- Witness of C27: the stream `failedThenLater`, which nests two calls. -/
theorem C27_termination_witness :
    (∀ i, failedThenLater.length ≤ i → bufferOf failedThenLater i = none) ∧
    failedThenLater.length - startOf (contextAt failedThenLater.length 0 0 .StateNormal) < 130 ∧
    ParseBinXml (envWith 0) (bufferOf failedThenLater) 130
      (contextAt failedThenLater.length 0 0 .StateNormal) initialGlobals ≠ .outOfFuel := by
  have hfin := bufferOf_none failedThenLater
  have hlt : failedThenLater.length -
      startOf (contextAt failedThenLater.length 0 0 .StateNormal) < 130 := by decide
  exact ⟨hfin, hlt, (C27_termination (envWith 0) (bufferOf failedThenLater)
    failedThenLater.length hfin _ initialGlobals 130 hlt).1⟩

end ParseEvtx
